import Mathlib

/-!
# viciious: the run loop (`src/target/runloop.js`)

A shallow embedding of the run loop of the emulator: the keyboard injector
(`type`, `convertToPetscii`), the frame tick that `startTimer` installs as the
interval callback, `cleanUpOnBreak`, `stop`, `stopAfterFrame`, and the
snapshot codec (`serialize`, `deserialize`).

Conventions of the embedding.

* The emulated devices (`wires`, `ram`, `vic`, `sid`, `cpu`, `cias`, `tape`)
  are not part of the run loop. Their joint state is an arbitrary type `M` and
  every method the run loop calls on them is a field of `Devices M`.
* A JavaScript call that may throw returns the state it leaves behind together
  with an `Option Exn`: a thrown exception keeps the side effects made so far.
* `state.cycle` is a JavaScript number, a double, that holds a natural number.
  It is embedded as a `Nat`, and the statement `state.cycle++` as the function
  `incrementCycle`, which adds one below `2 ^ 53` and rounds as a double does
  from there on (at `2 ^ 53` the counter no longer changes).
* A string is a Lean `String`; `for (let char of str)` walks its code points,
  which are the `Char`s of `str.data`.
-/

namespace Runloop

/-! ## Constants and collaborators -/

/-- A thrown JavaScript value, identified by its message. -/
abbrev Exn := String

/-- The three constants the run loop imports from `../tools/romLocations`
(that module is not part of the sources at hand, so they are parameters). -/
structure RomLocations where
  KEYBOARD_BUFFER_ADDR : Nat
  KEYBOARD_BUFFER_INDEX : Nat
  KEYBOARD_BUFFER_LENGTH : Nat

/-- The devices the frame loop ticks, in the order of the source. -/
inductive Subsystem
  | cpu | vic | cias | sid | tape
  deriving DecidableEq, Repr

/-- The devices whose state a snapshot holds, in the order of the source. -/
inductive Component
  | wires | ram | vic | sid | cpu | cias | tape
  deriving DecidableEq, Repr

/-- A JavaScript value, as far as JSON and the snapshot need it. -/
inductive JSValue
  | undefined
  | null
  | bool (b : Bool)
  | number (n : Int)
  | string (s : String)
  | array (items : List JSValue)
  | object (fields : List (String × JSValue))

/-- The host functions `JSON.stringify` and `JSON.parse`. -/
structure JSON where
  stringify : JSValue → String
  parse : String → Except Exn JSValue

/-- The emulated devices as the run loop sees them: every method it calls,
as a function of the joint device state `M`. A `tick` or a `deserialize`
returns the state it leaves together with the exception it threw, if any. -/
structure Devices (M : Type) where
  /-- The call `cpu.tick()`. -/
  cpuTick : M → M × Option Exn
  /-- The call `vic.tick()`. -/
  vicTick : M → M × Option Exn
  /-- The call `cias.tick()`. -/
  ciasTick : M → M × Option Exn
  /-- The call `sid.tick()`. -/
  sidTick : M → M × Option Exn
  /-- The call `tape.tick()`. -/
  tapeTick : M → M × Option Exn
  /-- The call `c64.wires.cpuRead(address)`. -/
  cpuRead : M → Nat → Nat
  /-- The call `c64.wires.cpuWrite(address, value)`. -/
  cpuWrite : M → Nat → Nat → M
  /-- The call `c64.<component>.serialize()`. -/
  serialize : Component → M → JSValue
  /-- The call `c64.<component>.deserialize(value)`. -/
  deserialize : Component → JSValue → M → M × Option Exn
  /-- The call `c64.<component>.reset()`. -/
  reset : Component → M → M

/-- What a call of one of the embedder's hooks does, seen from the run loop. -/
inductive HookResult
  | returns
  | throws (e : Exn)
  deriving DecidableEq, Repr

/-- The optional hooks `c64.hooks` that the run loop calls. -/
structure Hooks where
  didStart : Option HookResult
  didStop : Option HookResult
  updateFps : Option HookResult
  setTitle : Option HookResult

/-! ## Keyboard injector -/

/-- The value `char.charCodeAt(0)` for one element `char` of a string iteration: the
first UTF-16 code unit of the code point (the code point itself in the basic
plane, the high surrogate above it). -/
def charCodeAt0 (char : Char) : Nat :=
  if char.toNat < 0x10000 then char.toNat
  else 0xD800 + (char.toNat - 0x10000) / 0x400

/-- The function `convertToPetscii(char)`. -/
def convertToPetscii (char : Char) : Nat :=
  let asciiCode := charCodeAt0 char
  if asciiCode ≥ 65 ∧ asciiCode ≤ 90 then
    asciiCode - 64 + 192
  else if asciiCode ≥ 97 ∧ asciiCode ≤ 122 then
    asciiCode - 96 + 64
  else if asciiCode = 13 then
    13
  else if asciiCode = 10 then
    13
  else
    asciiCode

/-- The message of the error `type` throws. -/
def overflowError : Exn := "Overflow for Kernal keyboard buffer"

/-- The `for (let char of str)` loop of `type`, from the current `bufLen`. -/
def typeLoop {M : Type} (d : Devices M) (rom : RomLocations) :
    List Char → Nat → M → M × Option Exn
  | [], _, m => (m, none)
  | char :: rest, bufLen, m =>
    if bufLen ≥ rom.KEYBOARD_BUFFER_LENGTH then
      (m, some overflowError)
    else
      let m1 := d.cpuWrite m (rom.KEYBOARD_BUFFER_ADDR + bufLen) (charCodeAt0 char)
      let m2 := d.cpuWrite m1 rom.KEYBOARD_BUFFER_INDEX (bufLen + 1)
      typeLoop d rom rest (bufLen + 1) m2

/-- The function `type(str)`: the buffer length is read once, then the loop runs. -/
def type {M : Type} (d : Devices M) (rom : RomLocations) (str : String) (m : M) :
    M × Option Exn :=
  typeLoop d rom str.data (d.cpuRead m rom.KEYBOARD_BUFFER_INDEX) m

/-- Where an observation of `typePet` ends: its promise has resolved, or it is
still suspended in the loop that waits for space in the buffer. -/
inductive PetOutcome
  | resolved
  | waiting
  deriving DecidableEq, Repr

/-- The state of a call of `typePet` at the end of an observation: the
devices, the bus writes it made so far (oldest first), the number of waits
it went through, and where it stands. -/
structure PetResult (M : Type) where
  machine : M
  writes : List (Nat × Nat)
  waits : Nat
  outcome : PetOutcome

/-- The loop `while (bufLen >= KEYBOARD_BUFFER_LENGTH)` of `typePet`. Each turn
suspends the caller for 10 ms, during which the rest of the system acts on
the devices (`env i` is what happens during wait number `i`), and then reads
the buffer length again. The observation covers at most `fuel` waits: the
result is `none` for the buffer length when the loop is still waiting after
them, and otherwise the length found, with the waits left over. -/
def waitForSpace {M : Type} (d : Devices M) (rom : RomLocations) (env : Nat → M → M) :
    Nat → Nat → Nat → M → Option Nat × Nat × Nat × M
  | 0, bufLen, waits, m =>
    if bufLen ≥ rom.KEYBOARD_BUFFER_LENGTH then (none, 0, waits, m)
    else (some bufLen, 0, waits, m)
  | fuel + 1, bufLen, waits, m =>
    if bufLen ≥ rom.KEYBOARD_BUFFER_LENGTH then
      waitForSpace d rom env fuel (d.cpuRead (env waits m) rom.KEYBOARD_BUFFER_INDEX)
        (waits + 1) (env waits m)
    else (some bufLen, fuel + 1, waits, m)

/-- The `for (let char of str)` loop of `typePet`, from the current `bufLen`,
with the writes made so far in `log`. -/
def typePetLoop {M : Type} (d : Devices M) (rom : RomLocations) (env : Nat → M → M) :
    List Char → Nat → Nat → Nat → M → List (Nat × Nat) → PetResult M
  | [], _, _, waits, m, log =>
    { machine := m, writes := log, waits := waits, outcome := PetOutcome.resolved }
  | char :: rest, fuel, bufLen, waits, m, log =>
    match waitForSpace d rom env fuel bufLen waits m with
    | (none, _, waits1, m1) =>
      { machine := m1, writes := log, waits := waits1, outcome := PetOutcome.waiting }
    | (some bufLen1, fuel1, waits1, m1) =>
      let petsciiChar := convertToPetscii char
      let m2 := d.cpuWrite m1 (rom.KEYBOARD_BUFFER_ADDR + bufLen1) petsciiChar
      let m3 := d.cpuWrite m2 rom.KEYBOARD_BUFFER_INDEX (bufLen1 + 1)
      typePetLoop d rom env rest fuel1 (bufLen1 + 1) waits1 m3
        (log ++ [(rom.KEYBOARD_BUFFER_ADDR + bufLen1, petsciiChar),
          (rom.KEYBOARD_BUFFER_INDEX, bufLen1 + 1)])

/-- The function `typePet(str)`, observed for at most `fuel` waits. -/
def typePet {M : Type} (d : Devices M) (rom : RomLocations) (env : Nat → M → M) (fuel : Nat)
    (str : String) (m : M) : PetResult M :=
  typePetLoop d rom env str.data fuel (d.cpuRead m rom.KEYBOARD_BUFFER_INDEX) 0 m []

/-! ## Scheduler state -/

/-- The value of `profile.fps`: a JavaScript number, possibly `Infinity`. -/
inductive Fps
  | finite (q : ℚ)
  | infinity

/-- A run profile after the defaults are applied. The stop predicate
`profile.tick()` reads the device state and the cycle counter (through
`getState()`), returns a boolean or throws, and changes nothing. -/
structure Profile (M : Type) where
  tick : M → Nat → Except Exn Bool
  fps : Fps

/-- An interval registered with `setInterval` and not yet cleared: its id,
the profile its callback closes over, and its delay in milliseconds. -/
structure Interval (M : Type) where
  id : Nat
  profile : Profile M
  delay : ℚ

/-- What the run loop does that is visible from outside, in order. -/
inductive Event
  /-- A call of a device's `tick()`, with the value of `state.cycle` at the call. -/
  | tick (s : Subsystem) (cycle : Nat)
  /-- A call `clearInterval(timer)`, with the value of `timer`. -/
  | clearInterval (timer : Option Nat)
  /-- A call of the hook `didStart`. -/
  | didStart
  /-- A call of the hook `didStop`. -/
  | didStop
  /-- A call of the hook `updateFps`, with its argument (`none`: not finite). -/
  | updateFps (value : Option Int)
  /-- A call of the hook `setTitle`. -/
  | setTitle (title : String)
  /-- A call of `resolveBreakPromise`, with the promise it resolves. -/
  | resolve (promise : Nat)
  /-- A call of `console.error` with a caught exception. -/
  | consoleError (e : Exn)
  deriving DecidableEq, Repr

/-- The module variables of the run loop, the device state, and the part of
the host the run loop acts on (registered intervals, resolved promises, and
the trace of calls made so far). -/
structure World (M : Type) where
  /-- The joint state of the devices. -/
  machine : M
  /-- The counter `state.cycle`. -/
  cycle : Nat
  masterStop : Bool
  frameStop : Bool
  /-- The variable `timer`: `none` is `undefined`. -/
  timer : Option Nat
  lastProfile : Option (Profile M)
  speedMultiplier : ℚ
  /-- The promise whose `resolve` is held in `resolveBreakPromise`. -/
  resolveBreakPromise : Option Nat
  timeAtWaypoint : ℚ
  framesSinceWaypoint : Nat
  /-- Host: the intervals set and not cleared. -/
  intervals : List (Interval M)
  /-- Host: the next fresh id for an interval or a promise. -/
  nextId : Nat
  /-- Host: the promises resolved so far. -/
  resolved : List Nat
  /-- The calls made so far, oldest first. -/
  trace : List Event

/-- How many frames to run for a single frames-per-second sample. -/
def FRAMES_PER_WAYPOINT : Nat := 50

/-- The number of cycles of one frame: the bound `63 * 312` of the loop. -/
@[irreducible] def CYCLES_PER_FRAME : Nat := 63 * 312

/-- Record a call in the trace. -/
def World.emit {M : Type} (w : World M) (e : Event) : World M :=
  { w with trace := w.trace ++ [e] }

/-- Sequencing of two calls: the second runs only if the first did not throw. -/
def andThen {M : Type} (r : World M × Option Exn)
    (k : World M → World M × Option Exn) : World M × Option Exn :=
  match r.2 with
  | none => k r.1
  | some e => (r.1, some e)

/-- The statement `if (c64.hooks.h) c64.hooks.h(..)` for a hook `h`. -/
def callHook {M : Type} (hook : Option HookResult) (e : Event) (w : World M) :
    World M × Option Exn :=
  match hook with
  | none => (w, none)
  | some .returns => (w.emit e, none)
  | some (.throws x) => (w.emit e, some x)

/-- The host function `clearInterval(timer)`: an `undefined` or unknown id
clears nothing. -/
def clearInterval {M : Type} (timer : Option Nat) (w : World M) : World M :=
  { w with
    intervals := w.intervals.filter (fun i => decide (some i.id ≠ timer))
    trace := w.trace ++ [Event.clearInterval timer] }

/-- The statement `if (resolveBreakPromise) resolveBreakPromise()`. -/
def resolveBreak {M : Type} (w : World M) : World M :=
  match w.resolveBreakPromise with
  | none => w
  | some p => { w with resolved := p :: w.resolved, trace := w.trace ++ [Event.resolve p] }

/-! ## Control -/

/-- The function `getState()`, as the counter it holds. -/
def getState {M : Type} (w : World M) : Nat := w.cycle

/-- The function `stop()`. -/
def stop {M : Type} (w : World M) : World M :=
  { w with masterStop := true }

/-- The function `stopAfterFrame()`. -/
def stopAfterFrame {M : Type} (w : World M) : World M :=
  { w with frameStop := true }

/-- The function `isRunning()`. -/
def isRunning {M : Type} (w : World M) : Bool := !w.masterStop

/-- The function `cleanUpOnBreak()`. -/
def cleanUpOnBreak {M : Type} (h : Hooks) (w : World M) : World M × Option Exn :=
  andThen (callHook h.didStop Event.didStop (clearInterval w.timer w)) fun w1 =>
    (resolveBreak { w1 with timer := none }, none)

/-! ## The frame tick -/

/-- One call `device.tick()` inside the frame loop. -/
def tickDevice {M : Type} (f : M → M × Option Exn) (s : Subsystem) (w : World M) :
    World M × Option Exn :=
  ({ w with machine := (f w.machine).1, trace := w.trace ++ [Event.tick s w.cycle] },
    (f w.machine).2)

/-- The statement `state.cycle++`, on the value of the counter. The counter
is a double that holds a natural number. Below `2 ^ 53` the sum `c + 1` is a
double, so the increment is exact. From `2 ^ 53` on the sum is rounded to the
nearest double, a tie going to the even significand: a double `c < 2 ^ 54` is
even and `c + 1` lies half way between `c` and `c + 2`, which gives `c + 2`
when `c % 4 = 2` and `c` when `c % 4 = 0`; a double `c ≥ 2 ^ 54` is a multiple
of four and `c + 1` rounds back to `c`. -/
def incrementCycle (c : Nat) : Nat :=
  if c < 2 ^ 53 then c + 1
  else if c < 2 ^ 54 ∧ c % 4 = 2 then c + 2
  else c

/-- The first six statements of the loop body: `state.cycle++` and the five
ticks. A tick that throws ends the body there. -/
def cycleBody {M : Type} (d : Devices M) (w : World M) : World M × Option Exn :=
  andThen (tickDevice d.cpuTick Subsystem.cpu
      { w with cycle := incrementCycle w.cycle }) fun w1 =>
  andThen (tickDevice d.vicTick Subsystem.vic w1) fun w2 =>
  andThen (tickDevice d.ciasTick Subsystem.cias w2) fun w3 =>
  andThen (tickDevice d.sidTick Subsystem.sid w3) fun w4 =>
  tickDevice d.tapeTick Subsystem.tape w4

/-- The condition `masterStop || profile.tick()`: the predicate is not called
when `masterStop` is set. -/
def stopCondition {M : Type} (profile : Profile M) (w : World M) : Except Exn Bool :=
  if w.masterStop then Except.ok true else profile.tick w.machine w.cycle

/-- How the `for` loop of a frame tick ends. -/
inductive LoopExit
  /-- The counter `i` reached `63 * 312`. -/
  | completed
  /-- The statement `break` was reached. -/
  | broke
  /-- An exception left the loop. -/
  | threw (e : Exn)
  deriving DecidableEq, Repr

/-- The loop `for (let i = 0; i < 63 * 312; i++) ..` with `n` iterations left. -/
def forLoop {M : Type} (d : Devices M) (h : Hooks) (profile : Profile M) :
    Nat → World M → World M × LoopExit
  | 0, w => (w, LoopExit.completed)
  | n + 1, w =>
    match cycleBody d w with
    | (w1, some e) => (w1, LoopExit.threw e)
    | (w1, none) =>
      match stopCondition profile w1 with
      | Except.error e => (w1, LoopExit.threw e)
      | Except.ok true =>
        match cleanUpOnBreak h w1 with
        | (w2, some e) => (w2, LoopExit.threw e)
        | (w2, none) => (w2, LoopExit.broke)
      | Except.ok false => forLoop d h profile n w1

/-- The value `Math.round((1000 * FRAMES_PER_WAYPOINT) / (now - timeAtWaypoint))`;
`none` when the division is by zero. -/
def fpsSample (now timeAtWaypoint : ℚ) : Option Int :=
  if now - timeAtWaypoint = 0 then none
  else some ⌊(1000 * (FRAMES_PER_WAYPOINT : ℚ)) / (now - timeAtWaypoint) + 1 / 2⌋

/-- The frames-per-second counter that follows the loop; `now` is what
`performance.now()` returns. -/
def waypoint {M : Type} (h : Hooks) (now : ℚ) (w : World M) : World M × Option Exn :=
  let w1 := { w with framesSinceWaypoint := w.framesSinceWaypoint + 1 }
  if w1.framesSinceWaypoint = FRAMES_PER_WAYPOINT then
    andThen (callHook h.updateFps (Event.updateFps (fpsSample now w1.timeAtWaypoint)) w1)
      fun w2 => ({ w2 with timeAtWaypoint := now, framesSinceWaypoint := 0 }, none)
  else
    (w1, none)

/-- The statement `if (frameStop) cleanUpOnBreak()`. -/
def frameStopCheck {M : Type} (h : Hooks) (w : World M) : World M × Option Exn :=
  if w.frameStop then cleanUpOnBreak h w else (w, none)

/-- The body of the `try` block of the interval callback. -/
def tryBlock {M : Type} (d : Devices M) (h : Hooks) (profile : Profile M) (now : ℚ)
    (w : World M) : World M × Option Exn :=
  match forLoop d h profile CYCLES_PER_FRAME w with
  | (w1, LoopExit.threw e) => (w1, some e)
  | (w1, _) => andThen (waypoint h now w1) (frameStopCheck h)

/-- The interval callback that `startTimer(profile)` registers: one frame
tick. The exception in the result is one that escapes the callback. -/
def frameTick {M : Type} (d : Devices M) (h : Hooks) (profile : Profile M) (now : ℚ)
    (w : World M) : World M × Option Exn :=
  match tryBlock d h profile now w with
  | (w1, none) => (w1, none)
  | (w1, some e) => cleanUpOnBreak h (w1.emit (Event.consoleError e))

/-! ## Starting and pacing an episode -/

/-- The delay `1000 / (profile.fps * speedMultiplier)` handed to `setInterval`,
in exact arithmetic; with `fps` `Infinity` and a positive multiplier it is 0.
(A product that is zero or not a number gives a JavaScript value that is no
rational number: such calls lie outside this definition.) -/
def pacingDelay (fps : Fps) (speedMultiplier : ℚ) : ℚ :=
  match fps with
  | Fps.finite f => 1000 / (f * speedMultiplier)
  | Fps.infinity => 0

/-- The function `startTimer(profile)`: `setInterval` registers the frame tick
of `profile` under a fresh id, which `timer` then holds. -/
def startTimer {M : Type} (profile : Profile M) (w : World M) : World M :=
  { w with
    timer := some w.nextId
    intervals := w.intervals ++
      [{ id := w.nextId, profile := profile,
         delay := pacingDelay profile.fps w.speedMultiplier }]
    nextId := w.nextId + 1 }

/-- The function `setSpeed(multiplier)`. -/
def setSpeed {M : Type} (multiplier : ℚ) (w : World M) : World M :=
  let w1 := { w with speedMultiplier := multiplier }
  match w1.timer, w1.lastProfile with
  | some t, some lastProfile => startTimer lastProfile (clearInterval (some t) w1)
  | _, _ => w1

/-- The argument of `run`: an object in which either field may be missing
(`run()` without an argument is the object without fields). -/
structure ProfileArg (M : Type) where
  tick : Option (M → Nat → Except Exn Bool)
  fps : Option Fps

/-- The object `{ tick: () => false, fps: 50, ...profile }`. -/
def applyDefaults {M : Type} (arg : ProfileArg M) : Profile M where
  tick := arg.tick.getD (fun _ _ => Except.ok false)
  fps := arg.fps.getD (Fps.finite 50)

/-- The function `run(profile)`; `now` is what `performance.now()` returns.
The result is the promise it returns, or the exception it throws. -/
def run {M : Type} (h : Hooks) (now : ℚ) (arg : ProfileArg M) (w : World M) :
    World M × Except Exn Nat :=
  let profile := applyDefaults arg
  let w1 := { w with lastProfile := some profile }
  let breakPromise := w1.nextId
  let w2 := { w1 with resolveBreakPromise := some breakPromise, nextId := w1.nextId + 1 }
  let w3 :=
    match w2.timer with
    | some t => clearInterval (some t) { w2 with masterStop := true }
    | none => w2
  let w4 := { w3 with masterStop := false, frameStop := false }
  let w5 := { w4 with timeAtWaypoint := now, framesSinceWaypoint := 0 }
  let w6 := startTimer profile w5
  match callHook h.didStart Event.didStart w6 with
  | (w7, some e) => (w7, Except.error e)
  | (w7, none) => (w7, Except.ok breakPromise)

/-- Where the first, synchronous part of a call of `untilPc` ends. -/
inductive UntilPcStep
  /-- The function returned: its promise is resolved, with `undefined`. -/
  | returned
  /-- The function is suspended at `await run(..)` on this promise. -/
  | awaiting (promise : Nat)
  /-- The function threw: its promise is rejected. -/
  | threw (e : Exn)
  deriving DecidableEq, Repr

/-- The message `untilPc` logs when the address is missing. -/
def missingPcError : Exn := "Missing argument: PC address"

/-- The function `untilPc(pc, fast)` up to its first `await`; `regsPc` reads
`pc` from the object that `c64.cpu.getState()` returns, and a missing `pc` is
`none`. -/
def untilPc {M : Type} (h : Hooks) (now : ℚ) (regsPc : M → Nat) (pc : Option Nat)
    (_fast : Bool) (w : World M) : World M × UntilPcStep :=
  match pc with
  | none => (w.emit (Event.consoleError missingPcError), UntilPcStep.returned)
  | some target =>
    match run h now
        { tick := some (fun m _ => Except.ok (decide (regsPc m ≠ target))), fps := none } w with
    | (w1, Except.error e) => (w1, UntilPcStep.threw e)
    | (w1, Except.ok promise) => (w1, UntilPcStep.awaiting promise)

/-- The rest of `untilPc(pc, fast)`, entered when the awaited promise has
resolved: the second `run`, whose promise the function returns. -/
def untilPcResume {M : Type} (h : Hooks) (now : ℚ) (regsPc : M → Nat) (target : Nat)
    (fast : Bool) (w : World M) : World M × Except Exn Nat :=
  run h now
    { tick := some (fun m _ => Except.ok (decide (regsPc m = target))),
      fps := if fast then some Fps.infinity else none } w

/-! ## Snapshot codec -/

/-- The function `reset()`. -/
def reset {M : Type} (d : Devices M) (h : Hooks) (w : World M) : World M × Option Exn :=
  let m1 := d.reset Component.wires w.machine
  let m2 := d.reset Component.ram m1
  let m3 := d.reset Component.vic m2
  let m4 := d.reset Component.sid m3
  let m5 := d.reset Component.cpu m4
  let m6 := d.reset Component.cias m5
  let m7 := d.reset Component.tape m6
  callHook h.setTitle (Event.setTitle "") { w with cycle := 0, machine := m7 }

/-- The object held in `state`. -/
def stateObject {M : Type} (w : World M) : JSValue :=
  JSValue.object [("cycle", JSValue.number w.cycle)]

/-- The object `serialize()` hands to `JSON.stringify`. -/
def snapshotObject {M : Type} (J : JSON) (d : Devices M) (w : World M) : JSValue :=
  JSValue.object [
    ("version", JSValue.object [
      ("creator", JSValue.string "viciious"),
      ("major", JSValue.number 0),
      ("minor", JSValue.number 1)]),
    ("runloop", JSValue.string (J.stringify (stateObject w))),
    ("wires", d.serialize Component.wires w.machine),
    ("ram", d.serialize Component.ram w.machine),
    ("vic", d.serialize Component.vic w.machine),
    ("sid", d.serialize Component.sid w.machine),
    ("cpu", d.serialize Component.cpu w.machine),
    ("cias", d.serialize Component.cias w.machine),
    ("tape", d.serialize Component.tape w.machine)]

/-- The function `serialize()`. -/
def serialize {M : Type} (J : JSON) (d : Devices M) (w : World M) : String :=
  J.stringify (snapshotObject J d w)

/-- A property read `obj.key`: a `TypeError` on `undefined` and `null`,
`undefined` where the property is missing. -/
def JSValue.getProp (obj : JSValue) (key : String) : Except Exn JSValue :=
  match obj with
  | JSValue.undefined => Except.error "TypeError"
  | JSValue.null => Except.error "TypeError"
  | JSValue.object fields => Except.ok ((fields.lookup key).getD JSValue.undefined)
  | _ => Except.ok JSValue.undefined

/-- The counter of a scheduler state of the shape that `reset` and the frame
loop produce, an object whose one field `cycle` is a non-negative integer. -/
def decodeState (st : JSValue) : Option Nat :=
  match st with
  | JSValue.object [("cycle", JSValue.number n)] => if 0 ≤ n then some n.toNat else none
  | _ => none

/-- One statement `c64.<component>.deserialize(obj.<key>)`. -/
def restoreDevice {M : Type} (d : Devices M) (obj : JSValue) (c : Component)
    (key : String) (w : World M) : World M × Option Exn :=
  match obj.getProp key with
  | Except.error e => (w, some e)
  | Except.ok v =>
    ({ w with machine := (d.deserialize c v w.machine).1 }, (d.deserialize c v w.machine).2)

/-- The function `deserialize(json)`. The result is `none` where the snapshot
stores, as `runloop`, something other than the JSON text of a scheduler state
in the sense of `decodeState`: the embedding has no counter for such a
`state`. -/
def deserialize {M : Type} (J : JSON) (d : Devices M) (json : String) (w : World M) :
    Option (World M × Option Exn) :=
  match J.parse json with
  | Except.error e => some (w, some e)
  | Except.ok obj =>
    match obj.getProp "runloop" with
    | Except.error e => some (w, some e)
    | Except.ok (JSValue.string text) =>
      match J.parse text with
      | Except.error e => some (w, some e)
      | Except.ok st =>
        match decodeState st with
        | none => none
        | some c =>
          some <|
            andThen (restoreDevice d obj Component.wires "wires" { w with cycle := c }) fun w1 =>
            andThen (restoreDevice d obj Component.ram "ram" w1) fun w2 =>
            andThen (restoreDevice d obj Component.vic "vic" w2) fun w3 =>
            andThen (restoreDevice d obj Component.sid "sid" w3) fun w4 =>
            andThen (restoreDevice d obj Component.cpu "cpu" w4) fun w5 =>
            andThen (restoreDevice d obj Component.cias "cias" w5) fun w6 =>
            restoreDevice d obj Component.tape "tape" w6
    | Except.ok _ => none

/-! ## Reference definitions for the statements -/

/-- The bus writes of typing the character codes `codes` into a buffer that
holds `L` characters: for each code in turn, the code at the next buffer
cell and then the new length at the length cell. -/
def typeWrites (rom : RomLocations) : Nat → List Nat → List (Nat × Nat)
  | _, [] => []
  | L, c :: rest =>
    (rom.KEYBOARD_BUFFER_ADDR + L, c) :: (rom.KEYBOARD_BUFFER_INDEX, L + 1) ::
      typeWrites rom (L + 1) rest

/-- A list of bus writes `(address, value)` performed in order. -/
def applyWrites {M : Type} (d : Devices M) (ws : List (Nat × Nat)) (m : M) : M :=
  ws.foldl (fun acc aw => d.cpuWrite acc aw.1 aw.2) m

/-- A bus that is a flat memory, used to instantiate the statements. -/
def flatBus : Devices (Nat → Nat) where
  cpuTick := fun m => (m, none)
  vicTick := fun m => (m, none)
  ciasTick := fun m => (m, none)
  sidTick := fun m => (m, none)
  tapeTick := fun m => (m, none)
  cpuRead := fun m a => m a
  cpuWrite := fun m a v => fun x => if x = a then v else m x
  serialize := fun _ _ => JSValue.null
  deserialize := fun _ _ m => (m, none)
  reset := fun _ m => m

/-- The keyboard buffer locations of the C64 Kernal. -/
def kernalRom : RomLocations where
  KEYBOARD_BUFFER_ADDR := 0x0277
  KEYBOARD_BUFFER_INDEX := 0xc6
  KEYBOARD_BUFFER_LENGTH := 10

/-- Bus writes that respect the capacity of the keyboard buffer: they come in
pairs, a character written to `KEYBOARD_BUFFER_ADDR + k` with
`k < KEYBOARD_BUFFER_LENGTH` and then `k + 1`, which is at most
`KEYBOARD_BUFFER_LENGTH`, written to the length cell. -/
inductive BoundedWrites (rom : RomLocations) : List (Nat × Nat) → Prop
  | nil : BoundedWrites rom []
  | pair (k c : Nat) (rest : List (Nat × Nat)) (hk : k < rom.KEYBOARD_BUFFER_LENGTH)
      (hrest : BoundedWrites rom rest) :
      BoundedWrites rom
        ((rom.KEYBOARD_BUFFER_ADDR + k, c) :: (rom.KEYBOARD_BUFFER_INDEX, k + 1) :: rest)

/-- An environment for `typePet` on `flatBus`: during every wait the emulated
machine takes the whole keyboard buffer, which sets the length cell to 0. -/
def drainingEnv : Nat → (Nat → Nat) → (Nat → Nat) :=
  fun _ m => flatBus.cpuWrite m kernalRom.KEYBOARD_BUFFER_INDEX 0

/-- The state in which the first six statements of one loop body leave the
world (whether or not a tick threw). -/
def afterCycle {M : Type} (d : Devices M) (w : World M) : World M :=
  (cycleBody d w).1

/-- The state after `k` loop bodies. -/
def afterCycles {M : Type} (d : Devices M) : Nat → World M → World M
  | 0, w => w
  | k + 1, w => afterCycles d k (afterCycle d w)

/-- A loop body started in `w` runs its five ticks without an exception and
then finds `masterStop || profile.tick()` false. -/
def QuietCycle {M : Type} (d : Devices M) (profile : Profile M) (w : World M) : Prop :=
  (cycleBody d w).2 = none ∧ stopCondition profile (afterCycle d w) = Except.ok false

/-- The first `k` loop bodies from `w` are quiet: no tick throws, and neither
the master-stop flag nor the stop predicate fires. -/
def QuietCycles {M : Type} (d : Devices M) (profile : Profile M) (k : Nat) (w : World M) :
    Prop :=
  ∀ j, j < k → QuietCycle d profile (afterCycles d j w)

/-- A whole frame from `w` is quiet. -/
def QuietFrame {M : Type} (d : Devices M) (profile : Profile M) (w : World M) : Prop :=
  QuietCycles d profile CYCLES_PER_FRAME w

/-- The world after `n` frame ticks of the same profile, the `i`-th of them
(from 0) finding `now i` on the clock. -/
def afterFrames {M : Type} (d : Devices M) (h : Hooks) (profile : Profile M) (now : Nat → ℚ) :
    Nat → World M → World M
  | 0, w => w
  | n + 1, w => (frameTick d h profile (now n) (afterFrames d h profile now n w)).1

/-- The five calls of one cycle, in the order the spec lays down, made while
the counter holds `c`. -/
def cycleTrace (c : Nat) : List Event :=
  [Event.tick Subsystem.cpu c, Event.tick Subsystem.vic c, Event.tick Subsystem.cias c,
   Event.tick Subsystem.sid c, Event.tick Subsystem.tape c]

/-- The calls of `k` whole cycles of the loop that start with the counter at
`c`: each cycle makes its five calls with the counter as `state.cycle++` left
it. -/
def cyclesTrace : Nat → Nat → List Event
  | _, 0 => []
  | c, k + 1 => cycleTrace (incrementCycle c) ++ cyclesTrace (incrementCycle c) k

/-- The calls of `k` whole cycles as the spec counts them from `c`: the five
calls of the cycle that counts `c + 1`, then those of `c + 2`, and so on up
to `c + k`. -/
def countedTrace : Nat → Nat → List Event
  | _, 0 => []
  | c, k + 1 => cycleTrace (c + 1) ++ countedTrace (c + 1) k

/-- The order in which a cycle ticks the devices. -/
def tickOrder : List Subsystem :=
  [Subsystem.cpu, Subsystem.vic, Subsystem.cias, Subsystem.sid, Subsystem.tape]

/-- The device a call of `tick()` belongs to; `none` for any other call. -/
def Event.device : Event → Option Subsystem
  | Event.tick s _ => some s
  | _ => none

/-- The effect of one whole cycle on the devices: the five ticks composed
in the order cpu, vic, cias, sid, tape. -/
def cycleMachine {M : Type} (d : Devices M) (m : M) : M :=
  (d.tapeTick (d.sidTick (d.ciasTick (d.vicTick (d.cpuTick m).1).1).1).1).1

/-- Whether an event is a call of a device's `tick()`. -/
def Event.isTick : Event → Bool
  | Event.tick _ _ => true
  | _ => false

/-- The world `w2` comes from `w1` by finalization and hook calls only: the
devices, the counter, the two stop flags and the pending promise are the same,
`timer` is unchanged or became `undefined`, no promise became unresolved, no
interval was registered, and the trace grew by calls that are not ticks. -/
structure SameMachine {M : Type} (w1 w2 : World M) : Prop where
  machine : w2.machine = w1.machine
  cycle : w2.cycle = w1.cycle
  masterStop : w2.masterStop = w1.masterStop
  frameStop : w2.frameStop = w1.frameStop
  promise : w2.resolveBreakPromise = w1.resolveBreakPromise
  timer : w2.timer = w1.timer ∨ w2.timer = none
  resolved : ∀ r, r ∈ w1.resolved → r ∈ w2.resolved
  intervals : ∀ i, i ∈ w2.intervals → i ∈ w1.intervals
  trace : ∃ rest, w2.trace = w1.trace ++ rest ∧ ∀ e ∈ rest, Event.isTick e = false

/-- A profile whose predicate never fires: the default `tick: () => false`
with the default `fps: 50`. -/
def defaultProfile (M : Type) : Profile M where
  tick := fun _ _ => Except.ok false
  fps := Fps.finite 50

/-- Hooks of an embedder that sets `didStop` only. -/
def stopHooks : Hooks where
  didStart := none
  didStop := some HookResult.returns
  updateFps := none
  setTitle := none

/-- Hooks of an embedder whose `didStop` throws. -/
def throwingStopHooks : Hooks where
  didStart := none
  didStop := some (HookResult.throws "didStop failed")
  updateFps := none
  setTitle := none

/-- A world right after `run(profile)` on devices in state `m`: counter `c`,
no flag set, the interval 1 registered and held in `timer`, promise 2
pending. -/
def runningWorld {M : Type} (m : M) (profile : Profile M) (c : Nat) : World M where
  machine := m
  cycle := c
  masterStop := false
  frameStop := false
  timer := some 1
  lastProfile := some profile
  speedMultiplier := 4
  resolveBreakPromise := some 2
  timeAtWaypoint := 0
  framesSinceWaypoint := 0
  intervals := [{ id := 1, profile := profile, delay := 5 }]
  nextId := 3
  resolved := []
  trace := []

/-- The world when the module is loaded and attached to devices in state `m`:
no flag set, no timer, speed multiplier 4, counter 0. -/
def initialWorld {M : Type} (m : M) : World M where
  machine := m
  cycle := 0
  masterStop := false
  frameStop := false
  timer := none
  lastProfile := none
  speedMultiplier := 4
  resolveBreakPromise := none
  timeAtWaypoint := 0
  framesSinceWaypoint := 0
  intervals := []
  nextId := 0
  resolved := []
  trace := []

/-- What holds of the timer in every world the run loop reaches from
`initialWorld`: a registered interval is the one `timer` names and runs the
profile kept in `lastProfile`, and the id in `timer` is not fresh. -/
def TimerInvariant {M : Type} (w : World M) : Prop :=
  (∀ i ∈ w.intervals, some i.id = w.timer ∧ some i.profile = w.lastProfile) ∧
    ∀ t, w.timer = some t → t < w.nextId

/-- Toy devices whose CPU throws when the program counter is 2 and advances
it otherwise. -/
def faultyCpu : Devices Nat where
  cpuTick := fun m => if m = 2 then (m, some "illegal opcode") else (m + 1, none)
  vicTick := fun m => (m, none)
  ciasTick := fun m => (m, none)
  sidTick := fun m => (m, none)
  tapeTick := fun m => (m, none)
  cpuRead := fun _ _ => 0
  cpuWrite := fun m _ _ => m
  serialize := fun _ m => JSValue.number m
  deserialize := fun _ _ m => (m, none)
  reset := fun _ _ => 0

/-- Whether an event is a call `clearInterval(timer)`, the first statement of
`cleanUpOnBreak`. -/
def Event.isClearInterval : Event → Bool
  | Event.clearInterval _ => true
  | _ => false

/-- The number of runs of `cleanUpOnBreak` that a stretch of the trace of a
frame tick shows: each run starts with `clearInterval(timer)`, which a frame
tick calls nowhere else. -/
def finalizations (evs : List Event) : Nat :=
  evs.countP Event.isClearInterval

/-- The number of calls of the hook `didStop` in a stretch of the trace. -/
def didStopCalls (evs : List Event) : Nat :=
  evs.count Event.didStop

/-- How often `cleanUpOnBreak` runs in a frame tick whose hooks do not throw,
by the way the loop ended and the frame-stop flag: once for the `break`, once
for a set frame-stop flag, once for a caught exception. -/
def expectedFinalizations (exit : LoopExit) (frameStop : Bool) : Nat :=
  match exit with
  | LoopExit.completed => if frameStop then 1 else 0
  | LoopExit.broke => if frameStop then 2 else 1
  | LoopExit.threw _ => 1

/-- The worlds the run loop reaches from `initialWorld` through its entry
points, the frame ticks of its registered intervals, and whatever else acts
on the devices alone (`type`, `typePet`, the host's input handlers). -/
inductive Reachable {M : Type} (d : Devices M) (h : Hooks) : World M → Prop
  | initial (m : M) : Reachable d h (initialWorld m)
  | run (w : World M) (now : ℚ) (arg : ProfileArg M) :
      Reachable d h w → Reachable d h (run h now arg w).1
  | setSpeed (w : World M) (m : ℚ) : Reachable d h w → Reachable d h (setSpeed m w)
  | stop (w : World M) : Reachable d h w → Reachable d h (stop w)
  | stopAfterFrame (w : World M) : Reachable d h w → Reachable d h (stopAfterFrame w)
  | frameTick (w : World M) (i : Interval M) (now : ℚ) :
      Reachable d h w → i ∈ w.intervals → Reachable d h (frameTick d h i.profile now w).1
  | untilPc (w : World M) (now : ℚ) (regsPc : M → Nat) (pc : Option Nat) (fast : Bool) :
      Reachable d h w → Reachable d h (untilPc h now regsPc pc fast w).1
  | untilPcResume (w : World M) (now : ℚ) (regsPc : M → Nat) (target : Nat) (fast : Bool) :
      Reachable d h w → Reachable d h (untilPcResume h now regsPc target fast w).1
  | reset (w : World M) : Reachable d h w → Reachable d h (reset d h w).1
  | deserialize (J : JSON) (json : String) (w : World M) (r : World M × Option Exn) :
      Reachable d h w → deserialize J d json w = some r → Reachable d h r.1
  | devices (w : World M) (m : M) : Reachable d h w → Reachable d h { w with machine := m }

/-- Devices none of whose ticks ever throws. -/
def NeverThrows {M : Type} (d : Devices M) : Prop :=
  ∀ m, (d.cpuTick m).2 = none ∧ (d.vicTick m).2 = none ∧ (d.ciasTick m).2 = none ∧
    (d.sidTick m).2 = none ∧ (d.tapeTick m).2 = none

/-- Toy devices whose whole state is a program counter that the CPU tick
advances modulo 4. -/
def wrapCpu : Devices Nat where
  cpuTick := fun m => ((m + 1) % 4, none)
  vicTick := fun m => (m, none)
  ciasTick := fun m => (m, none)
  sidTick := fun m => (m, none)
  tapeTick := fun m => (m, none)
  cpuRead := fun _ _ => 0
  cpuWrite := fun m _ _ => m
  serialize := fun _ m => JSValue.number m
  deserialize := fun _ _ m => (m, none)
  reset := fun _ _ => 0

/-- The second profile of `untilPc(pc)` on `wrapCpu`: stop when the program
counter equals `pc`. -/
def atPc (pc : Nat) : Profile Nat where
  tick := fun m _ => Except.ok (decide (m = pc))
  fps := Fps.finite 50

mutual
/-- A plain rendering of a value as text, the `stringify` of `finiteJSON`. -/
def JSValue.render : JSValue → String
  | JSValue.undefined => "undefined"
  | JSValue.null => "null"
  | JSValue.bool b => toString b
  | JSValue.number n => toString n
  | JSValue.string s => "<" ++ s ++ ">"
  | JSValue.array items => "[" ++ renderItems items ++ "]"
  | JSValue.object fields => "(" ++ renderFields fields ++ ")"
/-- The rendering of the items of an array. -/
def renderItems : List JSValue → String
  | [] => ""
  | v :: rest => v.render ++ "," ++ renderItems rest
/-- The rendering of the fields of an object. -/
def renderFields : List (String × JSValue) → String
  | [] => ""
  | (k, v) :: rest => k ++ ":" ++ v.render ++ "," ++ renderFields rest
end

/-- A toy codec that knows a finite list of documents: `stringify` renders a
value and `parse` accepts exactly the renderings of the listed documents. -/
def finiteJSON (documents : List JSValue) : JSON where
  stringify := JSValue.render
  parse := fun s =>
    match documents.find? (fun v => v.render == s) with
    | some v => Except.ok v
    | none => Except.error "SyntaxError"

/-- Toy devices for the snapshot codec: each component holds one number,
serializes it as a JSON number and restores it from one. -/
def registers : Devices (Component → Nat) where
  cpuTick := fun m => (m, none)
  vicTick := fun m => (m, none)
  ciasTick := fun m => (m, none)
  sidTick := fun m => (m, none)
  tapeTick := fun m => (m, none)
  cpuRead := fun _ _ => 0
  cpuWrite := fun m _ _ => m
  serialize := fun c m => JSValue.number (m c)
  deserialize := fun c v m =>
    match v with
    | JSValue.number n => (Function.update m c n.toNat, none)
    | _ => (m, some "TypeError")
  reset := fun _ m => m

/-- A world of `registers` with 5 in every component and the counter at 7. -/
def sampleWorld : World (Component → Nat) :=
  runningWorld (fun _ => 5) (defaultProfile (Component → Nat)) 7

/-- The toy codec for the two documents a snapshot of `sampleWorld` involves. -/
def sampleJSON : JSON :=
  finiteJSON [stateObject sampleWorld, snapshotObject (finiteJSON []) registers sampleWorld]

/-! ## Keyboard injector: theorems -/

theorem typeWrites_length (rom : RomLocations) (L : Nat) (codes : List Nat) :
    (typeWrites rom L codes).length = 2 * codes.length := by
  induction codes generalizing L with
  | nil => rfl
  | cons c rest ih => simp [typeWrites, ih]; omega

theorem typeWrites_get (rom : RomLocations) (L : Nat) (codes : List Nat) (i : Nat)
    (c : Nat) (hc : codes[i]? = some c) :
    (typeWrites rom L codes)[2 * i]? = some (rom.KEYBOARD_BUFFER_ADDR + L + i, c) ∧
    (typeWrites rom L codes)[2 * i + 1]? = some (rom.KEYBOARD_BUFFER_INDEX, L + i + 1) := by
  induction codes generalizing L i with
  | nil => simp at hc
  | cons c0 rest ih =>
    cases i with
    | zero =>
      simp at hc
      simp [typeWrites, hc]
    | succ j =>
      simp at hc
      have h := ih (L + 1) j hc
      have e1 : 2 * (j + 1) = (2 * j) + 1 + 1 := by omega
      have a1 : rom.KEYBOARD_BUFFER_ADDR + L + (j + 1) = rom.KEYBOARD_BUFFER_ADDR + (L + 1) + j := by
        omega
      have a2 : L + (j + 1) + 1 = L + 1 + j + 1 := by omega
      rw [e1, a1, a2]
      simpa [typeWrites] using h

theorem typeWrites_addr (rom : RomLocations) (L : Nat) (codes : List Nat) (aw : Nat × Nat)
    (h : aw ∈ typeWrites rom L codes) :
    aw.1 = rom.KEYBOARD_BUFFER_INDEX ∨
      ∃ i, i < codes.length ∧ aw.1 = rom.KEYBOARD_BUFFER_ADDR + L + i := by
  induction codes generalizing L with
  | nil => simp [typeWrites] at h
  | cons c rest ih =>
    simp only [typeWrites, List.mem_cons] at h
    rcases h with h | h | h
    · right; exact ⟨0, by simp, by simp [h]⟩
    · left; simp [h]
    · rcases ih (L + 1) h with h1 | ⟨i, hi, h1⟩
      · left; exact h1
      · right; exact ⟨i + 1, by simp; omega, by rw [h1]; omega⟩

theorem typeLoop_fits {M : Type} (d : Devices M) (rom : RomLocations) (chars : List Char)
    (bufLen : Nat) (m : M) (h : bufLen + chars.length ≤ rom.KEYBOARD_BUFFER_LENGTH) :
    typeLoop d rom chars bufLen m =
      (applyWrites d (typeWrites rom bufLen (chars.map charCodeAt0)) m, none) := by
  induction chars generalizing bufLen m with
  | nil => rfl
  | cons c rest ih =>
    simp only [List.length_cons] at h
    have hlt : ¬ bufLen ≥ rom.KEYBOARD_BUFFER_LENGTH := by omega
    simp only [typeLoop, hlt, if_false]
    rw [ih (bufLen + 1) _ (by omega)]
    simp [typeWrites, applyWrites]

theorem typeLoop_overflow {M : Type} (d : Devices M) (rom : RomLocations) (chars : List Char)
    (bufLen : Nat) (m : M) (hne : chars ≠ [])
    (h : rom.KEYBOARD_BUFFER_LENGTH < bufLen + chars.length) :
    typeLoop d rom chars bufLen m =
      (applyWrites d (typeWrites rom bufLen
        ((chars.take (rom.KEYBOARD_BUFFER_LENGTH - bufLen)).map charCodeAt0)) m,
       some overflowError) := by
  induction chars generalizing bufLen m with
  | nil => exact absurd rfl hne
  | cons c rest ih =>
    simp only [List.length_cons] at h
    by_cases hge : bufLen ≥ rom.KEYBOARD_BUFFER_LENGTH
    · have hz : rom.KEYBOARD_BUFFER_LENGTH - bufLen = 0 := by omega
      simp [typeLoop, hge, hz, typeWrites, applyWrites]
    · simp only [typeLoop, hge, if_false]
      have hne2 : rest ≠ [] := by
        intro hr; subst hr; simp at h; omega
      rw [ih (bufLen + 1) _ hne2 (by omega)]
      have hs : rom.KEYBOARD_BUFFER_LENGTH - bufLen =
          (rom.KEYBOARD_BUFFER_LENGTH - (bufLen + 1)) + 1 := by omega
      rw [hs]
      simp [typeWrites, applyWrites]

theorem applyWrites_length_cell {M : Type} (d : Devices M) (rom : RomLocations)
    (hrw : ∀ m v, v ≤ rom.KEYBOARD_BUFFER_LENGTH →
      d.cpuRead (d.cpuWrite m rom.KEYBOARD_BUFFER_INDEX v) rom.KEYBOARD_BUFFER_INDEX = v)
    (codes : List Nat) (L : Nat) (m : M)
    (hL : d.cpuRead m rom.KEYBOARD_BUFFER_INDEX = L)
    (hcap : L + codes.length ≤ rom.KEYBOARD_BUFFER_LENGTH) :
    d.cpuRead (applyWrites d (typeWrites rom L codes) m) rom.KEYBOARD_BUFFER_INDEX =
      L + codes.length := by
  induction codes generalizing L m with
  | nil => simpa [typeWrites, applyWrites] using hL
  | cons c rest ih =>
    simp only [List.length_cons] at hcap
    have h1 := ih (L + 1)
      (d.cpuWrite (d.cpuWrite m (rom.KEYBOARD_BUFFER_ADDR + L) c) rom.KEYBOARD_BUFFER_INDEX (L + 1))
      (hrw _ _ (by omega)) (by omega)
    simp only [typeWrites, applyWrites, List.foldl_cons, List.length_cons] at h1 ⊢
    rw [h1]; omega

/-- C1: for every character, with `c` its character code, `convertToPetscii`
returns `c - 64 + 192` when `65 ≤ c ≤ 90`, `c - 96 + 64` when `97 ≤ c ≤ 122`,
`13` when `c` is 13 or 10, and `c` in every other case; `a` maps to 65, `A` to
193 and line feed to 13. -/
theorem convertToPetscii_table (char : Char) :
    (65 ≤ charCodeAt0 char ∧ charCodeAt0 char ≤ 90 →
      convertToPetscii char = charCodeAt0 char - 64 + 192) ∧
    (97 ≤ charCodeAt0 char ∧ charCodeAt0 char ≤ 122 →
      convertToPetscii char = charCodeAt0 char - 96 + 64) ∧
    (charCodeAt0 char = 13 ∨ charCodeAt0 char = 10 → convertToPetscii char = 13) ∧
    (¬ (65 ≤ charCodeAt0 char ∧ charCodeAt0 char ≤ 90) →
      ¬ (97 ≤ charCodeAt0 char ∧ charCodeAt0 char ≤ 122) →
      charCodeAt0 char ≠ 13 → charCodeAt0 char ≠ 10 →
      convertToPetscii char = charCodeAt0 char) ∧
    convertToPetscii 'a' = 65 ∧ convertToPetscii 'A' = 193 ∧
    convertToPetscii (Char.ofNat 10) = 13 := by
  refine ⟨?_, ?_, ?_, ?_, by decide, by decide, by decide⟩
  · intro h
    simp only [convertToPetscii]
    rw [if_pos (by omega)]
  · intro h
    simp only [convertToPetscii]
    rw [if_neg (by omega), if_pos (by omega)]
  · intro h
    simp only [convertToPetscii]
    rcases h with h | h
    · rw [if_neg (by omega), if_neg (by omega), if_pos h]
    · rw [if_neg (by omega), if_neg (by omega), if_neg (by omega), if_pos h]
  · intro h1 h2 h3 h4
    simp only [convertToPetscii]
    rw [if_neg (by omega), if_neg (by omega), if_neg h3, if_neg h4]

/-- C2: when the length cell holds `L` and `L + n ≤ KEYBOARD_BUFFER_LENGTH`
for a text of `n` characters, `type` succeeds and performs exactly the bus
writes `typeWrites`: there are `2 n` of them, the `i`-th character code goes to
`KEYBOARD_BUFFER_ADDR + L + i` and is followed by the write of `L + i + 1` to the
length cell, no other address is written, and on a bus where the length cell
reads back what was written to it the cell ends at `L + n`. -/
theorem type_within_capacity {M : Type} (d : Devices M) (rom : RomLocations) (str : String)
    (m : M)
    (hcap : d.cpuRead m rom.KEYBOARD_BUFFER_INDEX + str.length ≤ rom.KEYBOARD_BUFFER_LENGTH) :
    type d rom str m =
      (applyWrites d (typeWrites rom (d.cpuRead m rom.KEYBOARD_BUFFER_INDEX)
        (str.data.map charCodeAt0)) m, none) ∧
    (typeWrites rom (d.cpuRead m rom.KEYBOARD_BUFFER_INDEX)
        (str.data.map charCodeAt0)).length = 2 * str.length ∧
    (∀ i char, str.data[i]? = some char →
      (typeWrites rom (d.cpuRead m rom.KEYBOARD_BUFFER_INDEX) (str.data.map charCodeAt0))[2 * i]? =
        some (rom.KEYBOARD_BUFFER_ADDR + d.cpuRead m rom.KEYBOARD_BUFFER_INDEX + i,
          charCodeAt0 char) ∧
      (typeWrites rom (d.cpuRead m rom.KEYBOARD_BUFFER_INDEX)
          (str.data.map charCodeAt0))[2 * i + 1]? =
        some (rom.KEYBOARD_BUFFER_INDEX, d.cpuRead m rom.KEYBOARD_BUFFER_INDEX + i + 1)) ∧
    (∀ aw ∈ typeWrites rom (d.cpuRead m rom.KEYBOARD_BUFFER_INDEX) (str.data.map charCodeAt0),
      aw.1 = rom.KEYBOARD_BUFFER_INDEX ∨
      ∃ i, i < str.length ∧
        aw.1 = rom.KEYBOARD_BUFFER_ADDR + d.cpuRead m rom.KEYBOARD_BUFFER_INDEX + i) ∧
    ((∀ m0 v, v ≤ rom.KEYBOARD_BUFFER_LENGTH →
        d.cpuRead (d.cpuWrite m0 rom.KEYBOARD_BUFFER_INDEX v) rom.KEYBOARD_BUFFER_INDEX = v) →
      d.cpuRead (type d rom str m).1 rom.KEYBOARD_BUFFER_INDEX =
        d.cpuRead m rom.KEYBOARD_BUFFER_INDEX + str.length) := by
  have hlen : str.length = str.data.length := rfl
  have hrun := typeLoop_fits d rom str.data (d.cpuRead m rom.KEYBOARD_BUFFER_INDEX) m
    (by rw [← hlen]; exact hcap)
  refine ⟨hrun, ?_, ?_, ?_, ?_⟩
  · rw [typeWrites_length, List.length_map, hlen]
  · intro i char hi
    exact typeWrites_get rom _ _ i (charCodeAt0 char) (by simp [hi])
  · intro aw haw
    have h := typeWrites_addr rom _ _ aw haw
    rw [List.length_map] at h
    exact h
  · intro hrw
    have h := applyWrites_length_cell d rom hrw (str.data.map charCodeAt0)
      (d.cpuRead m rom.KEYBOARD_BUFFER_INDEX) m rfl (by rw [List.length_map]; exact hcap)
    rw [List.length_map] at h
    simp only [type, hrun]
    exact h

/-- C2, instance: typing `AB` into the empty buffer of a flat memory writes `A`
(65) at the buffer start, `B` (66) at the next cell, and leaves 2 in the length
cell. -/
theorem type_within_capacity_witness :
    flatBus.cpuRead (fun _ => 0) kernalRom.KEYBOARD_BUFFER_INDEX + "AB".length ≤
      kernalRom.KEYBOARD_BUFFER_LENGTH ∧
    type flatBus kernalRom "AB" (fun _ => 0) =
      (applyWrites flatBus [(0x0277, 65), (0xc6, 1), (0x0278, 66), (0xc6, 2)] (fun _ => 0),
        none) ∧
    (type flatBus kernalRom "AB" (fun _ => 0)).1 0x0277 = 65 ∧
    (type flatBus kernalRom "AB" (fun _ => 0)).1 0x0278 = 66 ∧
    (type flatBus kernalRom "AB" (fun _ => 0)).1 0xc6 = 2 :=
  ⟨by decide,
   (type_within_capacity flatBus kernalRom "AB" (fun _ => 0) (by decide)).1,
   by decide, by decide, by decide⟩

/-- C3: when the length cell holds `L ≤ KEYBOARD_BUFFER_LENGTH`, `type` throws
the overflow error exactly when the number of characters of the text exceeds
`KEYBOARD_BUFFER_LENGTH - L`; otherwise it throws nothing. -/
theorem type_overflow_iff {M : Type} (d : Devices M) (rom : RomLocations) (str : String)
    (m : M) (hL : d.cpuRead m rom.KEYBOARD_BUFFER_INDEX ≤ rom.KEYBOARD_BUFFER_LENGTH) :
    ((type d rom str m).2 = some overflowError ↔
      rom.KEYBOARD_BUFFER_LENGTH - d.cpuRead m rom.KEYBOARD_BUFFER_INDEX < str.length) ∧
    ((type d rom str m).2 = none ↔
      str.length ≤ rom.KEYBOARD_BUFFER_LENGTH - d.cpuRead m rom.KEYBOARD_BUFFER_INDEX) := by
  have hlen : str.length = str.data.length := rfl
  by_cases hfit : d.cpuRead m rom.KEYBOARD_BUFFER_INDEX + str.length ≤
      rom.KEYBOARD_BUFFER_LENGTH
  · have hrun := typeLoop_fits d rom str.data (d.cpuRead m rom.KEYBOARD_BUFFER_INDEX) m
      (by rw [← hlen]; exact hfit)
    simp only [type, hrun]
    constructor
    · constructor
      · intro h; cases h
      · intro h; omega
    · constructor
      · intro _; omega
      · intro _; trivial
  · have hne : str.data ≠ [] := by
      intro h0
      rw [hlen, h0] at hfit
      simp at hfit
      omega
    have hrun := typeLoop_overflow d rom str.data (d.cpuRead m rom.KEYBOARD_BUFFER_INDEX) m
      hne (by rw [← hlen]; omega)
    simp only [type, hrun]
    constructor
    · constructor
      · intro _; omega
      · intro _; trivial
    · constructor
      · intro h; cases h
      · intro h; omega

/-- C3, instance: with 9 of 10 cells used, a text of two characters overflows
and a text of one character does not. -/
theorem type_overflow_iff_witness :
    flatBus.cpuRead (fun _ => 9) kernalRom.KEYBOARD_BUFFER_INDEX ≤
      kernalRom.KEYBOARD_BUFFER_LENGTH ∧
    (type flatBus kernalRom "AB" (fun _ => 9)).2 = some overflowError ∧
    (type flatBus kernalRom "A" (fun _ => 9)).2 = none :=
  ⟨by decide,
   (type_overflow_iff flatBus kernalRom "AB" (fun _ => 9) (by decide)).1.2 (by decide),
   by decide⟩

/-- C4: when `type` throws the overflow error, the bus is left exactly as a
successful `type` of the prefix that fitted (the first
`KEYBOARD_BUFFER_LENGTH - L` characters) leaves it: the writes made are those of
that prefix and nothing is written for the failing character or any later one;
when `L ≤ KEYBOARD_BUFFER_LENGTH` and the length cell reads back what was written
to it, the cell ends at `KEYBOARD_BUFFER_LENGTH`. -/
theorem type_overflow_fitted {M : Type} (d : Devices M) (rom : RomLocations) (str : String)
    (m : M) (hfail : (type d rom str m).2 = some overflowError) :
    type d rom
        (String.mk (str.data.take
          (rom.KEYBOARD_BUFFER_LENGTH - d.cpuRead m rom.KEYBOARD_BUFFER_INDEX))) m =
      ((type d rom str m).1, none) ∧
    (type d rom str m).1 =
      applyWrites d (typeWrites rom (d.cpuRead m rom.KEYBOARD_BUFFER_INDEX)
        ((str.data.take
          (rom.KEYBOARD_BUFFER_LENGTH - d.cpuRead m rom.KEYBOARD_BUFFER_INDEX)).map
            charCodeAt0)) m ∧
    (d.cpuRead m rom.KEYBOARD_BUFFER_INDEX ≤ rom.KEYBOARD_BUFFER_LENGTH →
      (∀ m0 v, v ≤ rom.KEYBOARD_BUFFER_LENGTH →
        d.cpuRead (d.cpuWrite m0 rom.KEYBOARD_BUFFER_INDEX v) rom.KEYBOARD_BUFFER_INDEX = v) →
      d.cpuRead (type d rom str m).1 rom.KEYBOARD_BUFFER_INDEX =
        rom.KEYBOARD_BUFFER_LENGTH) := by
  have hlen : str.length = str.data.length := rfl
  by_cases hfit : d.cpuRead m rom.KEYBOARD_BUFFER_INDEX + str.data.length ≤
      rom.KEYBOARD_BUFFER_LENGTH
  · have hrun := typeLoop_fits d rom str.data (d.cpuRead m rom.KEYBOARD_BUFFER_INDEX) m hfit
    simp only [type, hrun] at hfail
    cases hfail
  · have hne : str.data ≠ [] := by
      intro h0
      simp only [type, h0, typeLoop] at hfail
      cases hfail
    have hrun := typeLoop_overflow d rom str.data (d.cpuRead m rom.KEYBOARD_BUFFER_INDEX) m
      hne (by omega)
    have hpre : d.cpuRead m rom.KEYBOARD_BUFFER_INDEX ≤ rom.KEYBOARD_BUFFER_LENGTH →
        d.cpuRead m rom.KEYBOARD_BUFFER_INDEX +
          (str.data.take
            (rom.KEYBOARD_BUFFER_LENGTH - d.cpuRead m rom.KEYBOARD_BUFFER_INDEX)).length =
          rom.KEYBOARD_BUFFER_LENGTH := by
      intro hL
      rw [List.length_take]
      omega
    refine ⟨?_, ?_, ?_⟩
    · simp only [type, hrun]
      by_cases hL : d.cpuRead m rom.KEYBOARD_BUFFER_INDEX ≤ rom.KEYBOARD_BUFFER_LENGTH
      · exact typeLoop_fits d rom _ _ m (le_of_eq (hpre hL))
      · have hz : rom.KEYBOARD_BUFFER_LENGTH - d.cpuRead m rom.KEYBOARD_BUFFER_INDEX = 0 := by
          omega
        simp [hz, typeLoop, typeWrites, applyWrites]
    · simp only [type, hrun]
    · intro hL hrw
      simp only [type, hrun]
      have h := applyWrites_length_cell d rom hrw
        ((str.data.take
          (rom.KEYBOARD_BUFFER_LENGTH - d.cpuRead m rom.KEYBOARD_BUFFER_INDEX)).map charCodeAt0)
        (d.cpuRead m rom.KEYBOARD_BUFFER_INDEX) m rfl
        (by rw [List.length_map]; exact le_of_eq (hpre hL))
      rw [h, List.length_map]
      exact hpre hL

/-- C4, instance: with 9 of 10 cells used, typing `AB` throws after `A` was
written: the bus is the one a successful `type` of `A` leaves, with the length
cell at 10 and the cell past the buffer untouched. -/
theorem type_overflow_fitted_witness :
    (type flatBus kernalRom "AB" (fun _ => 9)).2 = some overflowError ∧
    type flatBus kernalRom "A" (fun _ => 9) =
      ((type flatBus kernalRom "AB" (fun _ => 9)).1, none) ∧
    (type flatBus kernalRom "AB" (fun _ => 9)).1 0xc6 = 10 ∧
    (type flatBus kernalRom "AB" (fun _ => 9)).1 (0x0277 + 10) = 9 :=
  ⟨by decide,
   (type_overflow_fitted flatBus kernalRom "AB" (fun _ => 9) (by decide)).1,
   by decide, by decide⟩

/-! ## Scheduler: frame lemmas -/

theorem SameMachine.refl {M : Type} (w : World M) : SameMachine w w :=
  ⟨rfl, rfl, rfl, rfl, rfl, Or.inl rfl, fun _ hr => hr, fun _ hi => hi, [], by simp, by simp⟩

theorem SameMachine.trans {M : Type} {w1 w2 w3 : World M} (h12 : SameMachine w1 w2)
    (h23 : SameMachine w2 w3) : SameMachine w1 w3 := by
  obtain ⟨r1, ht1, hr1⟩ := h12.trace
  obtain ⟨r2, ht2, hr2⟩ := h23.trace
  refine ⟨h23.machine.trans h12.machine, h23.cycle.trans h12.cycle,
    h23.masterStop.trans h12.masterStop, h23.frameStop.trans h12.frameStop,
    h23.promise.trans h12.promise, ?_, fun r hr => h23.resolved r (h12.resolved r hr),
    fun i hi => h12.intervals i (h23.intervals i hi), r1 ++ r2, ?_, ?_⟩
  · rcases h23.timer with h | h
    · rcases h12.timer with h0 | h0
      · exact Or.inl (h.trans h0)
      · exact Or.inr (h.trans h0)
    · exact Or.inr h
  · rw [ht2, ht1, List.append_assoc]
  · intro e he
    rcases List.mem_append.mp he with h | h
    · exact hr1 e h
    · exact hr2 e h

theorem sameMachine_emit {M : Type} (w : World M) (e : Event) (he : Event.isTick e = false) :
    SameMachine w (w.emit e) :=
  ⟨rfl, rfl, rfl, rfl, rfl, Or.inl rfl, fun _ hr => hr, fun _ hi => hi, [e], rfl,
    by simpa using he⟩

theorem sameMachine_callHook {M : Type} (hook : Option HookResult) (e : Event)
    (he : Event.isTick e = false) (w : World M) : SameMachine w (callHook hook e w).1 := by
  rcases hook with _ | _ | x
  · exact SameMachine.refl w
  · exact sameMachine_emit w e he
  · exact sameMachine_emit w e he

theorem sameMachine_clearInterval {M : Type} (t : Option Nat) (w : World M) :
    SameMachine w (clearInterval t w) :=
  ⟨rfl, rfl, rfl, rfl, rfl, Or.inl rfl, fun _ hr => hr,
    fun _ hi => (List.mem_filter.mp hi).1, [Event.clearInterval t], rfl,
    by simp [Event.isTick]⟩

theorem sameMachine_resolveBreak {M : Type} (w : World M) : SameMachine w (resolveBreak w) := by
  unfold resolveBreak
  cases hp : w.resolveBreakPromise with
  | none => exact SameMachine.refl w
  | some p =>
    exact ⟨rfl, rfl, rfl, rfl, hp.symm, Or.inl rfl, fun _ hr => List.mem_cons_of_mem _ hr,
      fun _ hi => hi, [Event.resolve p], rfl, by simp [Event.isTick]⟩

theorem sameMachine_clearTimer {M : Type} (w : World M) :
    SameMachine w { w with timer := none } :=
  ⟨rfl, rfl, rfl, rfl, rfl, Or.inr rfl, fun _ hr => hr, fun _ hi => hi, [], by simp, by simp⟩

theorem sameMachine_andThen {M : Type} (w : World M) (r : World M × Option Exn)
    (k : World M → World M × Option Exn) (hr : SameMachine w r.1)
    (hk : ∀ w1, SameMachine w1 (k w1).1) : SameMachine w (andThen r k).1 := by
  unfold andThen
  cases hx : r.2 with
  | none => exact hr.trans (hk r.1)
  | some x => exact hr

theorem sameMachine_cleanUpOnBreak {M : Type} (h : Hooks) (w : World M) :
    SameMachine w (cleanUpOnBreak h w).1 := by
  unfold cleanUpOnBreak
  apply sameMachine_andThen
  · exact (sameMachine_clearInterval w.timer w).trans
      (sameMachine_callHook h.didStop Event.didStop rfl _)
  · intro w1
    exact (sameMachine_clearTimer w1).trans (sameMachine_resolveBreak _)

theorem sameMachine_waypoint {M : Type} (h : Hooks) (now : ℚ) (w : World M) :
    SameMachine w (waypoint h now w).1 := by
  have h0 : SameMachine w { w with framesSinceWaypoint := w.framesSinceWaypoint + 1 } :=
    ⟨rfl, rfl, rfl, rfl, rfl, Or.inl rfl, fun _ hr => hr, fun _ hi => hi, [], by simp,
      by simp⟩
  unfold waypoint
  simp only
  split
  · apply sameMachine_andThen
    · exact h0.trans (sameMachine_callHook h.updateFps (Event.updateFps _) rfl _)
    · intro w1
      exact ⟨rfl, rfl, rfl, rfl, rfl, Or.inl rfl, fun _ hr => hr, fun _ hi => hi, [], by simp,
        by simp⟩
  · exact h0

theorem sameMachine_frameStopCheck {M : Type} (h : Hooks) (w : World M) :
    SameMachine w (frameStopCheck h w).1 := by
  unfold frameStopCheck
  split
  · exact sameMachine_cleanUpOnBreak h w
  · exact SameMachine.refl w

theorem sameMachine_catch {M : Type} (h : Hooks) (r : World M × Option Exn) :
    SameMachine r.1
      (match r with
        | (w1, none) => (w1, none)
        | (w1, some e) => cleanUpOnBreak h (w1.emit (Event.consoleError e))).1 := by
  rcases r with ⟨w1, _ | e⟩
  · exact SameMachine.refl w1
  · exact (sameMachine_emit w1 (Event.consoleError e) rfl).trans (sameMachine_cleanUpOnBreak h _)

theorem frameTick_sameMachine {M : Type} (d : Devices M) (h : Hooks) (p : Profile M) (now : ℚ)
    (w : World M) :
    SameMachine (forLoop d h p CYCLES_PER_FRAME w).1 (frameTick d h p now w).1 := by
  have tail : ∀ w1 : World M, SameMachine w1
      (match andThen (waypoint h now w1) (frameStopCheck h) with
        | (w2, none) => (w2, none)
        | (w2, some e) => cleanUpOnBreak h (w2.emit (Event.consoleError e))).1 := by
    intro w1
    exact (sameMachine_andThen w1 _ _ (sameMachine_waypoint h now w1)
      (sameMachine_frameStopCheck h)).trans (sameMachine_catch h _)
  unfold frameTick tryBlock
  rcases hl : forLoop d h p CYCLES_PER_FRAME w with ⟨w1, _ | _ | e⟩
  · exact tail w1
  · exact tail w1
  · exact (sameMachine_emit w1 (Event.consoleError e) rfl).trans (sameMachine_cleanUpOnBreak h _)

theorem incrementCycle_of_lt (c : Nat) (h : c < 2 ^ 53) : incrementCycle c = c + 1 := by
  unfold incrementCycle
  rw [if_pos h]

theorem le_incrementCycle (c : Nat) : c ≤ incrementCycle c := by
  unfold incrementCycle
  split
  · omega
  · split <;> omega

theorem incrementCycle_limit : incrementCycle (2 ^ 53) = 2 ^ 53 := by
  decide

theorem le_incrementCycle_iterate (k c : Nat) : c ≤ incrementCycle^[k] c := by
  induction k generalizing c with
  | zero => exact le_refl _
  | succ k ih =>
    rw [Function.iterate_succ_apply]
    exact le_trans (le_incrementCycle c) (ih _)

/-- The counter counts up to `2 ^ 53` and stays there. -/
theorem incrementCycle_iterate (k c : Nat) (h : c ≤ 2 ^ 53) :
    incrementCycle^[k] c = min (c + k) (2 ^ 53) := by
  induction k generalizing c with
  | zero =>
    rw [Function.iterate_zero_apply]
    omega
  | succ k ih =>
    rw [Function.iterate_succ_apply]
    by_cases hc : c < 2 ^ 53
    · rw [incrementCycle_of_lt c hc, ih _ (by omega)]
      congr 1
      omega
    · have e : c = 2 ^ 53 := by omega
      subst e
      rw [incrementCycle_limit, ih _ (le_refl _)]
      omega

theorem incrementCycle_iterate_of_le (k c : Nat) (h : c + k ≤ 2 ^ 53) :
    incrementCycle^[k] c = c + k := by
  rw [incrementCycle_iterate k c (by omega)]
  omega

theorem cyclesTrace_of_le (k c : Nat) (h : c + k ≤ 2 ^ 53) :
    cyclesTrace c k = countedTrace c k := by
  induction k generalizing c with
  | zero => rfl
  | succ k ih =>
    have hc : c < 2 ^ 53 := by omega
    simp only [cyclesTrace, countedTrace, incrementCycle_of_lt c hc]
    rw [ih (c + 1) (by omega)]

theorem cycleTrace_device (c : Nat) : (cycleTrace c).filterMap Event.device = tickOrder := rfl

theorem cyclesTrace_device (k c : Nat) :
    (cyclesTrace c k).filterMap Event.device = (List.replicate k tickOrder).flatten := by
  induction k generalizing c with
  | zero => rfl
  | succ k ih =>
    simp only [cyclesTrace, List.filterMap_append, cycleTrace_device, ih, List.replicate_succ,
      List.flatten_cons]

theorem cycleBody_ok {M : Type} (d : Devices M) (w : World M)
    (h : (cycleBody d w).2 = none) :
    (cycleBody d w).1 =
      { w with
        machine := cycleMachine d w.machine
        cycle := incrementCycle w.cycle
        trace := w.trace ++ cycleTrace (incrementCycle w.cycle) } := by
  revert h
  simp only [cycleBody, andThen, tickDevice, cycleMachine, cycleTrace]
  cases h1 : (d.cpuTick w.machine).2 <;> simp only []
  · cases h2 : (d.vicTick (d.cpuTick w.machine).1).2 <;> simp only []
    · cases h3 : (d.ciasTick (d.vicTick (d.cpuTick w.machine).1).1).2 <;> simp only []
      · cases h4 : (d.sidTick (d.ciasTick (d.vicTick (d.cpuTick w.machine).1).1).1).2 <;>
          simp only []
        · intro _; simp
        · intro h; cases h
      · intro h; cases h
    · intro h; cases h
  · intro h; cases h

theorem cycleBody_shape {M : Type} (d : Devices M) (w : World M) :
    ∃ pre, (cycleBody d w).1.trace = w.trace ++ pre ∧
      pre <+: cycleTrace (incrementCycle w.cycle) ∧
      (cycleBody d w).1.cycle = incrementCycle w.cycle ∧
      ((cycleBody d w).2 ≠ none → pre ≠ []) := by
  simp only [cycleBody, andThen, tickDevice, cycleTrace]
  generalize incrementCycle w.cycle = c
  cases h1 : (d.cpuTick w.machine).2 <;> simp only []
  · cases h2 : (d.vicTick (d.cpuTick w.machine).1).2 <;> simp only []
    · cases h3 : (d.ciasTick (d.vicTick (d.cpuTick w.machine).1).1).2 <;> simp only []
      · cases h4 : (d.sidTick (d.ciasTick (d.vicTick (d.cpuTick w.machine).1).1).1).2 <;>
          simp only []
        · refine ⟨_, by simp, List.prefix_refl _, trivial, ?_⟩
          intro _; simp
        · refine ⟨[Event.tick Subsystem.cpu c, Event.tick Subsystem.vic c,
            Event.tick Subsystem.cias c, Event.tick Subsystem.sid c],
            by simp, ⟨[Event.tick Subsystem.tape c], by simp⟩, trivial, ?_⟩
          intro _; simp
      · refine ⟨[Event.tick Subsystem.cpu c, Event.tick Subsystem.vic c,
            Event.tick Subsystem.cias c],
            by simp, ⟨[Event.tick Subsystem.sid c, Event.tick Subsystem.tape c], by simp⟩,
            trivial, ?_⟩
        intro _; simp
    · refine ⟨[Event.tick Subsystem.cpu c, Event.tick Subsystem.vic c],
            by simp, ⟨[Event.tick Subsystem.cias c, Event.tick Subsystem.sid c,
              Event.tick Subsystem.tape c], by simp⟩, trivial, ?_⟩
      intro _; simp
  · refine ⟨[Event.tick Subsystem.cpu c],
            by simp, ⟨[Event.tick Subsystem.vic c, Event.tick Subsystem.cias c,
              Event.tick Subsystem.sid c, Event.tick Subsystem.tape c], by simp⟩, trivial, ?_⟩
    intro _; simp

theorem afterCycle_sameFields {M : Type} (d : Devices M) (w : World M) :
    afterCycle d w =
      { w with
        machine := (afterCycle d w).machine
        cycle := incrementCycle w.cycle
        trace := (afterCycle d w).trace } := by
  simp only [afterCycle, cycleBody, andThen, tickDevice]
  cases h1 : (d.cpuTick w.machine).2 <;> simp only []
  cases h2 : (d.vicTick (d.cpuTick w.machine).1).2 <;> simp only []
  cases h3 : (d.ciasTick (d.vicTick (d.cpuTick w.machine).1).1).2 <;> simp only []
  cases h4 : (d.sidTick (d.ciasTick (d.vicTick (d.cpuTick w.machine).1).1).1).2 <;>
    simp only []

theorem afterCycles_succ {M : Type} (d : Devices M) (k : Nat) (w : World M) :
    afterCycles d (k + 1) w = afterCycle d (afterCycles d k w) := by
  induction k generalizing w with
  | zero => rfl
  | succ k ih =>
    show afterCycles d (k + 1) (afterCycle d w) = _
    rw [ih]
    rfl

theorem afterCycle_cycle {M : Type} (d : Devices M) (w : World M) :
    (afterCycle d w).cycle = incrementCycle w.cycle := by
  rw [afterCycle_sameFields]

theorem afterCycles_cycle {M : Type} (d : Devices M) (k : Nat) (w : World M) :
    (afterCycles d k w).cycle = incrementCycle^[k] w.cycle := by
  induction k generalizing w with
  | zero => rfl
  | succ k ih =>
    show (afterCycles d k (afterCycle d w)).cycle = _
    rw [ih, afterCycle_cycle, Function.iterate_succ_apply]

theorem quietCycles_succ {M : Type} (d : Devices M) (p : Profile M) (k : Nat) (w : World M) :
    QuietCycles d p (k + 1) w ↔ QuietCycle d p w ∧ QuietCycles d p k (afterCycle d w) := by
  constructor
  · intro h
    refine ⟨h 0 (by omega), ?_⟩
    intro j hj
    exact h (j + 1) (by omega)
  · rintro ⟨h0, hk⟩ j hj
    cases j with
    | zero => exact h0
    | succ j => exact hk j (by omega)

theorem forLoop_quiet {M : Type} (d : Devices M) (h : Hooks) (p : Profile M) (n : Nat)
    (w : World M) (hq : QuietCycles d p n w) :
    forLoop d h p n w = (afterCycles d n w, LoopExit.completed) := by
  induction n generalizing w with
  | zero => rfl
  | succ n ih =>
    obtain ⟨⟨h1, h2⟩, hk⟩ := (quietCycles_succ d p n w).mp hq
    have hb : cycleBody d w = (afterCycle d w, none) := by
      rw [← h1]; rfl
    simp only [forLoop, hb, h2]
    exact ih _ hk

theorem forLoop_fires {M : Type} (d : Devices M) (h : Hooks) (p : Profile M) (n k : Nat)
    (w : World M) (hk : k < n) (hq : QuietCycles d p k w)
    (hb : (cycleBody d (afterCycles d k w)).2 = none)
    (hs : stopCondition p (afterCycles d (k + 1) w) = Except.ok true) :
    forLoop d h p n w =
      ((cleanUpOnBreak h (afterCycles d (k + 1) w)).1,
        match (cleanUpOnBreak h (afterCycles d (k + 1) w)).2 with
        | some e => LoopExit.threw e
        | none => LoopExit.broke) := by
  induction k generalizing w n with
  | zero =>
    obtain ⟨n, rfl⟩ : ∃ n0, n = n0 + 1 := ⟨n - 1, by omega⟩
    have hb2 : cycleBody d w = (afterCycle d w, none) := by
      rw [← hb]; rfl
    have hs2 : stopCondition p (afterCycle d w) = Except.ok true := hs
    have e1 : afterCycles d (0 + 1) w = afterCycle d w := rfl
    simp only [forLoop, hb2, hs2, e1]
    cases hc : cleanUpOnBreak h (afterCycle d w) with
    | mk w2 e => cases e <;> rfl
  | succ k ih =>
    obtain ⟨n, rfl⟩ : ∃ n0, n = n0 + 1 := ⟨n - 1, by omega⟩
    obtain ⟨⟨h1, h2⟩, hk2⟩ := (quietCycles_succ d p k w).mp hq
    have hb2 : cycleBody d w = (afterCycle d w, none) := by
      rw [← h1]; rfl
    simp only [forLoop, hb2, h2]
    exact ih n (afterCycle d w) (by omega) hk2 hb hs

theorem forLoop_throws {M : Type} (d : Devices M) (h : Hooks) (p : Profile M) (n k : Nat)
    (w : World M) (e : Exn) (hk : k < n) (hq : QuietCycles d p k w)
    (hfault : (cycleBody d (afterCycles d k w)).2 = some e ∨
      ((cycleBody d (afterCycles d k w)).2 = none ∧
        stopCondition p (afterCycles d (k + 1) w) = Except.error e)) :
    forLoop d h p n w = (afterCycles d (k + 1) w, LoopExit.threw e) := by
  induction k generalizing w n with
  | zero =>
    obtain ⟨n, rfl⟩ : ∃ n0, n = n0 + 1 := ⟨n - 1, by omega⟩
    have e1 : afterCycles d (0 + 1) w = afterCycle d w := rfl
    have e0 : afterCycles d 0 w = w := rfl
    rw [e1, e0] at hfault
    rw [e1]
    rcases hfault with hf | ⟨hf, hs⟩
    · have hb : cycleBody d w = (afterCycle d w, some e) := by
        rw [← hf]; rfl
      simp only [forLoop, hb]
    · have hb : cycleBody d w = (afterCycle d w, none) := by
        rw [← hf]; rfl
      simp only [forLoop, hb, hs]
  | succ k ih =>
    obtain ⟨n, rfl⟩ : ∃ n0, n = n0 + 1 := ⟨n - 1, by omega⟩
    obtain ⟨⟨h1, h2⟩, hk2⟩ := (quietCycles_succ d p k w).mp hq
    have hb2 : cycleBody d w = (afterCycle d w, none) := by
      rw [← h1]; rfl
    simp only [forLoop, hb2, h2]
    exact ih n (afterCycle d w) (by omega) hk2 hfault

theorem afterCycles_timer {M : Type} (d : Devices M) (k : Nat) (w : World M) :
    (afterCycles d k w).timer = w.timer := by
  induction k with
  | zero => rfl
  | succ k ih => rw [afterCycles_succ, afterCycle_sameFields]; exact ih

theorem afterCycles_promise {M : Type} (d : Devices M) (k : Nat) (w : World M) :
    (afterCycles d k w).resolveBreakPromise = w.resolveBreakPromise := by
  induction k with
  | zero => rfl
  | succ k ih => rw [afterCycles_succ, afterCycle_sameFields]; exact ih

theorem afterCycles_noFault {M : Type} (d : Devices M) (k : Nat) (w : World M)
    (hnf : ∀ j, j < k → (cycleBody d (afterCycles d j w)).2 = none) :
    afterCycles d k w =
      { w with
        machine := (cycleMachine d)^[k] w.machine
        cycle := incrementCycle^[k] w.cycle
        trace := w.trace ++ cyclesTrace w.cycle k } := by
  induction k generalizing w with
  | zero => simp [afterCycles, cyclesTrace]
  | succ k ih =>
    have h0 := cycleBody_ok d w (hnf 0 (by omega))
    show afterCycles d k (afterCycle d w) = _
    rw [ih (afterCycle d w) (fun j hj => hnf (j + 1) (by omega))]
    simp only [afterCycle, h0, cyclesTrace, Function.iterate_succ_apply, List.append_assoc]

theorem forLoop_shape {M : Type} (d : Devices M) (h : Hooks) (p : Profile M) (n : Nat)
    (w : World M) :
    ∃ k pre rest, k ≤ n ∧ pre <+: cycleTrace (incrementCycle^[k + 1] w.cycle) ∧
      (forLoop d h p n w).1.trace = w.trace ++ cyclesTrace w.cycle k ++ pre ++ rest ∧
      (∀ e ∈ rest, Event.isTick e = false) ∧
      (pre = [] → (0 < n → 1 ≤ k) ∧
        (forLoop d h p n w).1.cycle = incrementCycle^[k] w.cycle ∧
        (forLoop d h p n w).1.machine = (cycleMachine d)^[k] w.machine) ∧
      (pre ≠ [] → (forLoop d h p n w).1.cycle = incrementCycle^[k + 1] w.cycle ∧
        (cycleBody d (afterCycles d k w)).2 ≠ none) := by
  induction n generalizing w with
  | zero =>
    refine ⟨0, [], [], le_refl _, List.nil_prefix, by simp [forLoop, cyclesTrace],
      by simp, ?_, ?_⟩
    · intro _; exact ⟨fun h0 => absurd h0 (by omega), rfl, rfl⟩
    · intro h0; exact absurd rfl h0
  | succ n ih =>
    cases hb : (cycleBody d w).2 with
    | some e =>
      obtain ⟨pre, ht, hpre, hc, hne⟩ := cycleBody_shape d w
      have hl : forLoop d h p (n + 1) w = ((cycleBody d w).1, LoopExit.threw e) := by
        rcases hcb : cycleBody d w with ⟨w1, f⟩
        rw [hcb] at hb
        simp only at hb
        subst hb
        simp only [forLoop, hcb]
      refine ⟨0, pre, [], by omega, by simpa using hpre, ?_, by simp, ?_, ?_⟩
      · rw [hl]; simp [cyclesTrace, ht]
      · intro h0
        exact absurd h0 (hne (by rw [hb]; simp))
      · intro _
        rw [hl]
        exact ⟨by simpa using hc, by simp [afterCycles, hb]⟩
    | none =>
      have hok := cycleBody_ok d w hb
      have hcb : cycleBody d w = (afterCycle d w, none) := by
        rw [← hb]; rfl
      have hac : afterCycle d w = (cycleBody d w).1 := rfl
      cases hs : stopCondition p (afterCycle d w) with
      | error e =>
        have hl : forLoop d h p (n + 1) w = (afterCycle d w, LoopExit.threw e) := by
          simp only [forLoop, hcb, hs]
        refine ⟨1, [], [], by omega, List.nil_prefix, ?_, by simp, ?_, ?_⟩
        · rw [hl, hac, hok]; simp [cyclesTrace]
        · intro _
          rw [hl, hac, hok]
          exact ⟨fun _ => le_refl _, rfl, rfl⟩
        · intro h0; exact absurd rfl h0
      | ok b =>
        cases b with
        | true =>
          have hsm := sameMachine_cleanUpOnBreak h (afterCycle d w)
          have hl : (forLoop d h p (n + 1) w).1 = (cleanUpOnBreak h (afterCycle d w)).1 := by
            simp only [forLoop, hcb, hs]
            rcases cleanUpOnBreak h (afterCycle d w) with ⟨w2, _ | e⟩ <;> rfl
          obtain ⟨rest, hrest, hnt⟩ := hsm.trace
          refine ⟨1, [], rest, by omega, List.nil_prefix, ?_, hnt, ?_, ?_⟩
          · rw [hl, hrest, hac, hok]; simp [cyclesTrace]
          · intro _
            rw [hl, hsm.cycle, hsm.machine, hac, hok]
            exact ⟨fun _ => le_refl _, rfl, rfl⟩
          · intro h0; exact absurd rfl h0
        | false =>
          have hl : forLoop d h p (n + 1) w = forLoop d h p n (afterCycle d w) := by
            simp only [forLoop, hcb, hs]
          obtain ⟨k, pre, rest, hk, hpre, ht, hnt, h1, h2⟩ := ih (afterCycle d w)
          have hcy : (afterCycle d w).cycle = incrementCycle w.cycle := by rw [hac, hok]
          have htr : (afterCycle d w).trace =
              w.trace ++ cycleTrace (incrementCycle w.cycle) := by
            rw [hac, hok]
          have hma : (afterCycle d w).machine = cycleMachine d w.machine := by rw [hac, hok]
          have hit : ∀ j, incrementCycle^[j] (afterCycle d w).cycle =
              incrementCycle^[j + 1] w.cycle := by
            intro j
            rw [hcy, Function.iterate_succ_apply]
          refine ⟨k + 1, pre, rest, by omega, ?_, ?_, hnt, ?_, ?_⟩
          · rw [hit] at hpre
            exact hpre
          · rw [hl, ht, htr, hcy]
            simp [cyclesTrace, List.append_assoc]
          · intro h0
            obtain ⟨_, hc, hm⟩ := h1 h0
            rw [hl, hc, hm, hit, hma]
            refine ⟨fun _ => by omega, rfl, ?_⟩
            rw [Function.iterate_succ_apply]
          · intro h0
            obtain ⟨hc, hf⟩ := h2 h0
            rw [hl, hc, hit]
            exact ⟨rfl, hf⟩

/-- C6: in every frame tick the calls of `tick()` are those of `k` whole
cycles, each cycle being cpu, vic, cias, sid, tape made after `state.cycle++`
(the five calls of a cycle see the counter as that statement left it), one
cycle after the other, so that the devices ticked are cpu, vic, cias, sid,
tape repeated `k` times; they are followed only by a started part `pre` of
the next cycle when one of its ticks threw, and then by calls that are not
ticks. When no tick threw (`pre` is empty) the frame tick ran `k ≥ 1` cycles:
the counter went through `k` increments and the devices went through the five
ticks in that order `k` times. As long as the counter stays within `2 ^ 53`
every increment adds one: the calls of the `i`-th cycle see the counter at its
start value plus `i`, and the counter grows by `k`. -/
theorem frameTick_tick_order {M : Type} (d : Devices M) (h : Hooks) (p : Profile M) (now : ℚ)
    (w : World M) :
    ∃ k pre rest, k ≤ CYCLES_PER_FRAME ∧
      pre <+: cycleTrace (incrementCycle^[k + 1] w.cycle) ∧
      (frameTick d h p now w).1.trace = w.trace ++ cyclesTrace w.cycle k ++ pre ++ rest ∧
      (∀ e ∈ rest, Event.isTick e = false) ∧
      (cyclesTrace w.cycle k).filterMap Event.device = (List.replicate k tickOrder).flatten ∧
      (pre = [] → 1 ≤ k ∧ (frameTick d h p now w).1.cycle = incrementCycle^[k] w.cycle ∧
        (frameTick d h p now w).1.machine = (cycleMachine d)^[k] w.machine) ∧
      (pre ≠ [] → (frameTick d h p now w).1.cycle = incrementCycle^[k + 1] w.cycle ∧
        (cycleBody d (afterCycles d k w)).2 ≠ none) ∧
      (w.cycle + k ≤ 2 ^ 53 →
        incrementCycle^[k] w.cycle = w.cycle + k ∧
        cyclesTrace w.cycle k = countedTrace w.cycle k) ∧
      (w.cycle + k < 2 ^ 53 → incrementCycle^[k + 1] w.cycle = w.cycle + k + 1) := by
  obtain ⟨k, pre, rest, hk, hpre, ht, hnt, h1, h2⟩ := forLoop_shape d h p CYCLES_PER_FRAME w
  have hsm := frameTick_sameMachine d h p now w
  obtain ⟨rest2, ht2, hnt2⟩ := hsm.trace
  refine ⟨k, pre, rest ++ rest2, hk, hpre, ?_, ?_, cyclesTrace_device k w.cycle, ?_, ?_, ?_, ?_⟩
  · rw [ht2, ht]; simp [List.append_assoc]
  · intro e he
    rcases List.mem_append.mp he with h0 | h0
    · exact hnt e h0
    · exact hnt2 e h0
  · intro h0
    obtain ⟨hk1, hc, hm⟩ := h1 h0
    exact ⟨hk1 (by simp [CYCLES_PER_FRAME]), by rw [hsm.cycle, hc], by rw [hsm.machine, hm]⟩
  · intro h0
    obtain ⟨hc, hf⟩ := h2 h0
    exact ⟨by rw [hsm.cycle, hc], hf⟩
  · intro hb
    exact ⟨incrementCycle_iterate_of_le k w.cycle hb, cyclesTrace_of_le k w.cycle hb⟩
  · intro hb
    exact incrementCycle_iterate_of_le (k + 1) w.cycle (by omega)

theorem cleanUpOnBreak_ok {M : Type} (h : Hooks) (w : World M)
    (hd : ∀ x, h.didStop ≠ some (HookResult.throws x)) :
    (cleanUpOnBreak h w).2 = none ∧ (cleanUpOnBreak h w).1.timer = none ∧
    (∀ r, w.resolveBreakPromise = some r → r ∈ (cleanUpOnBreak h w).1.resolved) ∧
    (∀ i ∈ (cleanUpOnBreak h w).1.intervals, some i.id ≠ w.timer) ∧
    ∃ rest, (cleanUpOnBreak h w).1.trace = w.trace ++ Event.clearInterval w.timer :: rest ∧
      (h.didStop ≠ none → Event.didStop ∈ rest) ∧
      (∀ r, w.resolveBreakPromise = some r → Event.resolve r ∈ rest) := by
  rcases hh : h.didStop with _ | _ | x
  · cases hp : w.resolveBreakPromise with
    | none =>
      simp [cleanUpOnBreak, andThen, callHook, hh, resolveBreak, hp, clearInterval]
    | some r =>
      simp [cleanUpOnBreak, andThen, callHook, hh, resolveBreak, hp, clearInterval]
  · cases hp : w.resolveBreakPromise with
    | none =>
      simp [cleanUpOnBreak, andThen, callHook, hh, resolveBreak, hp, clearInterval, World.emit]
    | some r =>
      simp [cleanUpOnBreak, andThen, callHook, hh, resolveBreak, hp, clearInterval, World.emit]
  · exact absurd hh (hd x)

theorem finalized_of {M : Type} (h : Hooks) (wa wb : World M)
    (hd : ∀ x, h.didStop ≠ some (HookResult.throws x))
    (hsm : SameMachine (cleanUpOnBreak h wa).1 wb) :
    wb.timer = none ∧
    (∀ r, wa.resolveBreakPromise = some r → r ∈ wb.resolved) ∧
    (∀ i ∈ wb.intervals, some i.id ≠ wa.timer) ∧
    ∃ rest, wb.trace = wa.trace ++ Event.clearInterval wa.timer :: rest ∧
      (∀ e ∈ rest, Event.isTick e = false) ∧
      (h.didStop ≠ none → Event.didStop ∈ rest) ∧
      (∀ r, wa.resolveBreakPromise = some r → Event.resolve r ∈ rest) := by
  obtain ⟨_, ht, hr, hi, rest, htr, hds, hrs⟩ := cleanUpOnBreak_ok h wa hd
  obtain ⟨rest2, htr2, hnt2⟩ := hsm.trace
  obtain ⟨rest0, htr0, hnt0⟩ := (sameMachine_cleanUpOnBreak h wa).trace
  refine ⟨?_, fun r hr0 => hsm.resolved r (hr r hr0), fun i hi0 => hi i (hsm.intervals i hi0),
    rest ++ rest2, ?_, ?_, fun h0 => List.mem_append_left _ (hds h0),
    fun r hr0 => List.mem_append_left _ (hrs r hr0)⟩
  · rcases hsm.timer with h0 | h0
    · exact h0.trans ht
    · exact h0
  · rw [htr2, htr]; simp
  · intro e he
    rcases List.mem_append.mp he with h0 | h0
    · apply hnt0
      rw [htr] at htr0
      have := List.append_cancel_left htr0
      rw [← this]
      exact List.mem_cons_of_mem _ h0
    · exact hnt2 e h0

theorem frameTick_noEscape {M : Type} (d : Devices M) (h : Hooks) (p : Profile M) (now : ℚ)
    (w : World M) (hd : ∀ x, h.didStop ≠ some (HookResult.throws x)) :
    (frameTick d h p now w).2 = none := by
  unfold frameTick
  rcases tryBlock d h p now w with ⟨w1, _ | e⟩
  · rfl
  · exact (cleanUpOnBreak_ok h _ hd).1

theorem frameTick_advances {M : Type} (d : Devices M) (h : Hooks) (p : Profile M) (now : ℚ)
    (w : World M) (hw : w.cycle < 2 ^ 53) : w.cycle + 1 ≤ (frameTick d h p now w).1.cycle := by
  obtain ⟨k, pre, rest, _, _, _, _, h1, h2⟩ := forLoop_shape d h p CYCLES_PER_FRAME w
  rw [(frameTick_sameMachine d h p now w).cycle]
  have key : ∀ j, w.cycle + 1 ≤ incrementCycle^[j + 1] w.cycle := by
    intro j
    rw [Function.iterate_succ_apply, incrementCycle_of_lt _ hw]
    exact le_incrementCycle_iterate j _
  by_cases hp : pre = []
  · obtain ⟨hk, hc, _⟩ := h1 hp
    have hk1 := hk (by simp [CYCLES_PER_FRAME])
    obtain ⟨j, rfl⟩ : ∃ j, k = j + 1 := ⟨k - 1, by omega⟩
    rw [hc]
    exact key j
  · obtain ⟨hc, _⟩ := h2 hp
    rw [hc]
    exact key k

/-- Every frame tick starts a cycle: its first call is the CPU tick that
follows the first `state.cycle++`, whatever the stop condition would say in
the starting state. -/
theorem frameTick_first_tick {M : Type} (d : Devices M) (h : Hooks) (p : Profile M) (now : ℚ)
    (w : World M) :
    ∃ rest, (frameTick d h p now w).1.trace =
      w.trace ++ Event.tick Subsystem.cpu (incrementCycle w.cycle) :: rest := by
  obtain ⟨k, pre, rest, _, hpre, ht, _, h1, _⟩ := forLoop_shape d h p CYCLES_PER_FRAME w
  obtain ⟨rest2, ht2, _⟩ := (frameTick_sameMachine d h p now w).trace
  rw [ht2, ht]
  cases k with
  | zero =>
    have hne : pre ≠ [] := by
      intro h0
      have := (h1 h0).1 (by simp [CYCLES_PER_FRAME])
      omega
    obtain ⟨t, hpt⟩ := hpre
    cases pre with
    | nil => exact absurd rfl hne
    | cons a pre1 =>
      have ha : a = Event.tick Subsystem.cpu (incrementCycle w.cycle) := by
        have := congrArg List.head? hpt
        simpa [cycleTrace] using this
      subst ha
      exact ⟨pre1 ++ rest ++ rest2, by simp [cyclesTrace]⟩
  | succ j =>
    exact ⟨[Event.tick Subsystem.vic (incrementCycle w.cycle),
      Event.tick Subsystem.cias (incrementCycle w.cycle),
      Event.tick Subsystem.sid (incrementCycle w.cycle),
      Event.tick Subsystem.tape (incrementCycle w.cycle)] ++
      cyclesTrace (incrementCycle w.cycle) j ++ pre ++ rest ++ rest2,
      by simp [cyclesTrace, cycleTrace]⟩

/-- The frame tick in which the stop condition is first true after the
`k + 1`-th cycle: the loop ends there with `cleanUpOnBreak`. -/
theorem frameTick_fires {M : Type} (d : Devices M) (h : Hooks) (p : Profile M) (now : ℚ)
    (w : World M) (k : Nat) (hk : k < CYCLES_PER_FRAME) (hq : QuietCycles d p k w)
    (hb : (cycleBody d (afterCycles d k w)).2 = none)
    (hs : stopCondition p (afterCycles d (k + 1) w) = Except.ok true) :
    SameMachine (cleanUpOnBreak h (afterCycles d (k + 1) w)).1 (frameTick d h p now w).1 ∧
    afterCycles d (k + 1) w =
      { w with
        machine := (cycleMachine d)^[k + 1] w.machine
        cycle := incrementCycle^[k + 1] w.cycle
        trace := w.trace ++ cyclesTrace w.cycle (k + 1) } := by
  constructor
  · have := frameTick_sameMachine d h p now w
    rw [forLoop_fires d h p CYCLES_PER_FRAME k w hk hq hb hs] at this
    exact this
  · apply afterCycles_noFault
    intro j hj
    by_cases hjk : j < k
    · exact (hq j hjk).1
    · have : j = k := by omega
      subst this
      exact hb

theorem cycleBody_neverThrows {M : Type} (d : Devices M) (hd : NeverThrows d) (w : World M) :
    (cycleBody d w).2 = none := by
  simp only [cycleBody, andThen, tickDevice, (hd _).1, (hd _).2.1, (hd _).2.2.1,
    (hd _).2.2.2.1, (hd _).2.2.2.2]

theorem afterCycle_masterStop {M : Type} (d : Devices M) (w : World M) :
    (afterCycle d w).masterStop = w.masterStop := by
  rw [afterCycle_sameFields]

theorem quietCycles_of_neverThrows {M : Type} (d : Devices M) (p : Profile M)
    (hd : NeverThrows d) (hp : ∀ m c, p.tick m c = Except.ok false) (n : Nat) (w : World M)
    (hs : w.masterStop = false) : QuietCycles d p n w := by
  induction n generalizing w with
  | zero => intro j hj; omega
  | succ n ih =>
    rw [quietCycles_succ]
    refine ⟨⟨cycleBody_neverThrows d hd w, ?_⟩, ih _ ((afterCycle_masterStop d w).trans hs)⟩
    simp only [stopCondition, afterCycle_masterStop, hs, hp]
    rfl

theorem forLoop_masterStop {M : Type} (d : Devices M) (h : Hooks) (p : Profile M) (n : Nat)
    (w : World M) : (forLoop d h p n w).1.masterStop = w.masterStop := by
  induction n generalizing w with
  | zero => rfl
  | succ n ih =>
    have hac := afterCycle_masterStop d w
    rcases hcb : cycleBody d w with ⟨w1, _ | e⟩
    · have hw1 : w1 = afterCycle d w := by simp [afterCycle, hcb]
      subst hw1
      rcases hs : stopCondition p (afterCycle d w) with e | _ | _
      · simp only [forLoop, hcb, hs]; exact hac
      · simp only [forLoop, hcb, hs]; rw [ih]; exact hac
      · have hsm := sameMachine_cleanUpOnBreak h (afterCycle d w)
        simp only [forLoop, hcb, hs]
        rcases hc : cleanUpOnBreak h (afterCycle d w) with ⟨w2, _ | e⟩ <;>
          (rw [hc] at hsm; simp only []; exact hsm.masterStop.trans hac)
    · have hw1 : w1 = afterCycle d w := by simp [afterCycle, hcb]
      subst hw1
      simp only [forLoop, hcb]; exact hac

theorem frameTick_masterStop {M : Type} (d : Devices M) (h : Hooks) (p : Profile M) (now : ℚ)
    (w : World M) : (frameTick d h p now w).1.masterStop = w.masterStop :=
  (frameTick_sameMachine d h p now w).masterStop.trans (forLoop_masterStop d h p _ w)

theorem afterFrames_masterStop {M : Type} (d : Devices M) (h : Hooks) (p : Profile M)
    (now : Nat → ℚ) (n : Nat) (w : World M) :
    (afterFrames d h p now n w).masterStop = w.masterStop := by
  induction n with
  | zero => rfl
  | succ n ih => exact (frameTick_masterStop d h p _ _).trans ih

theorem frameTick_quiet {M : Type} (d : Devices M) (h : Hooks) (p : Profile M) (now : ℚ)
    (w : World M) (hq : QuietFrame d p w) :
    SameMachine (afterCycles d CYCLES_PER_FRAME w) (frameTick d h p now w).1 := by
  have hsm := frameTick_sameMachine d h p now w
  have hq2 : QuietCycles d p CYCLES_PER_FRAME w := hq
  rw [forLoop_quiet d h p CYCLES_PER_FRAME w hq2] at hsm
  exact hsm

theorem flatBus_neverThrows : NeverThrows flatBus := fun _ => ⟨rfl, rfl, rfl, rfl, rfl⟩

theorem wrapCpu_neverThrows : NeverThrows wrapCpu := fun _ => ⟨rfl, rfl, rfl, rfl, rfl⟩

theorem cleanUpOnBreak_trace {M : Type} (h : Hooks) (w : World M) :
    ∃ rest, (cleanUpOnBreak h w).1.trace = w.trace ++ Event.clearInterval w.timer :: rest ∧
      ∀ e ∈ rest, Event.isTick e = false := by
  simp only [cleanUpOnBreak, andThen, clearInterval, callHook, World.emit, resolveBreak]
  rcases h.didStop with _ | _ | x <;> rcases w.resolveBreakPromise with _ | r <;>
    simp [Event.isTick]

/-- The frame tick in which the stop condition is first true after cycle
`k + 1`: what it leaves behind. -/
theorem frameTick_fires_effect {M : Type} (d : Devices M) (h : Hooks) (p : Profile M) (now : ℚ)
    (w : World M) (k : Nat) (hk : k < CYCLES_PER_FRAME) (hq : QuietCycles d p k w)
    (hb : (cycleBody d (afterCycles d k w)).2 = none)
    (hs : stopCondition p (afterCycles d (k + 1) w) = Except.ok true) :
    (frameTick d h p now w).1.cycle = incrementCycle^[k + 1] w.cycle ∧
    (frameTick d h p now w).1.machine = (cycleMachine d)^[k + 1] w.machine ∧
    (∃ rest, (frameTick d h p now w).1.trace =
        w.trace ++ cyclesTrace w.cycle (k + 1) ++ Event.clearInterval w.timer :: rest ∧
      (∀ e ∈ rest, Event.isTick e = false) ∧
      ((∀ x, h.didStop ≠ some (HookResult.throws x)) →
        (h.didStop ≠ none → Event.didStop ∈ rest) ∧
        (∀ r, w.resolveBreakPromise = some r → Event.resolve r ∈ rest))) ∧
    ((∀ x, h.didStop ≠ some (HookResult.throws x)) →
      (frameTick d h p now w).1.timer = none ∧
      (∀ i ∈ (frameTick d h p now w).1.intervals, some i.id ≠ w.timer) ∧
      (∀ r, w.resolveBreakPromise = some r → r ∈ (frameTick d h p now w).1.resolved) ∧
      (frameTick d h p now w).2 = none) := by
  obtain ⟨hsm, hac⟩ := frameTick_fires d h p now w k hk hq hb hs
  have hcl := sameMachine_cleanUpOnBreak h (afterCycles d (k + 1) w)
  have hall := hcl.trans hsm
  have hcy : (afterCycles d (k + 1) w).cycle = incrementCycle^[k + 1] w.cycle := by rw [hac]
  have hma : (afterCycles d (k + 1) w).machine = (cycleMachine d)^[k + 1] w.machine := by
    rw [hac]
  have htr : (afterCycles d (k + 1) w).trace = w.trace ++ cyclesTrace w.cycle (k + 1) := by
    rw [hac]
  have hti : (afterCycles d (k + 1) w).timer = w.timer := by rw [hac]
  have hpr : (afterCycles d (k + 1) w).resolveBreakPromise = w.resolveBreakPromise := by
    rw [hac]
  refine ⟨by rw [hall.cycle, hcy], by rw [hall.machine, hma], ?_, ?_⟩
  · obtain ⟨r1, hr1, hn1⟩ := cleanUpOnBreak_trace h (afterCycles d (k + 1) w)
    obtain ⟨r2, hr2, hn2⟩ := hsm.trace
    refine ⟨r1 ++ r2, ?_, ?_, ?_⟩
    · rw [hr2, hr1, htr, hti]; simp
    · intro e he
      rcases List.mem_append.mp he with h0 | h0
      · exact hn1 e h0
      · exact hn2 e h0
    · intro hd
      obtain ⟨_, _, _, _, r0, hr0, hds, hrs⟩ := cleanUpOnBreak_ok h (afterCycles d (k + 1) w) hd
      have e0 : r0 = r1 := by
        rw [hr1] at hr0
        have := List.append_cancel_left hr0
        exact (List.cons_inj_right _).mp this.symm
      subst e0
      rw [hpr] at hrs
      exact ⟨fun h0 => List.mem_append_left _ (hds h0),
        fun r hr => List.mem_append_left _ (hrs r hr)⟩
  · intro hd
    obtain ⟨ht, hr, hi, _⟩ := finalized_of h (afterCycles d (k + 1) w) _ hd hsm
    rw [hti] at hi
    rw [hpr] at hr
    exact ⟨ht, hi, hr, frameTick_noEscape d h p now w hd⟩

theorem waypoint_timer {M : Type} (h : Hooks) (now : ℚ) (w : World M) :
    (waypoint h now w).1.timer = w.timer := by
  unfold waypoint andThen callHook World.emit
  simp only
  split
  · rcases h.updateFps with _ | _ | x <;> rfl
  · rfl

/-- A quiet frame tick that finds the frame-stop flag set ends with
`cleanUpOnBreak`, called on a world that differs from the one the loop left
by hook calls only. -/
theorem frameTick_frameStop {M : Type} (d : Devices M) (h : Hooks) (p : Profile M) (now : ℚ)
    (w : World M) (hq : QuietCycles d p CYCLES_PER_FRAME w) (hf : w.frameStop = true)
    (hd : ∀ x, h.didStop ≠ some (HookResult.throws x)) :
    ∃ wX, SameMachine (afterCycles d CYCLES_PER_FRAME w) wX ∧ wX.timer = w.timer ∧
      frameTick d h p now w = cleanUpOnBreak h wX := by
  have hac := afterCycles_noFault d CYCLES_PER_FRAME w (fun j hj => (hq j hj).1)
  have hfs : (afterCycles d CYCLES_PER_FRAME w).frameStop = true := by rw [hac]; exact hf
  have hti : (afterCycles d CYCLES_PER_FRAME w).timer = w.timer := by rw [hac]
  have hwp := sameMachine_waypoint h now (afterCycles d CYCLES_PER_FRAME w)
  have hwt := waypoint_timer h now (afterCycles d CYCLES_PER_FRAME w)
  unfold frameTick tryBlock
  rw [forLoop_quiet d h p CYCLES_PER_FRAME w hq]
  simp only
  rcases hw : waypoint h now (afterCycles d CYCLES_PER_FRAME w) with ⟨w2, _ | e⟩
  · rw [hw] at hwp hwt
    simp only at hwp hwt
    refine ⟨w2, hwp, hwt.trans hti, ?_⟩
    have hf2 : w2.frameStop = true := hwp.frameStop.trans hfs
    have hno := (cleanUpOnBreak_ok h w2 hd).1
    simp only [andThen, frameStopCheck, hf2, if_true]
    rcases hc : cleanUpOnBreak h w2 with ⟨w3, _ | e⟩
    · rfl
    · rw [hc] at hno; cases hno
  · rw [hw] at hwp hwt
    simp only at hwp hwt
    refine ⟨w2.emit (Event.consoleError e),
      hwp.trans (sameMachine_emit w2 (Event.consoleError e) rfl), hwt.trans hti, ?_⟩
    simp only [andThen]

theorem cleanUpOnBreak_throws {M : Type} (h : Hooks) (w : World M) (x : Exn)
    (hx : h.didStop = some (HookResult.throws x)) :
    cleanUpOnBreak h w = ((clearInterval w.timer w).emit Event.didStop, some x) := by
  simp [cleanUpOnBreak, andThen, callHook, hx]

theorem cleanUpOnBreak_clears {M : Type} (h : Hooks) (w : World M) :
    ∀ i ∈ (cleanUpOnBreak h w).1.intervals, some i.id ≠ w.timer := by
  simp only [cleanUpOnBreak, andThen, clearInterval, callHook, World.emit, resolveBreak]
  rcases h.didStop with _ | _ | x <;> rcases w.resolveBreakPromise with _ | r <;> simp

/-- With a `didStop` hook that throws, `cleanUpOnBreak` ends at the hook: the
variable `timer` and the promise are left as they were. -/
theorem cleanUpOnBreak_keeps {M : Type} (h : Hooks) (w : World M) (x : Exn)
    (hx : h.didStop = some (HookResult.throws x)) :
    (cleanUpOnBreak h w).2 = some x ∧ (cleanUpOnBreak h w).1.timer = w.timer ∧
      (cleanUpOnBreak h w).1.resolved = w.resolved := by
  rw [cleanUpOnBreak_throws h w x hx]
  exact ⟨rfl, rfl, rfl⟩

theorem afterCycle_keeps {M : Type} (d : Devices M) (w : World M) :
    (afterCycle d w).timer = w.timer ∧ (afterCycle d w).resolved = w.resolved := by
  rw [afterCycle_sameFields]
  exact ⟨rfl, rfl⟩

theorem forLoop_keeps {M : Type} (d : Devices M) (h : Hooks) (p : Profile M) (n : Nat)
    (w : World M) (x : Exn) (hx : h.didStop = some (HookResult.throws x)) :
    (forLoop d h p n w).1.timer = w.timer ∧ (forLoop d h p n w).1.resolved = w.resolved := by
  induction n generalizing w with
  | zero => exact ⟨rfl, rfl⟩
  | succ n ih =>
    have hac := afterCycle_keeps d w
    rcases hcb : cycleBody d w with ⟨w1, _ | e⟩
    · have hw1 : w1 = afterCycle d w := by simp [afterCycle, hcb]
      subst hw1
      rcases hs : stopCondition p (afterCycle d w) with e | _ | _
      · simp only [forLoop, hcb, hs]; exact hac
      · simp only [forLoop, hcb, hs]
        exact ⟨(ih _).1.trans hac.1, (ih _).2.trans hac.2⟩
      · have hk := cleanUpOnBreak_keeps h (afterCycle d w) x hx
        simp only [forLoop, hcb, hs]
        rcases hc : cleanUpOnBreak h (afterCycle d w) with ⟨w2, _ | e⟩ <;>
          (rw [hc] at hk; simp only []; exact ⟨hk.2.1.trans hac.1, hk.2.2.trans hac.2⟩)
    · have hw1 : w1 = afterCycle d w := by simp [afterCycle, hcb]
      subst hw1
      simp only [forLoop, hcb]; exact hac

theorem waypoint_keeps {M : Type} (h : Hooks) (now : ℚ) (w : World M) :
    (waypoint h now w).1.timer = w.timer ∧ (waypoint h now w).1.resolved = w.resolved := by
  unfold waypoint andThen callHook World.emit
  simp only
  split
  · rcases h.updateFps with _ | _ | x <;> exact ⟨rfl, rfl⟩
  · exact ⟨rfl, rfl⟩

theorem frameStopCheck_keeps {M : Type} (h : Hooks) (w : World M) (x : Exn)
    (hx : h.didStop = some (HookResult.throws x)) :
    (frameStopCheck h w).1.timer = w.timer ∧ (frameStopCheck h w).1.resolved = w.resolved := by
  unfold frameStopCheck
  split
  · exact (cleanUpOnBreak_keeps h w x hx).2
  · exact ⟨rfl, rfl⟩

theorem tryBlock_keeps {M : Type} (d : Devices M) (h : Hooks) (p : Profile M) (now : ℚ)
    (w : World M) (x : Exn) (hx : h.didStop = some (HookResult.throws x)) :
    (tryBlock d h p now w).1.timer = w.timer ∧
      (tryBlock d h p now w).1.resolved = w.resolved := by
  have hl := forLoop_keeps d h p CYCLES_PER_FRAME w x hx
  have tail : ∀ w1 : World M,
      (andThen (waypoint h now w1) (frameStopCheck h)).1.timer = w1.timer ∧
      (andThen (waypoint h now w1) (frameStopCheck h)).1.resolved = w1.resolved := by
    intro w1
    have hw := waypoint_keeps h now w1
    unfold andThen
    rcases hwp : waypoint h now w1 with ⟨w2, _ | e⟩
    · rw [hwp] at hw
      have hf := frameStopCheck_keeps h w2 x hx
      exact ⟨hf.1.trans hw.1, hf.2.trans hw.2⟩
    · rw [hwp] at hw
      exact hw
  unfold tryBlock
  rcases hfl : forLoop d h p CYCLES_PER_FRAME w with ⟨w1, _ | _ | e⟩
  · rw [hfl] at hl
    exact ⟨(tail w1).1.trans hl.1, (tail w1).2.trans hl.2⟩
  · rw [hfl] at hl
    exact ⟨(tail w1).1.trans hl.1, (tail w1).2.trans hl.2⟩
  · rw [hfl] at hl
    exact hl

/-- With a `didStop` hook that throws, no frame tick changes the variable
`timer` or resolves a promise; and when its `try` block throws, the exception
of the hook leaves the frame tick. -/
theorem frameTick_keeps {M : Type} (d : Devices M) (h : Hooks) (p : Profile M) (now : ℚ)
    (w : World M) (x : Exn) (hx : h.didStop = some (HookResult.throws x)) :
    (frameTick d h p now w).1.timer = w.timer ∧
    (frameTick d h p now w).1.resolved = w.resolved ∧
    ((tryBlock d h p now w).2 ≠ none → (frameTick d h p now w).2 = some x) := by
  have ht := tryBlock_keeps d h p now w x hx
  unfold frameTick
  rcases htb : tryBlock d h p now w with ⟨w1, _ | e⟩
  · rw [htb] at ht
    exact ⟨ht.1, ht.2, fun h0 => absurd rfl h0⟩
  · rw [htb] at ht
    have hk := cleanUpOnBreak_keeps h (w1.emit (Event.consoleError e)) x hx
    exact ⟨hk.2.1.trans ht.1, hk.2.2.trans ht.2, fun _ => hk.1⟩

theorem tryBlock_fires_throws {M : Type} (d : Devices M) (h : Hooks) (p : Profile M) (now : ℚ)
    (w : World M) (k : Nat) (x : Exn) (hk : k < CYCLES_PER_FRAME) (hq : QuietCycles d p k w)
    (hb : (cycleBody d (afterCycles d k w)).2 = none)
    (hs : stopCondition p (afterCycles d (k + 1) w) = Except.ok true)
    (hx : h.didStop = some (HookResult.throws x)) :
    (tryBlock d h p now w).2 ≠ none := by
  have hl := forLoop_fires d h p CYCLES_PER_FRAME k w hk hq hb hs
  rw [(cleanUpOnBreak_keeps h (afterCycles d (k + 1) w) x hx).1] at hl
  simp [tryBlock, hl]

theorem afterCycles_frameStop {M : Type} (d : Devices M) (k : Nat) (w : World M) :
    (afterCycles d k w).frameStop = w.frameStop := by
  induction k with
  | zero => rfl
  | succ k ih => rw [afterCycles_succ, afterCycle_sameFields]; exact ih

theorem tryBlock_frameStop_throws {M : Type} (d : Devices M) (h : Hooks) (p : Profile M)
    (now : ℚ) (w : World M) (x : Exn) (hq : QuietCycles d p CYCLES_PER_FRAME w)
    (hf : w.frameStop = true) (hx : h.didStop = some (HookResult.throws x)) :
    (tryBlock d h p now w).2 ≠ none := by
  have hfs : (afterCycles d CYCLES_PER_FRAME w).frameStop = true :=
    (afterCycles_frameStop d _ w).trans hf
  have hwp := sameMachine_waypoint h now (afterCycles d CYCLES_PER_FRAME w)
  unfold tryBlock
  rw [forLoop_quiet d h p CYCLES_PER_FRAME w hq]
  simp only
  rcases hw : waypoint h now (afterCycles d CYCLES_PER_FRAME w) with ⟨w2, _ | e⟩
  · rw [hw] at hwp
    have hf2 : w2.frameStop = true := hwp.frameStop.trans hfs
    simp only [andThen, frameStopCheck, hf2, if_true]
    rw [(cleanUpOnBreak_keeps h w2 x hx).1]
    simp
  · simp [andThen]

/-- A frame tick in which, after `k` quiet cycles, a tick of cycle `k + 1`
throws `e`, or the ticks return and the stop predicate throws `e`: it is the
`catch` block run on the world the fault left. -/
theorem frameTick_of_fault {M : Type} (d : Devices M) (h : Hooks) (p : Profile M)
    (now : ℚ) (w : World M) (k : Nat) (e : Exn) (hk : k < CYCLES_PER_FRAME)
    (hq : QuietCycles d p k w)
    (hfault : (cycleBody d (afterCycles d k w)).2 = some e ∨
      ((cycleBody d (afterCycles d k w)).2 = none ∧
        stopCondition p (afterCycles d (k + 1) w) = Except.error e)) :
    tryBlock d h p now w = (afterCycles d (k + 1) w, some e) ∧
    frameTick d h p now w =
      cleanUpOnBreak h ((afterCycles d (k + 1) w).emit (Event.consoleError e)) := by
  have hloop := forLoop_throws d h p CYCLES_PER_FRAME k w e hk hq hfault
  have htb : tryBlock d h p now w = (afterCycles d (k + 1) w, some e) := by
    simp only [tryBlock, hloop]
  exact ⟨htb, by simp only [frameTick, htb]⟩

/-- What a frame tick leaves behind in which, after `k` quiet cycles, a tick
of cycle `k + 1` throws `e`, or the ticks return and the stop predicate
throws `e`. -/
theorem frameTick_fault_effect {M : Type} (d : Devices M) (h : Hooks) (p : Profile M)
    (now : ℚ) (w : World M) (k : Nat) (e : Exn) (hk : k < CYCLES_PER_FRAME)
    (hq : QuietCycles d p k w)
    (hfault : (cycleBody d (afterCycles d k w)).2 = some e ∨
      ((cycleBody d (afterCycles d k w)).2 = none ∧
        stopCondition p (afterCycles d (k + 1) w) = Except.error e)) :
    frameTick d h p now w =
      cleanUpOnBreak h ((afterCycles d (k + 1) w).emit (Event.consoleError e)) ∧
    (∀ i ∈ (frameTick d h p now w).1.intervals, some i.id ≠ w.timer) ∧
    (∃ rest, (frameTick d h p now w).1.trace =
        (afterCycles d (k + 1) w).trace ++
          Event.consoleError e :: Event.clearInterval w.timer :: rest ∧
      ((∀ x, h.didStop ≠ some (HookResult.throws x)) →
        (h.didStop ≠ none → Event.didStop ∈ rest) ∧
        (∀ r, w.resolveBreakPromise = some r → Event.resolve r ∈ rest))) ∧
    (frameTick d h p now w).1.cycle = incrementCycle^[k + 1] w.cycle ∧
    ((∀ x, h.didStop ≠ some (HookResult.throws x)) →
      (frameTick d h p now w).2 = none ∧
      (frameTick d h p now w).1.timer = none ∧
      (∀ r, w.resolveBreakPromise = some r → r ∈ (frameTick d h p now w).1.resolved)) := by
  have hft := (frameTick_of_fault d h p now w k e hk hq hfault).2
  have hti : (afterCycles d (k + 1) w).timer = w.timer := afterCycles_timer d _ w
  have hpr : (afterCycles d (k + 1) w).resolveBreakPromise = w.resolveBreakPromise :=
    afterCycles_promise d _ w
  have hti2 : ((afterCycles d (k + 1) w).emit (Event.consoleError e)).timer = w.timer := hti
  have hpr2 : ((afterCycles d (k + 1) w).emit (Event.consoleError e)).resolveBreakPromise =
      w.resolveBreakPromise := hpr
  have hcl := cleanUpOnBreak_clears h ((afterCycles d (k + 1) w).emit (Event.consoleError e))
  obtain ⟨rest, hrest, _⟩ :=
    cleanUpOnBreak_trace h ((afterCycles d (k + 1) w).emit (Event.consoleError e))
  have hcy := (sameMachine_cleanUpOnBreak h
    ((afterCycles d (k + 1) w).emit (Event.consoleError e))).cycle
  rw [hti2] at hcl hrest
  refine ⟨hft, by rw [hft]; exact hcl, ⟨rest, ?_, ?_⟩, ?_, ?_⟩
  · rw [hft, hrest]
    simp [World.emit]
  · intro hd
    obtain ⟨_, _, _, _, rest0, hrest0, hds, hrs⟩ :=
      cleanUpOnBreak_ok h ((afterCycles d (k + 1) w).emit (Event.consoleError e)) hd
    rw [hti2] at hrest0
    have e0 : rest0 = rest := by
      rw [hrest] at hrest0
      exact (List.cons_inj_right _).mp (List.append_cancel_left hrest0).symm
    subst e0
    rw [hpr2] at hrs
    exact ⟨hds, hrs⟩
  · rw [hft, hcy]
    show (afterCycles d (k + 1) w).cycle = _
    rw [afterCycles_cycle]
  · intro hd
    obtain ⟨hno, ht, hr, _⟩ :=
      cleanUpOnBreak_ok h ((afterCycles d (k + 1) w).emit (Event.consoleError e)) hd
    rw [hpr2] at hr
    exact ⟨by rw [hft]; exact hno, by rw [hft]; exact ht, by rw [hft]; exact hr⟩

theorem afterFrames_cycle {M : Type} (d : Devices M) (h : Hooks) (p : Profile M)
    (now : Nat → ℚ) (N : Nat) (w : World M)
    (hq : ∀ i, i < N → QuietFrame d p (afterFrames d h p now i w)) :
    (afterFrames d h p now N w).cycle = incrementCycle^[N * CYCLES_PER_FRAME] w.cycle := by
  induction N with
  | zero => simp [afterFrames]
  | succ n ih =>
    have h1 := ih (fun i hi => hq i (by omega))
    have h2 := frameTick_quiet d h p (now n) _ (hq n (by omega))
    show (frameTick d h p (now n) (afterFrames d h p now n w)).1.cycle = _
    rw [h2.cycle, afterCycles_cycle, h1, ← Function.iterate_add_apply,
      show (n + 1) * CYCLES_PER_FRAME = CYCLES_PER_FRAME + n * CYCLES_PER_FRAME by ring]

/-- C5, as stated, fails: a frame of the default profile on devices that never
throw, entered with the counter at `2 ^ 53`. The frame is quiet and runs its
19656 increments, and the counter is still `2 ^ 53` after it. -/
theorem cycle_stalls_at_double_limit :
    (∀ i, i < 1 → QuietFrame flatBus (defaultProfile (Nat → Nat))
      (afterFrames flatBus stopHooks (defaultProfile (Nat → Nat)) (fun _ => 20) i
        (runningWorld (fun _ => 0) (defaultProfile (Nat → Nat)) (2 ^ 53)))) ∧
    (afterFrames flatBus stopHooks (defaultProfile (Nat → Nat)) (fun _ => 20) 1
      (runningWorld (fun _ => 0) (defaultProfile (Nat → Nat)) (2 ^ 53))).cycle = 2 ^ 53 ∧
    (afterFrames flatBus stopHooks (defaultProfile (Nat → Nat)) (fun _ => 20) 1
      (runningWorld (fun _ => 0) (defaultProfile (Nat → Nat)) (2 ^ 53))).cycle ≠
        2 ^ 53 + 1 * 312 * 63 := by
  have hq : ∀ i, i < 1 → QuietFrame flatBus (defaultProfile (Nat → Nat))
      (afterFrames flatBus stopHooks (defaultProfile (Nat → Nat)) (fun _ => 20) i
        (runningWorld (fun _ => 0) (defaultProfile (Nat → Nat)) (2 ^ 53))) :=
    fun i _ => quietCycles_of_neverThrows flatBus _ flatBus_neverThrows (fun _ _ => rfl) _ _
      ((afterFrames_masterStop flatBus stopHooks _ _ i _).trans rfl)
  have hc := afterFrames_cycle flatBus stopHooks (defaultProfile (Nat → Nat)) (fun _ => 20) 1
    (runningWorld (fun _ => 0) (defaultProfile (Nat → Nat)) (2 ^ 53)) hq
  have hv : (afterFrames flatBus stopHooks (defaultProfile (Nat → Nat)) (fun _ => 20) 1
      (runningWorld (fun _ => 0) (defaultProfile (Nat → Nat)) (2 ^ 53))).cycle = 2 ^ 53 := by
    rw [hc]
    show incrementCycle^[1 * CYCLES_PER_FRAME] (2 ^ 53) = 2 ^ 53
    rw [incrementCycle_iterate _ _ (le_refl _)]
    omega
  refine ⟨hq, hv, ?_⟩
  rw [hv]
  omega

/-- C5, amended: after `N` frame ticks of a run episode in each of which no
tick throws and neither the master-stop flag nor the stop predicate fires, the
counter equals its value at the start plus `N * 312 * 63`, that is
`N * 19656`, provided this sum is at most `2 ^ 53`. -/
theorem cycle_after_quiet_frames {M : Type} (d : Devices M) (h : Hooks) (p : Profile M)
    (now : Nat → ℚ) (N : Nat) (w : World M)
    (hq : ∀ i, i < N → QuietFrame d p (afterFrames d h p now i w))
    (hbound : w.cycle + N * 19656 ≤ 2 ^ 53) :
    (afterFrames d h p now N w).cycle = w.cycle + N * 312 * 63 ∧
    (afterFrames d h p now N w).cycle = w.cycle + N * 19656 := by
  have hN : CYCLES_PER_FRAME = 19656 := by simp [CYCLES_PER_FRAME]
  have key : (afterFrames d h p now N w).cycle = w.cycle + N * 19656 := by
    rw [afterFrames_cycle d h p now N w hq, hN]
    exact incrementCycle_iterate_of_le _ _ hbound
  constructor <;> omega

/-- C5, instance: two frames of the default profile on devices that never
throw, from counter 7. -/
theorem cycle_after_quiet_frames_witness :
    (∀ i, i < 2 → QuietFrame flatBus (defaultProfile (Nat → Nat))
      (afterFrames flatBus stopHooks (defaultProfile (Nat → Nat)) (fun i => 20 * (i + 1)) i
        (runningWorld (fun _ => 0) (defaultProfile (Nat → Nat)) 7))) ∧
    (runningWorld (fun _ => 0) (defaultProfile (Nat → Nat)) 7).cycle + 2 * 19656 ≤ 2 ^ 53 ∧
    (afterFrames flatBus stopHooks (defaultProfile (Nat → Nat)) (fun i => 20 * (i + 1)) 2
      (runningWorld (fun _ => 0) (defaultProfile (Nat → Nat)) 7)).cycle = 7 + 2 * 19656 :=
  have hq : ∀ i, i < 2 → QuietFrame flatBus (defaultProfile (Nat → Nat))
      (afterFrames flatBus stopHooks (defaultProfile (Nat → Nat)) (fun i => 20 * (i + 1)) i
        (runningWorld (fun _ => 0) (defaultProfile (Nat → Nat)) 7)) :=
    fun i _ => quietCycles_of_neverThrows flatBus _ flatBus_neverThrows (fun _ _ => rfl) _ _
      ((afterFrames_masterStop flatBus stopHooks _ _ i _).trans rfl)
  have hb : (runningWorld (fun _ => 0) (defaultProfile (Nat → Nat)) 7).cycle + 2 * 19656 ≤
      2 ^ 53 := by decide
  ⟨hq, hb, (cycle_after_quiet_frames flatBus stopHooks (defaultProfile (Nat → Nat))
    (fun i => 20 * (i + 1)) 2 (runningWorld (fun _ => 0) (defaultProfile (Nat → Nat)) 7)
    hq hb).2⟩

/-- C7, as stated, fails: the profile of `untilPc(3)` on `wrapCpu` with the
program counter already at 3, where the stop condition is first true after
the fourth cycle. Entered with the counter at `2 ^ 53`, the frame tick runs
its four cycles and leaves the counter at `2 ^ 53`, not four above it. With a
`didStop` hook that throws, the episode is not finalized: the exception
leaves the frame tick, `timer` still holds the id 1 and promise 2 is not
resolved. -/
theorem first_firing_not_exact_nor_finalized :
    (QuietCycles wrapCpu (atPc 3) (4 - 1) (runningWorld 3 (atPc 3) (2 ^ 53)) ∧
      (cycleBody wrapCpu
        (afterCycles wrapCpu (4 - 1) (runningWorld 3 (atPc 3) (2 ^ 53)))).2 = none ∧
      stopCondition (atPc 3) (afterCycles wrapCpu 4 (runningWorld 3 (atPc 3) (2 ^ 53))) =
        Except.ok true ∧
      (frameTick wrapCpu stopHooks (atPc 3) 20 (runningWorld 3 (atPc 3) (2 ^ 53))).1.cycle =
        2 ^ 53 ∧
      (frameTick wrapCpu stopHooks (atPc 3) 20 (runningWorld 3 (atPc 3) (2 ^ 53))).1.cycle ≠
        2 ^ 53 + 4) ∧
    (QuietCycles wrapCpu (atPc 3) (4 - 1) (runningWorld 3 (atPc 3) 100) ∧
      (cycleBody wrapCpu (afterCycles wrapCpu (4 - 1) (runningWorld 3 (atPc 3) 100))).2 = none ∧
      stopCondition (atPc 3) (afterCycles wrapCpu 4 (runningWorld 3 (atPc 3) 100)) =
        Except.ok true ∧
      (frameTick wrapCpu throwingStopHooks (atPc 3) 20 (runningWorld 3 (atPc 3) 100)).2 =
        some "didStop failed" ∧
      (frameTick wrapCpu throwingStopHooks (atPc 3) 20 (runningWorld 3 (atPc 3) 100)).1.timer =
        some 1 ∧
      (frameTick wrapCpu throwingStopHooks (atPc 3) 20
        (runningWorld 3 (atPc 3) 100)).1.resolved = []) := by
  have hk : 3 < CYCLES_PER_FRAME := by simp [CYCLES_PER_FRAME]
  have hq1 : QuietCycles wrapCpu (atPc 3) (4 - 1) (runningWorld 3 (atPc 3) (2 ^ 53)) := by
    intro j hj
    have hj3 : j < 3 := hj
    interval_cases j <;> exact ⟨rfl, rfl⟩
  have hq2 : QuietCycles wrapCpu (atPc 3) (4 - 1) (runningWorld 3 (atPc 3) 100) := by
    intro j hj
    have hj3 : j < 3 := hj
    interval_cases j <;> exact ⟨rfl, rfl⟩
  have hc := (frameTick_fires_effect wrapCpu stopHooks (atPc 3) 20
    (runningWorld 3 (atPc 3) (2 ^ 53)) 3 hk hq1 rfl rfl).1
  have hv : (frameTick wrapCpu stopHooks (atPc 3) 20
      (runningWorld 3 (atPc 3) (2 ^ 53))).1.cycle = 2 ^ 53 := by
    rw [hc]
    show incrementCycle^[3 + 1] (2 ^ 53) = 2 ^ 53
    rw [incrementCycle_iterate _ _ (le_refl _)]
    omega
  have hkeep := frameTick_keeps wrapCpu throwingStopHooks (atPc 3) 20
    (runningWorld 3 (atPc 3) 100) "didStop failed" rfl
  have htb := tryBlock_fires_throws wrapCpu throwingStopHooks (atPc 3) 20
    (runningWorld 3 (atPc 3) 100) 3 "didStop failed" hk hq2 rfl rfl rfl
  refine ⟨⟨hq1, rfl, rfl, hv, ?_⟩, hq2, rfl, rfl, hkeep.2.2 htb, hkeep.1, hkeep.2.1⟩
  rw [hv]
  omega

/-- C7, amended: the stop condition is evaluated only after the five ticks of
a cycle. In a frame tick where cycles `1 .. k - 1` are quiet, the ticks of
cycle `k` do not throw and the condition `masterStop || profile.tick()` is true
after cycle `k` (`1 ≤ k ≤ 19656`), the counter has gone through exactly `k`
increments, which is its start value plus `k` when that is at most `2 ^ 53`;
exactly the ticks of `k` cycles are made and `cleanUpOnBreak` follows the last
of them at once; when the hook `didStop` does not throw the episode is
finalized (`timer` undefined, the interval cleared, the promise resolved, no
exception escapes). And every frame tick whatever, also one that starts in a
state where the predicate is already true, begins with the increment and the
CPU tick of a cycle, and advances a counter that is below `2 ^ 53` by at least
one. -/
theorem frameTick_stops_at_first_firing {M : Type} (d : Devices M) (h : Hooks)
    (p : Profile M) (now : ℚ) (w : World M) (k : Nat) (hk1 : 1 ≤ k)
    (hk2 : k ≤ 312 * 63) (hq : QuietCycles d p (k - 1) w)
    (hb : (cycleBody d (afterCycles d (k - 1) w)).2 = none)
    (hs : stopCondition p (afterCycles d k w) = Except.ok true) :
    (frameTick d h p now w).1.cycle = incrementCycle^[k] w.cycle ∧
    (w.cycle + k ≤ 2 ^ 53 → (frameTick d h p now w).1.cycle = w.cycle + k) ∧
    (frameTick d h p now w).1.machine = (cycleMachine d)^[k] w.machine ∧
    (∃ rest, (frameTick d h p now w).1.trace =
        w.trace ++ cyclesTrace w.cycle k ++ Event.clearInterval w.timer :: rest ∧
      (∀ e ∈ rest, Event.isTick e = false)) ∧
    ((∀ x, h.didStop ≠ some (HookResult.throws x)) →
      (frameTick d h p now w).1.timer = none ∧
      (∀ i ∈ (frameTick d h p now w).1.intervals, some i.id ≠ w.timer) ∧
      (∀ r, w.resolveBreakPromise = some r → r ∈ (frameTick d h p now w).1.resolved) ∧
      (frameTick d h p now w).2 = none) ∧
    (∀ (now0 : ℚ) (w0 : World M),
      (∃ rest, (frameTick d h p now0 w0).1.trace =
        w0.trace ++ Event.tick Subsystem.cpu (incrementCycle w0.cycle) :: rest) ∧
      (w0.cycle < 2 ^ 53 → w0.cycle + 1 ≤ (frameTick d h p now0 w0).1.cycle)) := by
  obtain ⟨j, rfl⟩ : ∃ j, k = j + 1 := ⟨k - 1, by omega⟩
  simp only [Nat.add_sub_cancel] at hq hb
  have hlt : j < CYCLES_PER_FRAME := by simp only [CYCLES_PER_FRAME]; omega
  obtain ⟨hc, hm, ⟨rest, ht, hnt, _⟩, hfin⟩ :=
    frameTick_fires_effect d h p now w j hlt hq hb hs
  refine ⟨hc, ?_, hm, ⟨rest, ht, hnt⟩, hfin, fun now0 w0 =>
    ⟨frameTick_first_tick d h p now0 w0, frameTick_advances d h p now0 w0⟩⟩
  intro hbound
  rw [hc]
  exact incrementCycle_iterate_of_le _ _ hbound

/-- C7, instance: `untilPc(3)` style profile on `wrapCpu` with the program
counter already at 3. The predicate is true in the starting state, yet the
frame tick runs four cycles (3 → 0 → 1 → 2 → 3) before it stops. -/
theorem frameTick_stops_at_first_firing_witness :
    stopCondition (atPc 3) (runningWorld 3 (atPc 3) 100) = Except.ok true ∧
    QuietCycles wrapCpu (atPc 3) (4 - 1) (runningWorld 3 (atPc 3) 100) ∧
    (runningWorld 3 (atPc 3) 100).cycle + 4 ≤ 2 ^ 53 ∧
    (∀ x, stopHooks.didStop ≠ some (HookResult.throws x)) ∧
    (frameTick wrapCpu stopHooks (atPc 3) 20 (runningWorld 3 (atPc 3) 100)).1.cycle = 100 + 4 ∧
    (frameTick wrapCpu stopHooks (atPc 3) 20 (runningWorld 3 (atPc 3) 100)).1.timer = none :=
  have hq : QuietCycles wrapCpu (atPc 3) (4 - 1) (runningWorld 3 (atPc 3) 100) := by
    intro j hj
    have hj3 : j < 3 := hj
    interval_cases j <;> exact ⟨rfl, rfl⟩
  have hbound : (runningWorld 3 (atPc 3) 100).cycle + 4 ≤ 2 ^ 53 := by decide
  have hd : ∀ x, stopHooks.didStop ≠ some (HookResult.throws x) := by
    intro x; simp [stopHooks]
  have hall := frameTick_stops_at_first_firing wrapCpu stopHooks (atPc 3) 20
    (runningWorld 3 (atPc 3) 100) 4 (by decide) (by decide) hq rfl rfl
  ⟨rfl, hq, hbound, hd, hall.2.1 hbound, (hall.2.2.2.2.1 hd).1⟩

/-- C8, as stated, fails: the frame tick that follows `stop()` in three
episodes of the default profile. With a `didStop` hook that throws, the
exception leaves the frame tick, `timer` still holds the id 1 and promise 2
is not resolved. On `faultyCpu` with the program counter at 2 the CPU tick of
that cycle throws, and the frame tick makes that one call of `tick()` only,
not a whole cycle. With the counter at `2 ^ 53` the cycle leaves the counter
at `2 ^ 53`. -/
theorem stop_not_finalized_nor_whole_cycle :
    ((cycleBody flatBus (stop (runningWorld (fun _ => 0) (defaultProfile (Nat → Nat)) 7))).2 =
        none ∧
      (frameTick flatBus throwingStopHooks (defaultProfile (Nat → Nat)) 20
        (stop (runningWorld (fun _ => 0) (defaultProfile (Nat → Nat)) 7))).2 =
          some "didStop failed" ∧
      (frameTick flatBus throwingStopHooks (defaultProfile (Nat → Nat)) 20
        (stop (runningWorld (fun _ => 0) (defaultProfile (Nat → Nat)) 7))).1.timer = some 1 ∧
      (frameTick flatBus throwingStopHooks (defaultProfile (Nat → Nat)) 20
        (stop (runningWorld (fun _ => 0) (defaultProfile (Nat → Nat)) 7))).1.resolved = []) ∧
    ((∀ x, stopHooks.didStop ≠ some (HookResult.throws x)) ∧
      (frameTick faultyCpu stopHooks (defaultProfile Nat) 20
        (stop (runningWorld 2 (defaultProfile Nat) 7))).1.trace =
          [Event.tick Subsystem.cpu 8, Event.consoleError "illegal opcode",
            Event.clearInterval (some 1), Event.didStop, Event.resolve 2]) ∧
    ((cycleBody flatBus
        (stop (runningWorld (fun _ => 0) (defaultProfile (Nat → Nat)) (2 ^ 53)))).2 = none ∧
      (∀ x, stopHooks.didStop ≠ some (HookResult.throws x)) ∧
      (frameTick flatBus stopHooks (defaultProfile (Nat → Nat)) 20
        (stop (runningWorld (fun _ => 0) (defaultProfile (Nat → Nat)) (2 ^ 53)))).1.cycle =
          2 ^ 53) := by
  have hk : 0 < CYCLES_PER_FRAME := by simp [CYCLES_PER_FRAME]
  have hd : ∀ x, stopHooks.didStop ≠ some (HookResult.throws x) := by
    intro x; simp [stopHooks]
  have hkeep := frameTick_keeps flatBus throwingStopHooks (defaultProfile (Nat → Nat)) 20
    (stop (runningWorld (fun _ => 0) (defaultProfile (Nat → Nat)) 7)) "didStop failed" rfl
  have htb := tryBlock_fires_throws flatBus throwingStopHooks (defaultProfile (Nat → Nat)) 20
    (stop (runningWorld (fun _ => 0) (defaultProfile (Nat → Nat)) 7)) 0 "didStop failed" hk
    (fun j hj => absurd hj (by omega)) rfl rfl rfl
  have hft := (frameTick_of_fault faultyCpu stopHooks (defaultProfile Nat) 20
    (stop (runningWorld 2 (defaultProfile Nat) 7)) 0 "illegal opcode" hk
    (fun j hj => absurd hj (by omega)) (Or.inl rfl)).2
  have hc := (frameTick_fires_effect flatBus stopHooks (defaultProfile (Nat → Nat)) 20
    (stop (runningWorld (fun _ => 0) (defaultProfile (Nat → Nat)) (2 ^ 53))) 0 hk
    (fun j hj => absurd hj (by omega)) rfl rfl).1
  refine ⟨⟨rfl, hkeep.2.2 htb, hkeep.1, hkeep.2.1⟩, ⟨hd, ?_⟩, rfl, hd, ?_⟩
  · rw [hft]
    rfl
  · rw [hc]
    exact incrementCycle_limit

/-- C8, amended: the frame tick that follows `stop()`, when the hook `didStop`
does not throw, finalizes the episode: `clearInterval(timer)` is called,
`didStop` is called if present and the promise returned by `run` is resolved;
afterwards `timer` is undefined and the interval is no longer registered, and
no exception escapes. When the ticks of its first cycle do not throw, this
happens at a cycle boundary: the frame tick runs one whole cycle
(`state.cycle++`, which adds one to a counter below `2 ^ 53`, then cpu, vic,
cias, sid, tape), no further cycle, then `clearInterval(timer)`. This holds for
every profile: with `masterStop` set the predicate is not even called. -/
theorem stop_finalizes_next_frame {M : Type} (d : Devices M) (h : Hooks) (p : Profile M)
    (now : ℚ) (w : World M) (hd : ∀ x, h.didStop ≠ some (HookResult.throws x)) :
    (frameTick d h p now (stop w)).1.timer = none ∧
    (∀ i ∈ (frameTick d h p now (stop w)).1.intervals, some i.id ≠ w.timer) ∧
    (∀ r, w.resolveBreakPromise = some r →
      r ∈ (frameTick d h p now (stop w)).1.resolved) ∧
    (frameTick d h p now (stop w)).2 = none ∧
    (∃ evs, (frameTick d h p now (stop w)).1.trace = w.trace ++ evs ∧
      Event.clearInterval w.timer ∈ evs ∧
      (h.didStop ≠ none → Event.didStop ∈ evs) ∧
      (∀ r, w.resolveBreakPromise = some r → Event.resolve r ∈ evs)) ∧
    ((cycleBody d (stop w)).2 = none →
      (frameTick d h p now (stop w)).1.cycle = incrementCycle w.cycle ∧
      (w.cycle < 2 ^ 53 → (frameTick d h p now (stop w)).1.cycle = w.cycle + 1) ∧
      (frameTick d h p now (stop w)).1.machine = cycleMachine d w.machine ∧
      ∃ rest, (frameTick d h p now (stop w)).1.trace =
          w.trace ++ cycleTrace (incrementCycle w.cycle) ++
            Event.clearInterval w.timer :: rest ∧
        (∀ e ∈ rest, Event.isTick e = false) ∧
        (h.didStop ≠ none → Event.didStop ∈ rest) ∧
        (∀ r, w.resolveBreakPromise = some r → Event.resolve r ∈ rest)) := by
  have hk : 0 < CYCLES_PER_FRAME := by simp [CYCLES_PER_FRAME]
  have hq0 : QuietCycles d p 0 (stop w) := fun j hj => absurd hj (by omega)
  have hms : (afterCycles d (0 + 1) (stop w)).masterStop = true := by
    show (afterCycle d (stop w)).masterStop = true
    rw [afterCycle_masterStop]; rfl
  have hs : stopCondition p (afterCycles d (0 + 1) (stop w)) = Except.ok true := by
    simp only [stopCondition, hms, if_true]
  have whole : (cycleBody d (stop w)).2 = none →
      (frameTick d h p now (stop w)).1.cycle = incrementCycle w.cycle ∧
      (frameTick d h p now (stop w)).1.machine = cycleMachine d w.machine ∧
      (frameTick d h p now (stop w)).1.timer = none ∧
      (∀ i ∈ (frameTick d h p now (stop w)).1.intervals, some i.id ≠ w.timer) ∧
      (∀ r, w.resolveBreakPromise = some r →
        r ∈ (frameTick d h p now (stop w)).1.resolved) ∧
      (frameTick d h p now (stop w)).2 = none ∧
      ∃ rest, (frameTick d h p now (stop w)).1.trace =
          w.trace ++ cycleTrace (incrementCycle w.cycle) ++
            Event.clearInterval w.timer :: rest ∧
        (∀ e ∈ rest, Event.isTick e = false) ∧
        (h.didStop ≠ none → Event.didStop ∈ rest) ∧
        (∀ r, w.resolveBreakPromise = some r → Event.resolve r ∈ rest) := by
    intro hb
    obtain ⟨hc, hm, ⟨rest, ht, hnt, hev⟩, hfin⟩ :=
      frameTick_fires_effect d h p now (stop w) 0 hk hq0 hb hs
    obtain ⟨h1, h2, h3, h4⟩ := hfin hd
    obtain ⟨h5, h6⟩ := hev hd
    refine ⟨hc, hm, h1, h2, h3, h4, rest, ?_, hnt, h5, h6⟩
    rw [ht]
    simp [cyclesTrace, stop]
  cases hb : (cycleBody d (stop w)).2 with
  | none =>
    obtain ⟨hc, hm, h1, h2, h3, h4, rest, ht, hnt, h5, h6⟩ := whole hb
    refine ⟨h1, h2, h3, h4, ⟨cycleTrace (incrementCycle w.cycle) ++
      Event.clearInterval w.timer :: rest, ?_, ?_, ?_, ?_⟩, fun _ =>
      ⟨hc, fun hlt => by rw [hc, incrementCycle_of_lt _ hlt], hm, rest, ht, hnt, h5, h6⟩⟩
    · rw [ht, List.append_assoc]
    · simp
    · intro h0
      exact List.mem_append_right _ (List.mem_cons_of_mem _ (h5 h0))
    · intro r hr
      exact List.mem_append_right _ (List.mem_cons_of_mem _ (h6 r hr))
  | some e =>
    obtain ⟨_, hi, ⟨rest, ht, hev⟩, _, hfin⟩ :=
      frameTick_fault_effect d h p now (stop w) 0 e hk hq0 (Or.inl hb)
    obtain ⟨h4, h1, h3⟩ := hfin hd
    obtain ⟨h5, h6⟩ := hev hd
    obtain ⟨pre, hpre, _⟩ := cycleBody_shape d (stop w)
    have hpre2 : (afterCycles d (0 + 1) (stop w)).trace = w.trace ++ pre := hpre
    refine ⟨h1, hi, h3, h4, ⟨pre ++ Event.consoleError e ::
      Event.clearInterval w.timer :: rest, ?_, ?_, ?_, ?_⟩, fun h0 => ?_⟩
    · rw [ht, hpre2, List.append_assoc]
      rfl
    · simp
    · intro h0
      exact List.mem_append_right _
        (List.mem_cons_of_mem _ (List.mem_cons_of_mem _ (h5 h0)))
    · intro r hr
      exact List.mem_append_right _
        (List.mem_cons_of_mem _ (List.mem_cons_of_mem _ (h6 r hr)))
    · cases h0

/-- C8, instance: `stop()` during a run of the default profile. -/
theorem stop_finalizes_next_frame_witness :
    (∀ x, stopHooks.didStop ≠ some (HookResult.throws x)) ∧
    (cycleBody flatBus (stop (runningWorld (fun _ => 0) (defaultProfile (Nat → Nat)) 7))).2 =
      none ∧
    (runningWorld (fun _ => 0) (defaultProfile (Nat → Nat)) 7).cycle < 2 ^ 53 ∧
    (frameTick flatBus stopHooks (defaultProfile (Nat → Nat)) 20
      (stop (runningWorld (fun _ => 0) (defaultProfile (Nat → Nat)) 7))).1.cycle = 7 + 1 ∧
    (frameTick flatBus stopHooks (defaultProfile (Nat → Nat)) 20
      (stop (runningWorld (fun _ => 0) (defaultProfile (Nat → Nat)) 7))).1.timer = none ∧
    2 ∈ (frameTick flatBus stopHooks (defaultProfile (Nat → Nat)) 20
      (stop (runningWorld (fun _ => 0) (defaultProfile (Nat → Nat)) 7))).1.resolved :=
  have hd : ∀ x, stopHooks.didStop ≠ some (HookResult.throws x) := by
    intro x; simp [stopHooks]
  have hlt : (runningWorld (fun _ => 0) (defaultProfile (Nat → Nat)) 7).cycle < 2 ^ 53 := by
    decide
  have hall := stop_finalizes_next_frame flatBus stopHooks (defaultProfile (Nat → Nat)) 20
    (runningWorld (fun _ => 0) (defaultProfile (Nat → Nat)) 7) hd
  ⟨hd, rfl, hlt, (hall.2.2.2.2.2 rfl).2.1 hlt, hall.1, hall.2.2.1 2 rfl⟩

/-- C9, as stated, fails: the frame tick that follows `stopAfterFrame()` in
three episodes of the default profile, whose predicate never fires, with no
call of `stop()`. With a `didStop` hook that throws, the frame is quiet and
the episode is not finalized: the exception leaves the frame tick, `timer`
still holds the id 1 and promise 2 is not resolved. On `faultyCpu` started at
program counter 0 the CPU tick of the third cycle throws: the episode stops
there, three cycles above the counter at the call. Entered with the counter
at `2 ^ 53 - 1`, the quiet frame stops with the counter at `2 ^ 53`, one above
its value at the call. -/
theorem stopAfterFrame_not_finalized_nor_aligned :
    (QuietFrame flatBus (defaultProfile (Nat → Nat))
        (stopAfterFrame (runningWorld (fun _ => 0) (defaultProfile (Nat → Nat)) 7)) ∧
      (frameTick flatBus throwingStopHooks (defaultProfile (Nat → Nat)) 20
        (stopAfterFrame (runningWorld (fun _ => 0) (defaultProfile (Nat → Nat)) 7))).2 =
          some "didStop failed" ∧
      (frameTick flatBus throwingStopHooks (defaultProfile (Nat → Nat)) 20
        (stopAfterFrame (runningWorld (fun _ => 0) (defaultProfile (Nat → Nat)) 7))).1.timer =
          some 1 ∧
      (frameTick flatBus throwingStopHooks (defaultProfile (Nat → Nat)) 20
        (stopAfterFrame
          (runningWorld (fun _ => 0) (defaultProfile (Nat → Nat)) 7))).1.resolved = []) ∧
    ((stopAfterFrame (runningWorld 0 (defaultProfile Nat) 7)).masterStop = false ∧
      (∀ x, stopHooks.didStop ≠ some (HookResult.throws x)) ∧
      (frameTick faultyCpu stopHooks (defaultProfile Nat) 20
        (stopAfterFrame (runningWorld 0 (defaultProfile Nat) 7))).1.timer = none ∧
      (frameTick faultyCpu stopHooks (defaultProfile Nat) 20
        (stopAfterFrame (runningWorld 0 (defaultProfile Nat) 7))).1.cycle = 7 + 3 ∧
      ¬ (312 * 63) ∣ ((frameTick faultyCpu stopHooks (defaultProfile Nat) 20
        (stopAfterFrame (runningWorld 0 (defaultProfile Nat) 7))).1.cycle - 7)) ∧
    (QuietFrame flatBus (defaultProfile (Nat → Nat))
        (stopAfterFrame
          (runningWorld (fun _ => 0) (defaultProfile (Nat → Nat)) (2 ^ 53 - 1))) ∧
      (∀ x, stopHooks.didStop ≠ some (HookResult.throws x)) ∧
      (frameTick flatBus stopHooks (defaultProfile (Nat → Nat)) 20
        (stopAfterFrame
          (runningWorld (fun _ => 0) (defaultProfile (Nat → Nat)) (2 ^ 53 - 1)))).1.timer =
            none ∧
      (frameTick flatBus stopHooks (defaultProfile (Nat → Nat)) 20
        (stopAfterFrame
          (runningWorld (fun _ => 0) (defaultProfile (Nat → Nat)) (2 ^ 53 - 1)))).1.cycle =
            2 ^ 53 ∧
      ¬ (312 * 63) ∣ ((frameTick flatBus stopHooks (defaultProfile (Nat → Nat)) 20
        (stopAfterFrame
          (runningWorld (fun _ => 0) (defaultProfile (Nat → Nat)) (2 ^ 53 - 1)))).1.cycle -
            (2 ^ 53 - 1))) := by
  have hd : ∀ x, stopHooks.didStop ≠ some (HookResult.throws x) := by
    intro x; simp [stopHooks]
  have hN : CYCLES_PER_FRAME = 19656 := by simp [CYCLES_PER_FRAME]
  -- the hook throws
  have hq1 : QuietFrame flatBus (defaultProfile (Nat → Nat))
      (stopAfterFrame (runningWorld (fun _ => 0) (defaultProfile (Nat → Nat)) 7)) :=
    quietCycles_of_neverThrows flatBus _ flatBus_neverThrows (fun _ _ => rfl) _ _ rfl
  have hkeep := frameTick_keeps flatBus throwingStopHooks (defaultProfile (Nat → Nat)) 20
    (stopAfterFrame (runningWorld (fun _ => 0) (defaultProfile (Nat → Nat)) 7))
    "didStop failed" rfl
  have htb := tryBlock_frameStop_throws flatBus throwingStopHooks (defaultProfile (Nat → Nat))
    20 (stopAfterFrame (runningWorld (fun _ => 0) (defaultProfile (Nat → Nat)) 7))
    "didStop failed" hq1 rfl rfl
  -- a tick throws
  have hq2 : QuietCycles faultyCpu (defaultProfile Nat) 2
      (stopAfterFrame (runningWorld 0 (defaultProfile Nat) 7)) := by
    intro j hj
    interval_cases j <;> exact ⟨rfl, rfl⟩
  have hft := (frameTick_of_fault faultyCpu stopHooks (defaultProfile Nat) 20
    (stopAfterFrame (runningWorld 0 (defaultProfile Nat) 7)) 2 "illegal opcode"
    (by simp [CYCLES_PER_FRAME]) hq2 (Or.inl rfl)).2
  have hcy2 : (frameTick faultyCpu stopHooks (defaultProfile Nat) 20
      (stopAfterFrame (runningWorld 0 (defaultProfile Nat) 7))).1.cycle = 7 + 3 := by
    rw [hft]
    rfl
  -- the counter reaches its limit
  have hq3 : QuietFrame flatBus (defaultProfile (Nat → Nat))
      (stopAfterFrame
        (runningWorld (fun _ => 0) (defaultProfile (Nat → Nat)) (2 ^ 53 - 1))) :=
    quietCycles_of_neverThrows flatBus _ flatBus_neverThrows (fun _ _ => rfl) _ _ rfl
  obtain ⟨wX, hsm, _, hfx⟩ := frameTick_frameStop flatBus stopHooks
    (defaultProfile (Nat → Nat)) 20
    (stopAfterFrame (runningWorld (fun _ => 0) (defaultProfile (Nat → Nat)) (2 ^ 53 - 1)))
    hq3 rfl hd
  have hcy3 : (frameTick flatBus stopHooks (defaultProfile (Nat → Nat)) 20
      (stopAfterFrame
        (runningWorld (fun _ => 0) (defaultProfile (Nat → Nat)) (2 ^ 53 - 1)))).1.cycle =
          2 ^ 53 := by
    rw [(frameTick_quiet flatBus stopHooks (defaultProfile (Nat → Nat)) 20 _ hq3).cycle,
      afterCycles_cycle, hN]
    show incrementCycle^[19656] (2 ^ 53 - 1) = 2 ^ 53
    rw [incrementCycle_iterate _ _ (by omega)]
    omega
  refine ⟨⟨hq1, hkeep.2.2 htb, hkeep.1, hkeep.2.1⟩, ⟨rfl, hd, ?_, hcy2, ?_⟩,
    hq3, hd, ?_, hcy3, ?_⟩
  · rw [hft]
    rfl
  · rw [hcy2]
    decide
  · rw [hfx]
    exact (cleanUpOnBreak_ok stopHooks wX hd).2.1
  · rw [hcy3]
    decide

/-- C9, amended: the frame tick that follows `stopAfterFrame()`, when it is
quiet (no tick throws, neither the stop predicate nor `stop()` fires) and the
hook `didStop` does not throw: it runs all `312 * 63` cycles and only then
finalizes. The counter has gone through `312 * 63` increments, which leaves
it exactly `312 * 63` above its value at the call when that is at most
`2 ^ 53`; every tick of the frame precedes `clearInterval(timer)`, and
afterwards `timer` is undefined, the interval is no longer registered,
`didStop` was called if present and the promise is resolved. -/
theorem stopAfterFrame_finalizes_at_frame_end {M : Type} (d : Devices M) (h : Hooks)
    (p : Profile M) (now : ℚ) (w : World M) (hq : QuietFrame d p (stopAfterFrame w))
    (hd : ∀ x, h.didStop ≠ some (HookResult.throws x)) :
    (frameTick d h p now (stopAfterFrame w)).1.cycle = incrementCycle^[312 * 63] w.cycle ∧
    (w.cycle + 312 * 63 ≤ 2 ^ 53 →
      (frameTick d h p now (stopAfterFrame w)).1.cycle = w.cycle + 312 * 63 ∧
      (312 * 63) ∣ ((frameTick d h p now (stopAfterFrame w)).1.cycle - w.cycle)) ∧
    CYCLES_PER_FRAME = 312 * 63 ∧
    (frameTick d h p now (stopAfterFrame w)).1.machine =
      (cycleMachine d)^[CYCLES_PER_FRAME] w.machine ∧
    (∃ mid rest, (frameTick d h p now (stopAfterFrame w)).1.trace =
        w.trace ++ cyclesTrace w.cycle CYCLES_PER_FRAME ++ mid ++
          Event.clearInterval w.timer :: rest ∧
      (∀ e ∈ mid, Event.isTick e = false) ∧ (∀ e ∈ rest, Event.isTick e = false) ∧
      (h.didStop ≠ none → Event.didStop ∈ rest) ∧
      (∀ r, w.resolveBreakPromise = some r → Event.resolve r ∈ rest)) ∧
    (frameTick d h p now (stopAfterFrame w)).1.timer = none ∧
    (∀ i ∈ (frameTick d h p now (stopAfterFrame w)).1.intervals, some i.id ≠ w.timer) ∧
    (∀ r, w.resolveBreakPromise = some r →
      r ∈ (frameTick d h p now (stopAfterFrame w)).1.resolved) ∧
    (frameTick d h p now (stopAfterFrame w)).2 = none := by
  have hN : CYCLES_PER_FRAME = 312 * 63 := by simp [CYCLES_PER_FRAME]
  have hq2 : QuietCycles d p CYCLES_PER_FRAME (stopAfterFrame w) := hq
  obtain ⟨wX, hsm, hti, hft⟩ := frameTick_frameStop d h p now (stopAfterFrame w) hq2 rfl hd
  have hac := afterCycles_noFault d CYCLES_PER_FRAME (stopAfterFrame w)
    (fun j hj => (hq2 j hj).1)
  have hcy : (afterCycles d CYCLES_PER_FRAME (stopAfterFrame w)).cycle =
      incrementCycle^[CYCLES_PER_FRAME] w.cycle := by rw [hac]; rfl
  have hma : (afterCycles d CYCLES_PER_FRAME (stopAfterFrame w)).machine =
      (cycleMachine d)^[CYCLES_PER_FRAME] w.machine := by rw [hac]; rfl
  have htr : (afterCycles d CYCLES_PER_FRAME (stopAfterFrame w)).trace =
      w.trace ++ cyclesTrace w.cycle CYCLES_PER_FRAME := by rw [hac]; rfl
  have hpr : (afterCycles d CYCLES_PER_FRAME (stopAfterFrame w)).resolveBreakPromise =
      w.resolveBreakPromise := by rw [hac]; rfl
  have hcl := sameMachine_cleanUpOnBreak h wX
  obtain ⟨hno, ht, hr, hi, rest, hrest, hds, hrs⟩ := cleanUpOnBreak_ok h wX hd
  obtain ⟨rest1, hrest1, hnt1⟩ := cleanUpOnBreak_trace h wX
  have e0 : rest = rest1 := by
    rw [hrest1] at hrest
    exact (List.cons_inj_right _).mp (List.append_cancel_left hrest).symm
  subst e0
  obtain ⟨mid, hmid, hntm⟩ := hsm.trace
  have hcyc : (frameTick d h p now (stopAfterFrame w)).1.cycle =
      incrementCycle^[312 * 63] w.cycle := by
    rw [hft, hcl.cycle, hsm.cycle, hcy, hN]
  have hti2 : wX.timer = w.timer := hti
  have hpr2 : wX.resolveBreakPromise = w.resolveBreakPromise := hsm.promise.trans hpr
  rw [hti2] at hi hrest
  rw [hpr2] at hr hrs
  refine ⟨hcyc, ?_, hN, ?_, ⟨mid, rest, ?_, hntm, hnt1, hds, hrs⟩, ?_, ?_, ?_, ?_⟩
  · intro hbound
    have hsum : (frameTick d h p now (stopAfterFrame w)).1.cycle = w.cycle + 312 * 63 := by
      rw [hcyc]
      exact incrementCycle_iterate_of_le _ _ hbound
    refine ⟨hsum, ?_⟩
    rw [hsum]
    simp
  · rw [hft, hcl.machine, hsm.machine, hma]
  · rw [hft, hrest, hmid, htr]
  · rw [hft]; exact ht
  · rw [hft]; exact hi
  · rw [hft]; exact hr
  · rw [hft]; exact hno

/-- C9, instance: `stopAfterFrame()` during a run of the default profile
from counter 7. -/
theorem stopAfterFrame_finalizes_at_frame_end_witness :
    QuietFrame flatBus (defaultProfile (Nat → Nat))
      (stopAfterFrame (runningWorld (fun _ => 0) (defaultProfile (Nat → Nat)) 7)) ∧
    (∀ x, stopHooks.didStop ≠ some (HookResult.throws x)) ∧
    (runningWorld (fun _ => 0) (defaultProfile (Nat → Nat)) 7).cycle + 312 * 63 ≤ 2 ^ 53 ∧
    (frameTick flatBus stopHooks (defaultProfile (Nat → Nat)) 20
      (stopAfterFrame (runningWorld (fun _ => 0) (defaultProfile (Nat → Nat)) 7))).1.cycle =
        7 + 312 * 63 ∧
    (frameTick flatBus stopHooks (defaultProfile (Nat → Nat)) 20
      (stopAfterFrame (runningWorld (fun _ => 0) (defaultProfile (Nat → Nat)) 7))).1.timer =
        none :=
  have hq : QuietFrame flatBus (defaultProfile (Nat → Nat))
      (stopAfterFrame (runningWorld (fun _ => 0) (defaultProfile (Nat → Nat)) 7)) :=
    quietCycles_of_neverThrows flatBus _ flatBus_neverThrows (fun _ _ => rfl) _ _ rfl
  have hd : ∀ x, stopHooks.didStop ≠ some (HookResult.throws x) := by
    intro x; simp [stopHooks]
  have hbound : (runningWorld (fun _ => 0) (defaultProfile (Nat → Nat)) 7).cycle + 312 * 63 ≤
      2 ^ 53 := by decide
  have hall := stopAfterFrame_finalizes_at_frame_end flatBus stopHooks
    (defaultProfile (Nat → Nat)) 20
    (runningWorld (fun _ => 0) (defaultProfile (Nat → Nat)) 7) hq hd
  ⟨hq, hd, hbound, (hall.2.1 hbound).1, hall.2.2.2.2.2.1⟩

theorem decodeState_stateObject {M : Type} (w : World M) :
    decodeState (stateObject w) = some w.cycle := by
  simp [decodeState, stateObject]

theorem restoreDevice_noop {M : Type} (d : Devices M) (obj : JSValue) (c : Component)
    (key : String) (w : World M)
    (hk : obj.getProp key = Except.ok (d.serialize c w.machine))
    (hGP : d.deserialize c (d.serialize c w.machine) w.machine = (w.machine, none)) :
    restoreDevice d obj c key w = (w, none) := by
  simp only [restoreDevice, hk, hGP]

theorem restoreDevice_step {M : Type} (d : Devices M) (obj : JSValue) (c : Component)
    (key : String) (b : JSValue) (w : World M)
    (hk : obj.getProp key = Except.ok b)
    (hno : (d.deserialize c b w.machine).2 = none) :
    restoreDevice d obj c key w =
      ({ w with machine := (d.deserialize c b w.machine).1 }, none) := by
  simp only [restoreDevice, hk, hno]


theorem serialize_congr {M : Type} (J : JSON) (d : Devices M) (w w3 : World M)
    (hc : w3.cycle = w.cycle) (hs : ∀ c, d.serialize c w3.machine = d.serialize c w.machine) :
    serialize J d w3 = serialize J d w := by
  simp only [serialize, snapshotObject, stateObject, hc, hs]

/-- C10: round trip of the snapshot codec, for a world `w` whose state object
and snapshot object `JSON.parse` reads back as `JSON.stringify` wrote them.
(1) If every component's `deserialize`, given what its own `serialize` just
produced, leaves the devices as they are, then `deserialize(serialize())`
returns without an exception and leaves the very same world: the counter is
exactly the value it had and a second `serialize()` returns the same text.
(2) If every component's `deserialize` of the form taken from `w` makes that
component serialize to that form again and leaves the serialized forms of the
other components alone, then restoring the snapshot of `w` from any world
whatever gives a world with the counter of `w`, with every component's
serialized form identical to the one in `w`, and whose `serialize()` is the
snapshot of `w`. -/
theorem deserialize_serialize_roundtrip {M : Type} (J : JSON) (d : Devices M) (w : World M)
    (hJ1 : J.parse (J.stringify (stateObject w)) = Except.ok (stateObject w))
    (hJ2 : J.parse (serialize J d w) = Except.ok (snapshotObject J d w)) :
    ((∀ c, d.deserialize c (d.serialize c w.machine) w.machine = (w.machine, none)) →
      deserialize J d (serialize J d w) w = some (w, none)) ∧
    ((∀ c m, (d.deserialize c (d.serialize c w.machine) m).2 = none ∧
        d.serialize c (d.deserialize c (d.serialize c w.machine) m).1 =
          d.serialize c w.machine) →
      (∀ c c1 b m, c1 ≠ c → d.serialize c1 (d.deserialize c b m).1 = d.serialize c1 m) →
      ∀ w2 : World M, ∃ w3, deserialize J d (serialize J d w) w2 = some (w3, none) ∧
        w3.cycle = w.cycle ∧ (∀ c, d.serialize c w3.machine = d.serialize c w.machine) ∧
        serialize J d w3 = serialize J d w) := by
  have hrl : (snapshotObject J d w).getProp "runloop" =
      Except.ok (JSValue.string (J.stringify (stateObject w))) := rfl
  have hk1 : (snapshotObject J d w).getProp "wires" =
      Except.ok (d.serialize Component.wires w.machine) := rfl
  have hk2 : (snapshotObject J d w).getProp "ram" =
      Except.ok (d.serialize Component.ram w.machine) := rfl
  have hk3 : (snapshotObject J d w).getProp "vic" =
      Except.ok (d.serialize Component.vic w.machine) := rfl
  have hk4 : (snapshotObject J d w).getProp "sid" =
      Except.ok (d.serialize Component.sid w.machine) := rfl
  have hk5 : (snapshotObject J d w).getProp "cpu" =
      Except.ok (d.serialize Component.cpu w.machine) := rfl
  have hk6 : (snapshotObject J d w).getProp "cias" =
      Except.ok (d.serialize Component.cias w.machine) := rfl
  have hk7 : (snapshotObject J d w).getProp "tape" =
      Except.ok (d.serialize Component.tape w.machine) := rfl
  have hds := decodeState_stateObject w
  constructor
  · intro hGP
    have hw : ({ w with cycle := w.cycle } : World M) = w := rfl
    simp only [deserialize, hJ2, hrl, hJ1, hds, hw, andThen,
      restoreDevice_noop d _ Component.wires "wires" w hk1 (hGP _),
      restoreDevice_noop d _ Component.ram "ram" w hk2 (hGP _),
      restoreDevice_noop d _ Component.vic "vic" w hk3 (hGP _),
      restoreDevice_noop d _ Component.sid "sid" w hk4 (hGP _),
      restoreDevice_noop d _ Component.cpu "cpu" w hk5 (hGP _),
      restoreDevice_noop d _ Component.cias "cias" w hk6 (hGP _),
      restoreDevice_noop d _ Component.tape "tape" w hk7 (hGP _)]
  · intro hPG hFr w2
    have step : ∀ (c : Component) (key : String) (w1 : World M),
        (snapshotObject J d w).getProp key = Except.ok (d.serialize c w.machine) →
        restoreDevice d (snapshotObject J d w) c key w1 =
          ({ w1 with machine := (d.deserialize c (d.serialize c w.machine) w1.machine).1 },
            none) :=
      fun c key w1 hk => restoreDevice_step d _ c key _ w1 hk (hPG c w1.machine).1
    simp only [deserialize, hJ2, hrl, hJ1, hds, andThen, step _ _ _ hk1, step _ _ _ hk2,
      step _ _ _ hk3, step _ _ _ hk4, step _ _ _ hk5, step _ _ _ hk6, step _ _ _ hk7]
    refine ⟨_, rfl, rfl, ?_, ?_⟩
    · intro c
      cases c <;> simp (disch := decide) only [hFr, (hPG _ _).2]
    · apply serialize_congr
      · rfl
      · intro c
        cases c <;> simp (disch := decide) only [hFr, (hPG _ _).2]

theorem registers_getPut (m : Component → Nat) (c : Component) :
    registers.deserialize c (registers.serialize c m) m = (m, none) := by
  simp [registers]

theorem registers_putGet (m0 m : Component → Nat) (c : Component) :
    (registers.deserialize c (registers.serialize c m0) m).2 = none ∧
    registers.serialize c (registers.deserialize c (registers.serialize c m0) m).1 =
      registers.serialize c m0 := by
  simp [registers]

theorem registers_frame (c c1 : Component) (b : JSValue) (m : Component → Nat) (hne : c1 ≠ c) :
    registers.serialize c1 (registers.deserialize c b m).1 = registers.serialize c1 m := by
  cases b <;> simp [registers, Function.update_noteq hne]

/-- C10, instance: the snapshot of `sampleWorld` under the toy codec, restored
at once and restored into a freshly started world. -/
theorem deserialize_serialize_roundtrip_witness :
    sampleJSON.parse (sampleJSON.stringify (stateObject sampleWorld)) =
      Except.ok (stateObject sampleWorld) ∧
    sampleJSON.parse (serialize sampleJSON registers sampleWorld) =
      Except.ok (snapshotObject sampleJSON registers sampleWorld) ∧
    deserialize sampleJSON registers (serialize sampleJSON registers sampleWorld) sampleWorld =
      some (sampleWorld, none) ∧
    ∃ w3, deserialize sampleJSON registers (serialize sampleJSON registers sampleWorld)
        (runningWorld (fun _ => 0) (defaultProfile (Component → Nat)) 0) = some (w3, none) ∧
      w3.cycle = 7 ∧
      serialize sampleJSON registers w3 = serialize sampleJSON registers sampleWorld :=
  have hall := deserialize_serialize_roundtrip sampleJSON registers sampleWorld rfl rfl
  have h2 := hall.2 (fun c m => registers_putGet sampleWorld.machine m c)
    (fun c c1 b m hne => registers_frame c c1 b m hne)
    (runningWorld (fun _ => 0) (defaultProfile (Component → Nat)) 0)
  ⟨rfl, rfl, hall.1 (fun c => registers_getPut sampleWorld.machine c),
    h2.elim fun w3 hw3 => ⟨w3, hw3.1, hw3.2.1, hw3.2.2.2⟩⟩

/-! ## Snapshot contents and keyboard capacity: theorems -/

/-- C11: `serialize()` is `JSON.stringify` of exactly the record with
`version = (creator "viciious", major 0, minor 1)`, `runloop` the nested
encoding of the scheduler state `(cycle)`, and `wires`, `ram`, `vic`, `sid`,
`cpu`, `cias`, `tape` each holding that component's own `serialize()` result;
two worlds that agree on the counter and on every component's serialized
form give the same snapshot, whatever their speed multiplier, stop flags,
timer, last profile, pending promise and other transient state are. -/
theorem serialize_contents {M : Type} (J : JSON) (d : Devices M) :
    (∀ w : World M, serialize J d w =
      J.stringify (JSValue.object [
        ("version", JSValue.object [
          ("creator", JSValue.string "viciious"),
          ("major", JSValue.number 0),
          ("minor", JSValue.number 1)]),
        ("runloop", JSValue.string
          (J.stringify (JSValue.object [("cycle", JSValue.number w.cycle)]))),
        ("wires", d.serialize Component.wires w.machine),
        ("ram", d.serialize Component.ram w.machine),
        ("vic", d.serialize Component.vic w.machine),
        ("sid", d.serialize Component.sid w.machine),
        ("cpu", d.serialize Component.cpu w.machine),
        ("cias", d.serialize Component.cias w.machine),
        ("tape", d.serialize Component.tape w.machine)])) ∧
    (∀ w1 w2 : World M, w1.cycle = w2.cycle →
      (∀ c, d.serialize c w1.machine = d.serialize c w2.machine) →
      serialize J d w1 = serialize J d w2) ∧
    (∀ (w : World M) (masterStop frameStop : Bool) (timer : Option Nat)
      (lastProfile : Option (Profile M)) (speedMultiplier : ℚ)
      (resolveBreakPromise : Option Nat) (timeAtWaypoint : ℚ) (framesSinceWaypoint : Nat)
      (intervals : List (Interval M)) (nextId : Nat) (resolved : List Nat)
      (trace : List Event),
      serialize J d
        { machine := w.machine, cycle := w.cycle, masterStop := masterStop,
          frameStop := frameStop, timer := timer, lastProfile := lastProfile,
          speedMultiplier := speedMultiplier, resolveBreakPromise := resolveBreakPromise,
          timeAtWaypoint := timeAtWaypoint, framesSinceWaypoint := framesSinceWaypoint,
          intervals := intervals, nextId := nextId, resolved := resolved, trace := trace } =
        serialize J d w) := by
  refine ⟨fun w => rfl, fun w1 w2 hc hs => serialize_congr J d w2 w1 hc hs, ?_⟩
  intro w _ _ _ _ _ _ _ _ _ _ _ _
  rfl

theorem boundedWrites_typeWrites (rom : RomLocations) (L : Nat) (codes : List Nat)
    (h : codes = [] ∨ L + codes.length ≤ rom.KEYBOARD_BUFFER_LENGTH) :
    BoundedWrites rom (typeWrites rom L codes) := by
  induction codes generalizing L with
  | nil => exact BoundedWrites.nil
  | cons c rest ih =>
    have hl : L + (rest.length + 1) ≤ rom.KEYBOARD_BUFFER_LENGTH := by
      rcases h with h | h
      · cases h
      · simpa using h
    exact BoundedWrites.pair L c _ (by omega) (ih (L + 1) (Or.inr (by omega)))

theorem boundedWrites_append (rom : RomLocations) (ws1 ws2 : List (Nat × Nat))
    (h1 : BoundedWrites rom ws1) (h2 : BoundedWrites rom ws2) :
    BoundedWrites rom (ws1 ++ ws2) := by
  induction h1 with
  | nil => simpa using h2
  | pair k c rest hk _ ih => exact BoundedWrites.pair k c _ hk ih

theorem waitForSpace_free {M : Type} (d : Devices M) (rom : RomLocations) (env : Nat → M → M)
    (fuel bufLen waits : Nat) (m : M) (h : bufLen < rom.KEYBOARD_BUFFER_LENGTH) :
    waitForSpace d rom env fuel bufLen waits m = (some bufLen, fuel, waits, m) := by
  have hn : ¬ bufLen ≥ rom.KEYBOARD_BUFFER_LENGTH := by omega
  cases fuel <;> simp [waitForSpace, hn]

theorem waitForSpace_bound {M : Type} (d : Devices M) (rom : RomLocations) (env : Nat → M → M)
    (fuel bufLen waits : Nat) (m : M) (b : Nat)
    (h : (waitForSpace d rom env fuel bufLen waits m).1 = some b) :
    b < rom.KEYBOARD_BUFFER_LENGTH := by
  induction fuel generalizing bufLen waits m with
  | zero =>
    by_cases hge : bufLen ≥ rom.KEYBOARD_BUFFER_LENGTH
    · simp [waitForSpace, hge] at h
    · simp [waitForSpace, hge] at h
      omega
  | succ fuel ih =>
    by_cases hge : bufLen ≥ rom.KEYBOARD_BUFFER_LENGTH
    · simp only [waitForSpace, hge, if_true] at h
      exact ih _ _ _ h
    · simp [waitForSpace, hge] at h
      omega

theorem typePetLoop_bounded {M : Type} (d : Devices M) (rom : RomLocations) (env : Nat → M → M)
    (chars : List Char) (fuel bufLen waits : Nat) (m : M) (log : List (Nat × Nat))
    (hlog : BoundedWrites rom log) :
    BoundedWrites rom (typePetLoop d rom env chars fuel bufLen waits m log).writes := by
  induction chars generalizing fuel bufLen waits m log with
  | nil => exact hlog
  | cons c rest ih =>
    rcases hw : waitForSpace d rom env fuel bufLen waits m with ⟨_ | b, fuel1, waits1, m1⟩
    · simp only [typePetLoop, hw]
      exact hlog
    · have hb : b < rom.KEYBOARD_BUFFER_LENGTH :=
        waitForSpace_bound d rom env fuel bufLen waits m b (by rw [hw])
      simp only [typePetLoop, hw]
      apply ih
      exact boundedWrites_append rom _ _ hlog
        (BoundedWrites.pair b _ [] hb BoundedWrites.nil)

theorem typePetLoop_fits {M : Type} (d : Devices M) (rom : RomLocations) (env : Nat → M → M)
    (chars : List Char) (fuel bufLen waits : Nat) (m : M) (log : List (Nat × Nat))
    (h : bufLen + chars.length ≤ rom.KEYBOARD_BUFFER_LENGTH) :
    typePetLoop d rom env chars fuel bufLen waits m log =
      { machine := applyWrites d (typeWrites rom bufLen (chars.map convertToPetscii)) m
        writes := log ++ typeWrites rom bufLen (chars.map convertToPetscii)
        waits := waits
        outcome := PetOutcome.resolved } := by
  induction chars generalizing bufLen m log with
  | nil => simp [typePetLoop, typeWrites, applyWrites]
  | cons c rest ih =>
    simp only [List.length_cons] at h
    rw [typePetLoop, waitForSpace_free d rom env fuel bufLen waits m (by omega)]
    simp only
    rw [ih (bufLen + 1) _ _ (by omega)]
    simp [typeWrites, applyWrites]

theorem type_machine_log {M : Type} (d : Devices M) (rom : RomLocations) (str : String)
    (m : M) :
    (type d rom str m).1 =
      applyWrites d (typeWrites rom (d.cpuRead m rom.KEYBOARD_BUFFER_INDEX)
        ((str.data.take
          (rom.KEYBOARD_BUFFER_LENGTH - d.cpuRead m rom.KEYBOARD_BUFFER_INDEX)).map
            charCodeAt0)) m := by
  by_cases hfit : d.cpuRead m rom.KEYBOARD_BUFFER_INDEX + str.data.length ≤
      rom.KEYBOARD_BUFFER_LENGTH
  · have hrun := typeLoop_fits d rom str.data (d.cpuRead m rom.KEYBOARD_BUFFER_INDEX) m hfit
    rw [List.take_of_length_le (by omega)]
    simp only [type, hrun]
  · by_cases hne : str.data = []
    · simp [type, hne, typeLoop, typeWrites, applyWrites]
    · have hrun := typeLoop_overflow d rom str.data (d.cpuRead m rom.KEYBOARD_BUFFER_INDEX) m
        hne (by omega)
      simp only [type, hrun]

theorem waitForSpace_frees {M : Type} (d : Devices M) (rom : RomLocations) (env : Nat → M → M)
    (hfree : ∀ i m0, d.cpuRead (env i m0) rom.KEYBOARD_BUFFER_INDEX <
      rom.KEYBOARD_BUFFER_LENGTH)
    (fuel bufLen waits : Nat) (m : M) (hf : 1 ≤ fuel) :
    ∃ b fuel1 waits1 m1, waitForSpace d rom env fuel bufLen waits m =
      (some b, fuel1, waits1, m1) ∧ fuel ≤ fuel1 + 1 := by
  by_cases hlt : bufLen < rom.KEYBOARD_BUFFER_LENGTH
  · exact ⟨bufLen, fuel, waits, m, waitForSpace_free d rom env fuel bufLen waits m hlt,
      by omega⟩
  · obtain ⟨f, rfl⟩ : ∃ f, fuel = f + 1 := ⟨fuel - 1, by omega⟩
    have hge : bufLen ≥ rom.KEYBOARD_BUFFER_LENGTH := by omega
    refine ⟨d.cpuRead (env waits m) rom.KEYBOARD_BUFFER_INDEX, f, waits + 1, env waits m, ?_,
      le_refl _⟩
    simp only [waitForSpace, hge, if_true]
    exact waitForSpace_free d rom env f _ _ _ (hfree waits m)

theorem typePetLoop_resolves {M : Type} (d : Devices M) (rom : RomLocations)
    (env : Nat → M → M)
    (hfree : ∀ i m0, d.cpuRead (env i m0) rom.KEYBOARD_BUFFER_INDEX <
      rom.KEYBOARD_BUFFER_LENGTH)
    (chars : List Char) (fuel bufLen waits : Nat) (m : M) (log : List (Nat × Nat))
    (hf : chars.length ≤ fuel) :
    (typePetLoop d rom env chars fuel bufLen waits m log).outcome = PetOutcome.resolved ∧
    (typePetLoop d rom env chars fuel bufLen waits m log).writes.length =
      log.length + 2 * chars.length := by
  induction chars generalizing fuel bufLen waits m log with
  | nil => simp [typePetLoop]
  | cons c rest ih =>
    simp only [List.length_cons] at hf
    obtain ⟨b, fuel1, waits1, m1, hw, hle⟩ :=
      waitForSpace_frees d rom env hfree fuel bufLen waits m (by omega)
    simp only [typePetLoop, hw]
    obtain ⟨h1, h2⟩ := ih fuel1 (b + 1) waits1
      (d.cpuWrite (d.cpuWrite m1 (rom.KEYBOARD_BUFFER_ADDR + b) (convertToPetscii c))
        rom.KEYBOARD_BUFFER_INDEX (b + 1))
      (log ++ [(rom.KEYBOARD_BUFFER_ADDR + b, convertToPetscii c),
        (rom.KEYBOARD_BUFFER_INDEX, b + 1)]) (by omega)
    refine ⟨h1, ?_⟩
    rw [h2]
    simp only [List.length_append, List.length_cons, List.length_nil]
    omega

/-- C16: both injectors respect the capacity of the buffer. Whatever the text
and the bus state, the writes `type` performs are those of the first
`KEYBOARD_BUFFER_LENGTH - L` characters and respect the capacity, and so do
the writes `typePet` performs, however long it is observed and whatever
happens during its waits: every character goes to `KEYBOARD_BUFFER_ADDR + k`
with `k < KEYBOARD_BUFFER_LENGTH`, every value written to the length cell is
at most `KEYBOARD_BUFFER_LENGTH`. `typePet` has no overflow error: on a full
buffer it waits, having written nothing, and when every wait ends with space
in the buffer it resolves after at most one wait per character, with all
characters written. -/
theorem injectors_respect_capacity {M : Type} (d : Devices M) (rom : RomLocations) :
    (∀ (str : String) (m : M),
      (type d rom str m).1 =
        applyWrites d (typeWrites rom (d.cpuRead m rom.KEYBOARD_BUFFER_INDEX)
          ((str.data.take
            (rom.KEYBOARD_BUFFER_LENGTH - d.cpuRead m rom.KEYBOARD_BUFFER_INDEX)).map
              charCodeAt0)) m ∧
      BoundedWrites rom (typeWrites rom (d.cpuRead m rom.KEYBOARD_BUFFER_INDEX)
          ((str.data.take
            (rom.KEYBOARD_BUFFER_LENGTH - d.cpuRead m rom.KEYBOARD_BUFFER_INDEX)).map
              charCodeAt0))) ∧
    (∀ (env : Nat → M → M) (fuel : Nat) (str : String) (m : M),
      BoundedWrites rom (typePet d rom env fuel str m).writes) ∧
    (∀ (env : Nat → M → M) (str : String) (m : M), str.data ≠ [] →
      rom.KEYBOARD_BUFFER_LENGTH ≤ d.cpuRead m rom.KEYBOARD_BUFFER_INDEX →
      typePet d rom env 0 str m =
        { machine := m, writes := [], waits := 0, outcome := PetOutcome.waiting }) ∧
    (∀ (env : Nat → M → M) (fuel : Nat) (str : String) (m : M),
      (∀ i m0, d.cpuRead (env i m0) rom.KEYBOARD_BUFFER_INDEX < rom.KEYBOARD_BUFFER_LENGTH) →
      str.length ≤ fuel →
      (typePet d rom env fuel str m).outcome = PetOutcome.resolved ∧
      (typePet d rom env fuel str m).writes.length = 2 * str.length) := by
  refine ⟨?_, ?_, ?_, ?_⟩
  · intro str m
    refine ⟨type_machine_log d rom str m, boundedWrites_typeWrites rom _ _ ?_⟩
    by_cases hL : d.cpuRead m rom.KEYBOARD_BUFFER_INDEX ≤ rom.KEYBOARD_BUFFER_LENGTH
    · right
      rw [List.length_map, List.length_take]
      omega
    · left
      have hz : rom.KEYBOARD_BUFFER_LENGTH - d.cpuRead m rom.KEYBOARD_BUFFER_INDEX = 0 := by
        omega
      simp [hz]
  · intro env fuel str m
    exact typePetLoop_bounded d rom env _ _ _ _ _ _ BoundedWrites.nil
  · intro env str m hne hfull
    obtain ⟨c, rest, hcs⟩ : ∃ c rest, str.data = c :: rest := by
      cases hd : str.data with
      | nil => exact absurd hd hne
      | cons c rest => exact ⟨c, rest, rfl⟩
    have hge : d.cpuRead m rom.KEYBOARD_BUFFER_INDEX ≥ rom.KEYBOARD_BUFFER_LENGTH := hfull
    simp [typePet, hcs, typePetLoop, waitForSpace, hge]
  · intro env fuel str m hfree hf
    have h := typePetLoop_resolves d rom env hfree str.data fuel
      (d.cpuRead m rom.KEYBOARD_BUFFER_INDEX) 0 m [] hf
    simpa [typePet] using h

/-- C16, instance: with 9 of 10 cells used `type` throws on `AB` after one
character; `typePet` writes the same first character and then waits, and once
the machine has taken the buffer it writes the second one at the buffer
start and resolves. -/
theorem injectors_respect_capacity_witness :
    (type flatBus kernalRom "AB" (fun _ => 9)).2 = some overflowError ∧
    BoundedWrites kernalRom (typePet flatBus kernalRom drainingEnv 1 "AB" (fun _ => 9)).writes ∧
    (typePet flatBus kernalRom drainingEnv 0 "AB" (fun _ => 9)).outcome =
      PetOutcome.waiting ∧
    (typePet flatBus kernalRom drainingEnv 0 "AB" (fun _ => 9)).writes =
      [(0x0277 + 9, 193), (0xc6, 10)] ∧
    (typePet flatBus kernalRom drainingEnv 1 "AB" (fun _ => 9)).outcome =
      PetOutcome.resolved ∧
    (typePet flatBus kernalRom drainingEnv 1 "AB" (fun _ => 9)).writes =
      [(0x0277 + 9, 193), (0xc6, 10), (0x0277, 194), (0xc6, 1)] :=
  ⟨by decide,
   (injectors_respect_capacity flatBus kernalRom).2.1 drainingEnv 1 "AB" (fun _ => 9),
   by decide, by decide, by decide, by decide⟩

/-- C17: when the length cell holds `L` and `L + n ≤ KEYBOARD_BUFFER_LENGTH`
for a text of `n` characters, `typePet` never waits and resolves, whatever the
environment and however short the observation; its writes are those of `type`
with every character code replaced by its `convertToPetscii` value: the
`i`-th converted code goes to `KEYBOARD_BUFFER_ADDR + L + i`, followed by
`L + i + 1` at the length cell. So it leaves the bus exactly as `type` leaves
it on any text whose character codes are those converted values, and the
length cell ends at `L + n` where it reads back what was written to it. -/
theorem typePet_within_capacity {M : Type} (d : Devices M) (rom : RomLocations)
    (env : Nat → M → M) (fuel : Nat) (str : String) (m : M)
    (hcap : d.cpuRead m rom.KEYBOARD_BUFFER_INDEX + str.length ≤ rom.KEYBOARD_BUFFER_LENGTH) :
    typePet d rom env fuel str m =
      { machine := applyWrites d (typeWrites rom (d.cpuRead m rom.KEYBOARD_BUFFER_INDEX)
          (str.data.map convertToPetscii)) m
        writes := typeWrites rom (d.cpuRead m rom.KEYBOARD_BUFFER_INDEX)
          (str.data.map convertToPetscii)
        waits := 0
        outcome := PetOutcome.resolved } ∧
    (∀ i char, str.data[i]? = some char →
      (typePet d rom env fuel str m).writes[2 * i]? =
        some (rom.KEYBOARD_BUFFER_ADDR + d.cpuRead m rom.KEYBOARD_BUFFER_INDEX + i,
          convertToPetscii char) ∧
      (typePet d rom env fuel str m).writes[2 * i + 1]? =
        some (rom.KEYBOARD_BUFFER_INDEX, d.cpuRead m rom.KEYBOARD_BUFFER_INDEX + i + 1)) ∧
    (typePet d rom env fuel str m).writes.length = 2 * str.length ∧
    (∀ str2 : String, str2.data.map charCodeAt0 = str.data.map convertToPetscii →
      type d rom str2 m = ((typePet d rom env fuel str m).machine, none)) ∧
    ((∀ m0 v, v ≤ rom.KEYBOARD_BUFFER_LENGTH →
        d.cpuRead (d.cpuWrite m0 rom.KEYBOARD_BUFFER_INDEX v) rom.KEYBOARD_BUFFER_INDEX = v) →
      d.cpuRead (typePet d rom env fuel str m).machine rom.KEYBOARD_BUFFER_INDEX =
        d.cpuRead m rom.KEYBOARD_BUFFER_INDEX + str.length) := by
  have hcap2 : d.cpuRead m rom.KEYBOARD_BUFFER_INDEX + str.data.length ≤
      rom.KEYBOARD_BUFFER_LENGTH := hcap
  have hrun : typePet d rom env fuel str m =
      { machine := applyWrites d (typeWrites rom (d.cpuRead m rom.KEYBOARD_BUFFER_INDEX)
          (str.data.map convertToPetscii)) m
        writes := typeWrites rom (d.cpuRead m rom.KEYBOARD_BUFFER_INDEX)
          (str.data.map convertToPetscii)
        waits := 0
        outcome := PetOutcome.resolved } := by
    have h := typePetLoop_fits d rom env str.data fuel
      (d.cpuRead m rom.KEYBOARD_BUFFER_INDEX) 0 m [] hcap2
    simpa [typePet] using h
  refine ⟨hrun, ?_, ?_, ?_, ?_⟩
  · intro i char hi
    rw [hrun]
    exact typeWrites_get rom _ _ i (convertToPetscii char) (by simp [hi])
  · rw [hrun]
    simp only [typeWrites_length, List.length_map]
    rfl
  · intro str2 hcodes
    have hlen : str2.data.length = str.data.length := by
      have := congrArg List.length hcodes
      simpa using this
    have h := typeLoop_fits d rom str2.data (d.cpuRead m rom.KEYBOARD_BUFFER_INDEX) m
      (by rw [hlen]; exact hcap2)
    rw [hrun]
    simp only [type, h, hcodes]
  · intro hrw
    rw [hrun]
    have h := applyWrites_length_cell d rom hrw (str.data.map convertToPetscii)
      (d.cpuRead m rom.KEYBOARD_BUFFER_INDEX) m rfl
      (by rw [List.length_map]; exact hcap2)
    rw [List.length_map] at h
    exact h

/-- C17, instance: `typePet` of `aB` into the empty buffer of a flat memory
writes 65 and 194, as `type` does on the text with those two codes. -/
theorem typePet_within_capacity_witness :
    flatBus.cpuRead (fun _ => 0) kernalRom.KEYBOARD_BUFFER_INDEX + "aB".length ≤
      kernalRom.KEYBOARD_BUFFER_LENGTH ∧
    (typePet flatBus kernalRom drainingEnv 0 "aB" (fun _ => 0)).writes =
      [(0x0277, 65), (0xc6, 1), (0x0278, 194), (0xc6, 2)] ∧
    type flatBus kernalRom (String.mk [Char.ofNat 65, Char.ofNat 194]) (fun _ => 0) =
      ((typePet flatBus kernalRom drainingEnv 0 "aB" (fun _ => 0)).machine, none) :=
  ⟨by decide, by decide,
   (typePet_within_capacity flatBus kernalRom drainingEnv 0 "aB" (fun _ => 0)
     (by decide)).2.2.2.1 (String.mk [Char.ofNat 65, Char.ofNat 194]) (by decide)⟩

/-! ## Starting and pacing an episode: theorems -/

theorem timerInvariant_initial {M : Type} (m : M) : TimerInvariant (initialWorld m) :=
  ⟨fun i hi => by simp [initialWorld] at hi, fun t ht => by simp [initialWorld] at ht⟩

theorem timerInvariant_running {M : Type} (m : M) (p : Profile M) (c : Nat) :
    TimerInvariant (runningWorld m p c) := by
  refine ⟨fun i hi => ?_, fun t ht => ?_⟩
  · simp only [runningWorld, List.mem_singleton] at hi
    subst hi
    exact ⟨rfl, rfl⟩
  · simp only [runningWorld, Option.some.injEq] at ht
    subst ht
    simp [runningWorld]

theorem clearInterval_timer_nil {M : Type} (w : World M) (hinv : TimerInvariant w) :
    (clearInterval w.timer w).intervals = [] := by
  simp only [clearInterval]
  rw [List.filter_eq_nil_iff]
  intro i hi
  simp [(hinv.1 i hi).1]

theorem cycleBody_congr {M : Type} (d : Devices M) (w1 w2 : World M)
    (hm : w1.machine = w2.machine) :
    (cycleBody d w1).2 = (cycleBody d w2).2 ∧
    (cycleBody d w1).1.machine = (cycleBody d w2).1.machine := by
  simp only [cycleBody, andThen, tickDevice, hm]
  cases h1 : (d.cpuTick w2.machine).2 <;> simp only []
  · cases h2 : (d.vicTick (d.cpuTick w2.machine).1).2 <;> simp only []
    · cases h3 : (d.ciasTick (d.vicTick (d.cpuTick w2.machine).1).1).2 <;> simp only []
      · cases h4 : (d.sidTick (d.ciasTick (d.vicTick (d.cpuTick w2.machine).1).1).1).2 <;>
          simp only []
        · exact ⟨trivial, trivial⟩
        · exact ⟨trivial, trivial⟩
      · exact ⟨trivial, trivial⟩
    · exact ⟨trivial, trivial⟩
  · exact ⟨trivial, trivial⟩

theorem cleanUpOnBreak_fault {M : Type} (h : Hooks) (w1 w2 : World M) :
    (cleanUpOnBreak h w1).2 = (cleanUpOnBreak h w2).2 := by
  simp only [cleanUpOnBreak, andThen, callHook]
  rcases h.didStop with _ | _ | x <;> rfl

theorem forLoop_congr {M : Type} (d : Devices M) (h : Hooks) (p : Profile M) (n : Nat)
    (w1 w2 : World M) (hm : w1.machine = w2.machine) (hc : w1.cycle = w2.cycle)
    (hs : w1.masterStop = w2.masterStop) :
    (forLoop d h p n w1).2 = (forLoop d h p n w2).2 ∧
    (forLoop d h p n w1).1.machine = (forLoop d h p n w2).1.machine ∧
    (forLoop d h p n w1).1.cycle = (forLoop d h p n w2).1.cycle ∧
    (forLoop d h p n w1).1.masterStop = (forLoop d h p n w2).1.masterStop := by
  induction n generalizing w1 w2 with
  | zero => exact ⟨rfl, hm, hc, hs⟩
  | succ n ih =>
    obtain ⟨hf, hm1⟩ := cycleBody_congr d w1 w2 hm
    have hc1 : (afterCycle d w1).cycle = (afterCycle d w2).cycle := by
      rw [afterCycle_sameFields d w1, afterCycle_sameFields d w2]
      simp only [hc]
    have hs1 : (afterCycle d w1).masterStop = (afterCycle d w2).masterStop := by
      rw [afterCycle_masterStop, afterCycle_masterStop, hs]
    have hm1' : (afterCycle d w1).machine = (afterCycle d w2).machine := hm1
    have hb1 : cycleBody d w1 = (afterCycle d w1, (cycleBody d w1).2) := rfl
    have hb2 : cycleBody d w2 = (afterCycle d w2, (cycleBody d w2).2) := rfl
    have hsc : stopCondition p (afterCycle d w1) = stopCondition p (afterCycle d w2) := by
      simp only [stopCondition, hs1, hm1', hc1]
    rw [forLoop, forLoop, hb1, hb2, hf]
    rcases (cycleBody d w2).2 with _ | e
    · simp only []
      rw [hsc]
      rcases stopCondition p (afterCycle d w2) with e | _ | _
      · exact ⟨rfl, hm1', hc1, hs1⟩
      · exact ih _ _ hm1' hc1 hs1
      · have hx := cleanUpOnBreak_fault h (afterCycle d w1) (afterCycle d w2)
        have g1 := sameMachine_cleanUpOnBreak h (afterCycle d w1)
        have g2 := sameMachine_cleanUpOnBreak h (afterCycle d w2)
        rcases hc1' : cleanUpOnBreak h (afterCycle d w1) with ⟨a1, f1⟩
        rcases hc2' : cleanUpOnBreak h (afterCycle d w2) with ⟨a2, f2⟩
        rw [hc1'] at g1 hx
        rw [hc2'] at g2 hx
        simp only at g1 g2 hx
        subst hx
        rcases f1 with _ | e <;>
          exact ⟨rfl, g1.machine.trans (hm1'.trans g2.machine.symm),
            g1.cycle.trans (hc1.trans g2.cycle.symm),
            g1.masterStop.trans (hs1.trans g2.masterStop.symm)⟩
    · exact ⟨rfl, hm1', hc1, hs1⟩

theorem frameTick_congr {M : Type} (d : Devices M) (h : Hooks) (p : Profile M) (now : ℚ)
    (w1 w2 : World M) (hm : w1.machine = w2.machine) (hc : w1.cycle = w2.cycle)
    (hs : w1.masterStop = w2.masterStop) :
    (frameTick d h p now w1).1.machine = (frameTick d h p now w2).1.machine ∧
    (frameTick d h p now w1).1.cycle = (frameTick d h p now w2).1.cycle ∧
    (frameTick d h p now w1).1.masterStop = (frameTick d h p now w2).1.masterStop := by
  obtain ⟨_, h1, h2, h3⟩ := forLoop_congr d h p CYCLES_PER_FRAME w1 w2 hm hc hs
  have g1 := frameTick_sameMachine d h p now w1
  have g2 := frameTick_sameMachine d h p now w2
  exact ⟨g1.machine.trans (h1.trans g2.machine.symm), g1.cycle.trans (h2.trans g2.cycle.symm),
    g1.masterStop.trans (h3.trans g2.masterStop.symm)⟩

theorem intervals_nil_of_timer_none {M : Type} (w : World M) (hinv : TimerInvariant w)
    (ht : w.timer = none) : w.intervals = [] := by
  apply List.eq_nil_iff_forall_not_mem.mpr
  intro i hi
  have := (hinv.1 i hi).1
  rw [ht] at this
  cases this

theorem intervals_filter_timer {M : Type} (w : World M) (hinv : TimerInvariant w) (t : Nat)
    (ht : w.timer = some t) :
    w.intervals.filter (fun i => decide (some i.id ≠ some t)) = [] := by
  rw [List.filter_eq_nil_iff]
  intro i hi
  have := (hinv.1 i hi).1
  rw [ht] at this
  simp [this]

/-- The world `run` leaves, before the `didStart` hook is called. -/
theorem run_world {M : Type} (h : Hooks) (now : ℚ) (arg : ProfileArg M) (w : World M)
    (hinv : TimerInvariant w) :
    ∃ tr, (run h now arg w).1 =
      { w with
        lastProfile := some (applyDefaults arg)
        resolveBreakPromise := some w.nextId
        masterStop := false
        frameStop := false
        timeAtWaypoint := now
        framesSinceWaypoint := 0
        timer := some (w.nextId + 1)
        intervals := [{ id := w.nextId + 1, profile := applyDefaults arg,
                        delay := pacingDelay (applyDefaults arg).fps w.speedMultiplier }]
        nextId := w.nextId + 2
        trace := w.trace ++ tr } := by
  cases ht : w.timer with
  | none =>
    have hi := intervals_nil_of_timer_none w hinv ht
    rcases hh : h.didStart with _ | _ | x <;>
      simp [run, startTimer, callHook, World.emit, ht, hh, hi]
  | some t =>
    have hi : ∀ a ∈ w.intervals, a.id = t := by
      intro a ha
      have := (hinv.1 a ha).1
      rw [ht] at this
      exact Option.some.inj this
    rcases hh : h.didStart with _ | _ | x <;>
      simp [run, startTimer, callHook, World.emit, clearInterval, ht, hh] <;> exact hi

/-- C15: from a world that satisfies the timer invariant, `run(profile)` leaves
the counter and the devices alone, leaves both stop flags false, and leaves
exactly one registered interval: a fresh one, not the timer of an episode in
flight (that one is cleared), held in `timer`, running the effective profile
at delay `1000 / (fps * speedMultiplier)`. The effective profile takes the stop
predicate and `fps` from the argument where it has them and otherwise the
predicate that always returns false and 50. `run` returns a fresh promise,
whose resolver it keeps; it throws only if the `didStart` hook throws. The
timer invariant holds again afterwards. -/
theorem run_starts_one_timer {M : Type} (h : Hooks) (now : ℚ) (arg : ProfileArg M)
    (w : World M) (hinv : TimerInvariant w) :
    (run h now arg w).1.cycle = w.cycle ∧
    (run h now arg w).1.machine = w.machine ∧
    (run h now arg w).1.masterStop = false ∧
    (run h now arg w).1.frameStop = false ∧
    (run h now arg w).1.speedMultiplier = w.speedMultiplier ∧
    (run h now arg w).1.intervals =
      [{ id := w.nextId + 1, profile := applyDefaults arg,
         delay := pacingDelay (applyDefaults arg).fps w.speedMultiplier }] ∧
    (run h now arg w).1.timer = some (w.nextId + 1) ∧
    (∀ t, w.timer = some t → t ≠ w.nextId + 1) ∧
    (run h now arg w).1.lastProfile = some (applyDefaults arg) ∧
    (run h now arg w).1.resolveBreakPromise = some w.nextId ∧
    ((∀ x, h.didStart ≠ some (HookResult.throws x)) →
      (run h now arg w).2 = Except.ok w.nextId) ∧
    (arg.tick = none → (applyDefaults arg).tick = fun _ _ => Except.ok false) ∧
    (arg.fps = none → (applyDefaults arg).fps = Fps.finite 50) ∧
    (∀ t, arg.tick = some t → (applyDefaults arg).tick = t) ∧
    (∀ f, arg.fps = some f → (applyDefaults arg).fps = f) ∧
    (∀ f, (applyDefaults arg).fps = Fps.finite f →
      pacingDelay (applyDefaults arg).fps w.speedMultiplier =
        1000 / (f * w.speedMultiplier)) ∧
    ((applyDefaults arg).fps = Fps.infinity →
      pacingDelay (applyDefaults arg).fps w.speedMultiplier = 0) ∧
    TimerInvariant (run h now arg w).1 := by
  obtain ⟨tr, hw⟩ := run_world h now arg w hinv
  refine ⟨by rw [hw], by rw [hw], by rw [hw], by rw [hw], by rw [hw], by rw [hw], by rw [hw],
    ?_, by rw [hw], by rw [hw], ?_, ?_, ?_, ?_, ?_, ?_, ?_, ?_⟩
  · intro t ht
    have := hinv.2 t ht
    omega
  · intro hd
    rcases hh : h.didStart with _ | _ | x
    · simp [run, callHook, hh]
    · simp [run, callHook, hh]
    · exact absurd hh (hd x)
  · intro ha; simp [applyDefaults, ha]
  · intro ha; simp [applyDefaults, ha]
  · intro t ha; simp [applyDefaults, ha]
  · intro f ha; simp [applyDefaults, ha]
  · intro f hf; rw [hf]; rfl
  · intro hf; rw [hf]; rfl
  · rw [hw]
    refine ⟨fun i hi => ?_, fun t ht => ?_⟩
    · simp only [List.mem_singleton] at hi
      subst hi
      exact ⟨rfl, rfl⟩
    · simp only [Option.some.injEq] at ht
      subst ht
      simp

/-- C15, instance: `run()` without an argument while an episode is in flight
(interval 1, speed multiplier 4): the one interval left is the fresh interval
4, with the default profile at `1000 / (50 * 4) = 5` ms, and promise 3 is
returned. -/
theorem run_starts_one_timer_witness :
    TimerInvariant (runningWorld (0 : Nat) (atPc 3) 7) ∧
    (run stopHooks 20 { tick := none, fps := none }
      (runningWorld (0 : Nat) (atPc 3) 7)).1.intervals =
      [{ id := 4, profile := applyDefaults { tick := none, fps := none }, delay := 5 }] ∧
    (run stopHooks 20 { tick := none, fps := none } (runningWorld (0 : Nat) (atPc 3) 7)).2 =
      Except.ok 3 ∧
    (run stopHooks 20 { tick := none, fps := none } (runningWorld (0 : Nat) (atPc 3) 7)).1.cycle =
      7 :=
  have hall := run_starts_one_timer stopHooks 20 { tick := none, fps := none }
    (runningWorld (0 : Nat) (atPc 3) 7) (timerInvariant_running 0 (atPc 3) 7)
  ⟨timerInvariant_running 0 (atPc 3) 7,
   hall.2.2.2.2.2.1.trans (by
     simp only [runningWorld, applyDefaults, pacingDelay, Option.getD_none]
     norm_num),
   hall.2.2.2.2.2.2.2.2.2.2.1 (by intro x; simp [stopHooks]),
   hall.1⟩

/-- C12: `setSpeed(m)` sets the speed multiplier to `m` and leaves the counter,
the devices, both stop flags, the stored profile and the pending promise as
they are. With a timer set and a profile stored (an episode is active), in a
world that satisfies the timer invariant, the old interval is cleared and
exactly one interval is registered afterwards: a fresh one, held in `timer`,
running the same profile as the old one at delay `1000 / (fps * m)`. With no
timer set, none is started. A frame tick after the call does to the devices
and the counter exactly what it would have done without the call, so no
cycle is lost or counted twice. -/
theorem setSpeed_effect {M : Type} (m : ℚ) (w : World M) :
    (setSpeed m w).speedMultiplier = m ∧
    (setSpeed m w).cycle = w.cycle ∧
    (setSpeed m w).machine = w.machine ∧
    (setSpeed m w).masterStop = w.masterStop ∧
    (setSpeed m w).frameStop = w.frameStop ∧
    (setSpeed m w).lastProfile = w.lastProfile ∧
    (setSpeed m w).resolveBreakPromise = w.resolveBreakPromise ∧
    (setSpeed m w).resolved = w.resolved ∧
    (∀ t p, w.timer = some t → w.lastProfile = some p → TimerInvariant w →
      (setSpeed m w).intervals =
        [{ id := w.nextId, profile := p, delay := pacingDelay p.fps m }] ∧
      (setSpeed m w).timer = some w.nextId ∧ t ≠ w.nextId ∧
      (∀ i ∈ w.intervals, i.id = t ∧ i.profile = p) ∧
      (∀ f, p.fps = Fps.finite f → pacingDelay p.fps m = 1000 / (f * m)) ∧
      TimerInvariant (setSpeed m w)) ∧
    (w.timer = none → (setSpeed m w).timer = none ∧
      (setSpeed m w).intervals = w.intervals ∧ (setSpeed m w).nextId = w.nextId) ∧
    (∀ (d : Devices M) (h : Hooks) (p : Profile M) (now : ℚ),
      (frameTick d h p now (setSpeed m w)).1.cycle = (frameTick d h p now w).1.cycle ∧
      (frameTick d h p now (setSpeed m w)).1.machine = (frameTick d h p now w).1.machine) := by
  have hfields : (setSpeed m w).speedMultiplier = m ∧
      (setSpeed m w).cycle = w.cycle ∧ (setSpeed m w).machine = w.machine ∧
      (setSpeed m w).masterStop = w.masterStop ∧ (setSpeed m w).frameStop = w.frameStop ∧
      (setSpeed m w).lastProfile = w.lastProfile ∧
      (setSpeed m w).resolveBreakPromise = w.resolveBreakPromise ∧
      (setSpeed m w).resolved = w.resolved := by
    rcases ht : w.timer with _ | t <;> rcases hl : w.lastProfile with _ | p <;>
      simp [setSpeed, startTimer, clearInterval, ht, hl]
  obtain ⟨h1, h2, h3, h4, h5, h6, h7, h8⟩ := hfields
  refine ⟨h1, h2, h3, h4, h5, h6, h7, h8, ?_, ?_, ?_⟩
  · intro t p ht hl hinv
    have hi : ∀ a ∈ w.intervals, a.id = t := by
      intro a ha
      have := (hinv.1 a ha).1
      rw [ht] at this
      exact Option.some.inj this
    have hp : ∀ a ∈ w.intervals, a.profile = p := by
      intro a ha
      have := (hinv.1 a ha).2
      rw [hl] at this
      exact Option.some.inj this
    have hint : (setSpeed m w).intervals =
        [{ id := w.nextId, profile := p, delay := pacingDelay p.fps m }] := by
      simp [setSpeed, startTimer, clearInterval, ht, hl]
      exact hi
    have htim : (setSpeed m w).timer = some w.nextId := by
      simp [setSpeed, startTimer, clearInterval, ht, hl]
    have hnext : (setSpeed m w).nextId = w.nextId + 1 := by
      simp [setSpeed, startTimer, clearInterval, ht, hl]
    refine ⟨hint, htim, ?_, fun i hi0 => ⟨hi i hi0, hp i hi0⟩, ?_, ?_⟩
    · have := hinv.2 t ht
      omega
    · intro f hf; rw [hf]; rfl
    · refine ⟨fun i hi0 => ?_, fun t0 ht0 => ?_⟩
      · rw [hint] at hi0
        simp only [List.mem_singleton] at hi0
        subst hi0
        rw [htim, h6, hl]
        exact ⟨rfl, rfl⟩
      · rw [htim] at ht0
        simp only [Option.some.injEq] at ht0
        subst ht0
        rw [hnext]
        omega
  · intro ht
    simp [setSpeed, ht]
  · intro d h p now
    obtain ⟨g1, g2, _⟩ := frameTick_congr d h p now (setSpeed m w) w h3 h2 h4
    exact ⟨g2, g1⟩

/-- C12, instance: `setSpeed(20)` while the default profile runs on interval
1: afterwards the one interval is the fresh interval 3 at `1000 / (50 * 20) = 1`
ms; on the world before the first `run` it starts nothing. -/
theorem setSpeed_effect_witness :
    (setSpeed 20 (runningWorld (0 : Nat) (defaultProfile Nat) 7)).intervals =
      [{ id := 3, profile := defaultProfile Nat, delay := 1 }] ∧
    (setSpeed 20 (runningWorld (0 : Nat) (defaultProfile Nat) 7)).cycle = 7 ∧
    (setSpeed 20 (initialWorld (0 : Nat))).timer = none :=
  have hall := setSpeed_effect 20 (runningWorld (0 : Nat) (defaultProfile Nat) 7)
  ⟨(hall.2.2.2.2.2.2.2.2.1 1 (defaultProfile Nat) rfl rfl
      (timerInvariant_running 0 (defaultProfile Nat) 7)).1.trans (by
     simp only [runningWorld, defaultProfile, pacingDelay]
     norm_num),
   hall.2.1, rfl⟩

/-! ## Entry points and lifecycle: theorems -/

/-- C13, as stated, fails: `untilPc` called without an address on a freshly
loaded module returns normally, so its promise is resolved, not rejected. -/
theorem untilPc_missing_address_resolves :
    (untilPc stopHooks 0 (fun m : Nat => m) none false (initialWorld 0)).2 =
      UntilPcStep.returned ∧
    ¬ ∃ e, (untilPc stopHooks 0 (fun m : Nat => m) none false (initialWorld 0)).2 =
      UntilPcStep.threw e := by
  refine ⟨rfl, ?_⟩
  rintro ⟨e, he⟩
  cases he

/-- C13, amended: `untilPc` called without an address logs the error
`Missing argument: PC address` through `console.error` and returns, so that
its promise resolves; it starts no run episode and changes nothing else: no
interval is registered and the timer, the stored profile, the stop flags, the
pending promise, the counter and the devices are as before. -/
theorem untilPc_missing_address {M : Type} (h : Hooks) (now : ℚ) (regsPc : M → Nat)
    (fast : Bool) (w : World M) :
    untilPc h now regsPc none fast w =
      (w.emit (Event.consoleError missingPcError), UntilPcStep.returned) ∧
    (untilPc h now regsPc none fast w).1 =
      { w with trace := w.trace ++ [Event.consoleError "Missing argument: PC address"] } ∧
    (untilPc h now regsPc none fast w).1.timer = w.timer ∧
    (untilPc h now regsPc none fast w).1.intervals = w.intervals ∧
    (untilPc h now regsPc none fast w).1.lastProfile = w.lastProfile ∧
    (untilPc h now regsPc none fast w).1.resolveBreakPromise = w.resolveBreakPromise ∧
    (untilPc h now regsPc none fast w).1.masterStop = w.masterStop ∧
    (untilPc h now regsPc none fast w).1.frameStop = w.frameStop ∧
    (untilPc h now regsPc none fast w).1.cycle = w.cycle ∧
    (untilPc h now regsPc none fast w).1.machine = w.machine :=
  ⟨rfl, rfl, rfl, rfl, rfl, rfl, rfl, rfl, rfl, rfl⟩

theorem run_masterStop {M : Type} (h : Hooks) (now : ℚ) (arg : ProfileArg M) (w : World M) :
    (run h now arg w).1.masterStop = false := by
  rcases ht : w.timer with _ | t <;> rcases hh : h.didStart with _ | _ | x <;>
    simp [run, startTimer, callHook, World.emit, clearInterval, ht, hh]

theorem setSpeed_masterStop {M : Type} (m : ℚ) (w : World M) :
    (setSpeed m w).masterStop = w.masterStop := by
  rcases ht : w.timer with _ | t <;> rcases hl : w.lastProfile with _ | p <;>
    simp [setSpeed, startTimer, clearInterval, ht, hl]

theorem quietCycles_atPc_sample :
    QuietCycles wrapCpu (atPc 3) 3 (runningWorld 3 (atPc 3) 100) := by
  intro j hj
  interval_cases j <;> exact ⟨rfl, rfl⟩

/-- C18, as stated, fails: before the first `run` no timer is set, yet
`isRunning()` returns true; after an episode has ended because the stop
predicate fired the timer is `undefined`, yet `isRunning()` returns true; and
right after `stop()` the timer is still set, yet `isRunning()` returns
false. -/
theorem isRunning_ignores_timer :
    ((initialWorld (0 : Nat)).timer = none ∧ isRunning (initialWorld (0 : Nat)) = true) ∧
    ((frameTick wrapCpu stopHooks (atPc 3) 20 (runningWorld 3 (atPc 3) 100)).1.timer = none ∧
      isRunning (frameTick wrapCpu stopHooks (atPc 3) 20 (runningWorld 3 (atPc 3) 100)).1 =
        true) ∧
    ((stop (runningWorld 3 (atPc 3) 100)).timer = some 1 ∧
      isRunning (stop (runningWorld 3 (atPc 3) 100)) = false) := by
  refine ⟨⟨rfl, rfl⟩, ⟨?_, ?_⟩, ⟨rfl, rfl⟩⟩
  · have hall := frameTick_fires_effect wrapCpu stopHooks (atPc 3) 20
      (runningWorld 3 (atPc 3) 100) 3 (by simp [CYCLES_PER_FRAME]) quietCycles_atPc_sample
      rfl rfl
    exact (hall.2.2.2 (by intro x; simp [stopHooks])).1
  · simp only [isRunning, frameTick_masterStop]
    rfl

/-- C18, amended: `isRunning()` returns the negation of the master-stop flag,
whether or not a timer is set. It is true before the first `run` and after
every `run`, false after `stop()`, and nothing else changes it: not a frame
tick (whether it ends the episode or not), not `stopAfterFrame()`, not
`setSpeed`. -/
theorem isRunning_is_not_masterStop {M : Type} (w : World M) :
    isRunning w = !w.masterStop ∧
    (∀ m : M, isRunning (initialWorld m) = true) ∧
    (∀ (h : Hooks) (now : ℚ) (arg : ProfileArg M), isRunning (run h now arg w).1 = true) ∧
    isRunning (stop w) = false ∧
    (∀ (d : Devices M) (h : Hooks) (p : Profile M) (now : ℚ),
      isRunning (frameTick d h p now w).1 = isRunning w) ∧
    isRunning (stopAfterFrame w) = isRunning w ∧
    (∀ m : ℚ, isRunning (setSpeed m w) = isRunning w) := by
  refine ⟨rfl, fun m => rfl, ?_, rfl, ?_, rfl, ?_⟩
  · intro h now arg
    simp only [isRunning, run_masterStop]
    rfl
  · intro d h p now
    simp only [isRunning, frameTick_masterStop]
  · intro m
    simp only [isRunning, setSpeed_masterStop]

/-! ## Faults and finalization: theorems -/

/-- C14, as stated, fails: on `faultyCpu` started at program counter 0 the CPU
tick of the third cycle throws. With a `didStop` hook that throws, the frame
tick catches the fault, logs it and runs `cleanUpOnBreak`, which ends at the
hook: an exception leaves the frame tick, `timer` still holds the id 1 and
promise 2 is not resolved. -/
theorem fault_cleanup_stopped_by_hook :
    QuietCycles faultyCpu (defaultProfile Nat) 2 (runningWorld 0 (defaultProfile Nat) 7) ∧
    (cycleBody faultyCpu
      (afterCycles faultyCpu 2 (runningWorld 0 (defaultProfile Nat) 7))).2 =
        some "illegal opcode" ∧
    (frameTick faultyCpu throwingStopHooks (defaultProfile Nat) 20
      (runningWorld 0 (defaultProfile Nat) 7)).2 = some "didStop failed" ∧
    (frameTick faultyCpu throwingStopHooks (defaultProfile Nat) 20
      (runningWorld 0 (defaultProfile Nat) 7)).1.timer = some 1 ∧
    (runningWorld 0 (defaultProfile Nat) 7).resolveBreakPromise = some 2 ∧
    2 ∉ (frameTick faultyCpu throwingStopHooks (defaultProfile Nat) 20
      (runningWorld 0 (defaultProfile Nat) 7)).1.resolved := by
  have hq : QuietCycles faultyCpu (defaultProfile Nat) 2
      (runningWorld 0 (defaultProfile Nat) 7) := by
    intro j hj
    interval_cases j <;> exact ⟨rfl, rfl⟩
  have htb := (frameTick_of_fault faultyCpu throwingStopHooks (defaultProfile Nat) 20
    (runningWorld 0 (defaultProfile Nat) 7) 2 "illegal opcode" (by simp [CYCLES_PER_FRAME])
    hq (Or.inl rfl)).1
  have hkeep := frameTick_keeps faultyCpu throwingStopHooks (defaultProfile Nat) 20
    (runningWorld 0 (defaultProfile Nat) 7) "didStop failed" rfl
  refine ⟨hq, rfl, hkeep.2.2 (by rw [htb]; simp), hkeep.1, rfl, ?_⟩
  rw [hkeep.2.1]
  simp [runningWorld]

/-- C14, amended: a frame tick in which, after `k` quiet cycles, a tick of
cycle `k + 1` throws `e`, or the ticks return and the stop predicate throws
`e`. The exception is caught and logged and `cleanUpOnBreak` runs, the
function the normal stop runs: the frame tick is that call of
`cleanUpOnBreak`, made on the world the fault left with the log entry added.
It calls `clearInterval(timer)` right after the log entry, so that the
interval is no longer registered. When the `didStop` hook does not throw, no
exception leaves the frame tick, `timer` is `undefined`, `didStop` was called
if present and the promise is resolved. -/
theorem fault_is_treated_as_stop {M : Type} (d : Devices M) (h : Hooks) (p : Profile M)
    (now : ℚ) (w : World M) (k : Nat) (e : Exn) (hk : k < 312 * 63)
    (hq : QuietCycles d p k w)
    (hfault : (cycleBody d (afterCycles d k w)).2 = some e ∨
      ((cycleBody d (afterCycles d k w)).2 = none ∧
        stopCondition p (afterCycles d (k + 1) w) = Except.error e)) :
    frameTick d h p now w =
      cleanUpOnBreak h ((afterCycles d (k + 1) w).emit (Event.consoleError e)) ∧
    (∀ i ∈ (frameTick d h p now w).1.intervals, some i.id ≠ w.timer) ∧
    (∃ rest, (frameTick d h p now w).1.trace =
        (afterCycles d (k + 1) w).trace ++
          Event.consoleError e :: Event.clearInterval w.timer :: rest ∧
      ((∀ x, h.didStop ≠ some (HookResult.throws x)) →
        (h.didStop ≠ none → Event.didStop ∈ rest) ∧
        (∀ r, w.resolveBreakPromise = some r → Event.resolve r ∈ rest))) ∧
    (frameTick d h p now w).1.cycle = incrementCycle^[k + 1] w.cycle ∧
    ((∀ x, h.didStop ≠ some (HookResult.throws x)) →
      (frameTick d h p now w).2 = none ∧
      (frameTick d h p now w).1.timer = none ∧
      (∀ r, w.resolveBreakPromise = some r → r ∈ (frameTick d h p now w).1.resolved)) := by
  have hlt : k < CYCLES_PER_FRAME := by simp only [CYCLES_PER_FRAME]; omega
  exact frameTick_fault_effect d h p now w k e hlt hq hfault

/-- C14, instance: on `faultyCpu` started at program counter 0 the CPU tick of
the third cycle throws; the frame tick ends with the timer `undefined` and
promise 2 resolved, and nothing escapes. -/
theorem fault_is_treated_as_stop_witness :
    QuietCycles faultyCpu (defaultProfile Nat) 2 (runningWorld 0 (defaultProfile Nat) 7) ∧
    (cycleBody faultyCpu
      (afterCycles faultyCpu 2 (runningWorld 0 (defaultProfile Nat) 7))).2 =
        some "illegal opcode" ∧
    (∀ x, stopHooks.didStop ≠ some (HookResult.throws x)) ∧
    (frameTick faultyCpu stopHooks (defaultProfile Nat) 20
      (runningWorld 0 (defaultProfile Nat) 7)).2 = none ∧
    (frameTick faultyCpu stopHooks (defaultProfile Nat) 20
      (runningWorld 0 (defaultProfile Nat) 7)).1.timer = none ∧
    2 ∈ (frameTick faultyCpu stopHooks (defaultProfile Nat) 20
      (runningWorld 0 (defaultProfile Nat) 7)).1.resolved ∧
    (frameTick faultyCpu stopHooks (defaultProfile Nat) 20
      (runningWorld 0 (defaultProfile Nat) 7)).1.intervals = [] :=
  have hq : QuietCycles faultyCpu (defaultProfile Nat) 2
      (runningWorld 0 (defaultProfile Nat) 7) := by
    intro j hj
    interval_cases j <;> exact ⟨rfl, rfl⟩
  have hd : ∀ x, stopHooks.didStop ≠ some (HookResult.throws x) := by
    intro x; simp [stopHooks]
  have hall := fault_is_treated_as_stop faultyCpu stopHooks (defaultProfile Nat) 20
    (runningWorld 0 (defaultProfile Nat) 7) 2 "illegal opcode" (by decide) hq (Or.inl rfl)
  ⟨hq, rfl, hd, (hall.2.2.2.2 hd).1, (hall.2.2.2.2 hd).2.1, (hall.2.2.2.2 hd).2.2 2 rfl,
    by rw [hall.1]; rfl⟩

theorem restoreDevice_sched {M : Type} (d : Devices M) (obj : JSValue) (c : Component)
    (key : String) (w : World M) :
    (restoreDevice d obj c key w).1 =
      { w with machine := (restoreDevice d obj c key w).1.machine } := by
  unfold restoreDevice
  rcases obj.getProp key with e | v <;> rfl

/-- What `deserialize` leaves alone: everything but the devices and the
counter. -/
theorem deserialize_sched {M : Type} (J : JSON) (d : Devices M) (json : String) (w : World M)
    (r : World M × Option Exn) (hr : deserialize J d json w = some r) :
    r.1 = { w with machine := r.1.machine, cycle := r.1.cycle } := by
  have chain : ∀ (w1 : World M) (x : World M × Option Exn)
      (k : World M → World M × Option Exn),
      x.1 = { w1 with machine := x.1.machine, cycle := x.1.cycle } →
      (∀ w2, (k w2).1 = { w2 with machine := (k w2).1.machine, cycle := (k w2).1.cycle }) →
      (andThen x k).1 =
        { w1 with machine := (andThen x k).1.machine, cycle := (andThen x k).1.cycle } := by
    intro w1 x k hx hk
    unfold andThen
    rcases hx2 : x.2 with _ | e
    · simp only []
      rw [hk x.1]
      simp only []
      rw [hx]
    · exact hx
  have one : ∀ (obj : JSValue) (c : Component) (key : String) (w2 : World M),
      (restoreDevice d obj c key w2).1 =
        { w2 with machine := (restoreDevice d obj c key w2).1.machine,
                  cycle := (restoreDevice d obj c key w2).1.cycle } := by
    intro obj c key w2
    have h := restoreDevice_sched d obj c key w2
    rw [h]
  unfold deserialize at hr
  rcases hp : J.parse json with e | obj
  · rw [hp] at hr
    simp only [Option.some.injEq] at hr
    subst hr
    rfl
  · rw [hp] at hr
    simp only at hr
    rcases hg : obj.getProp "runloop" with e | v
    · rw [hg] at hr
      simp only [Option.some.injEq] at hr
      subst hr
      rfl
    · rw [hg] at hr
      cases v with
      | string text =>
        simp only at hr
        rcases hp2 : J.parse text with e | st
        · rw [hp2] at hr
          simp only [Option.some.injEq] at hr
          subst hr
          rfl
        · rw [hp2] at hr
          simp only at hr
          rcases hdc : decodeState st with _ | c
          · rw [hdc] at hr
            cases hr
          · rw [hdc] at hr
            simp only [Option.some.injEq] at hr
            subst hr
            have h0 := one obj Component.wires "wires" { w with cycle := c }
            have := chain { w with cycle := c } _
              (fun w1 =>
                andThen (restoreDevice d obj Component.ram "ram" w1) fun w2 =>
                andThen (restoreDevice d obj Component.vic "vic" w2) fun w3 =>
                andThen (restoreDevice d obj Component.sid "sid" w3) fun w4 =>
                andThen (restoreDevice d obj Component.cpu "cpu" w4) fun w5 =>
                andThen (restoreDevice d obj Component.cias "cias" w5) fun w6 =>
                restoreDevice d obj Component.tape "tape" w6) h0
              (fun w1 => chain w1 _ _ (one obj _ _ w1)
                (fun w2 => chain w2 _ _ (one obj _ _ w2)
                  (fun w3 => chain w3 _ _ (one obj _ _ w3)
                    (fun w4 => chain w4 _ _ (one obj _ _ w4)
                      (fun w5 => chain w5 _ _ (one obj _ _ w5)
                        (fun w6 => one obj _ _ w6))))))
            rw [this]
      | undefined => simp only at hr; cases hr
      | null => simp only at hr; cases hr
      | bool b => simp only at hr; cases hr
      | number n => simp only at hr; cases hr
      | array items => simp only at hr; cases hr
      | object fields => simp only at hr; cases hr

/-- Restoring the snapshot of `w0` into any world `w`, for components whose
`deserialize` of the form taken from `w0` makes them serialize to that form
again and leaves the other components' forms alone. -/
theorem deserialize_restores {M : Type} (J : JSON) (d : Devices M) (w0 w : World M)
    (hJ1 : J.parse (J.stringify (stateObject w0)) = Except.ok (stateObject w0))
    (hJ2 : J.parse (serialize J d w0) = Except.ok (snapshotObject J d w0))
    (hPG : ∀ c m, (d.deserialize c (d.serialize c w0.machine) m).2 = none ∧
      d.serialize c (d.deserialize c (d.serialize c w0.machine) m).1 =
        d.serialize c w0.machine)
    (hFr : ∀ c c1 b m, c1 ≠ c → d.serialize c1 (d.deserialize c b m).1 = d.serialize c1 m) :
    ∃ w3, deserialize J d (serialize J d w0) w = some (w3, none) ∧
      w3.cycle = w0.cycle ∧ ∀ c, d.serialize c w3.machine = d.serialize c w0.machine := by
  have hrl : (snapshotObject J d w0).getProp "runloop" =
      Except.ok (JSValue.string (J.stringify (stateObject w0))) := rfl
  have hk1 : (snapshotObject J d w0).getProp "wires" =
      Except.ok (d.serialize Component.wires w0.machine) := rfl
  have hk2 : (snapshotObject J d w0).getProp "ram" =
      Except.ok (d.serialize Component.ram w0.machine) := rfl
  have hk3 : (snapshotObject J d w0).getProp "vic" =
      Except.ok (d.serialize Component.vic w0.machine) := rfl
  have hk4 : (snapshotObject J d w0).getProp "sid" =
      Except.ok (d.serialize Component.sid w0.machine) := rfl
  have hk5 : (snapshotObject J d w0).getProp "cpu" =
      Except.ok (d.serialize Component.cpu w0.machine) := rfl
  have hk6 : (snapshotObject J d w0).getProp "cias" =
      Except.ok (d.serialize Component.cias w0.machine) := rfl
  have hk7 : (snapshotObject J d w0).getProp "tape" =
      Except.ok (d.serialize Component.tape w0.machine) := rfl
  have hds := decodeState_stateObject w0
  have step : ∀ (c : Component) (key : String) (w1 : World M),
      (snapshotObject J d w0).getProp key = Except.ok (d.serialize c w0.machine) →
      restoreDevice d (snapshotObject J d w0) c key w1 =
        ({ w1 with machine := (d.deserialize c (d.serialize c w0.machine) w1.machine).1 },
          none) :=
    fun c key w1 hk => restoreDevice_step d _ c key _ w1 hk (hPG c w1.machine).1
  simp only [deserialize, hJ2, hrl, hJ1, hds, andThen, step _ _ _ hk1, step _ _ _ hk2,
    step _ _ _ hk3, step _ _ _ hk4, step _ _ _ hk5, step _ _ _ hk6, step _ _ _ hk7]
  refine ⟨_, rfl, rfl, ?_⟩
  intro c
  cases c <;> simp (disch := decide) only [hFr, (hPG _ _).2]

/-- C19, as stated, fails: restoring a snapshot while the interval 1 runs and
promise 2 is pending returns without an exception and leaves the interval
registered, `timer` set and the promise unresolved. -/
theorem deserialize_does_not_stop :
    ∃ r, deserialize sampleJSON registers (serialize sampleJSON registers sampleWorld)
        sampleWorld = some r ∧
      r.2 = none ∧ sampleWorld.timer = some 1 ∧ r.1.timer = some 1 ∧
      r.1.intervals.map (fun i => i.id) = [1] ∧
      sampleWorld.resolveBreakPromise = some 2 ∧ 2 ∉ r.1.resolved := by
  obtain ⟨w3, hw3, _, _⟩ := deserialize_restores sampleJSON registers sampleWorld sampleWorld
    rfl rfl (fun c m => registers_putGet sampleWorld.machine m c)
    (fun c c1 b m hne => registers_frame c c1 b m hne)
  have hs := deserialize_sched sampleJSON registers _ sampleWorld _ hw3
  refine ⟨(w3, none), hw3, rfl, rfl, ?_, ?_, rfl, ?_⟩
  · simp only at hs; rw [hs]; rfl
  · simp only at hs; rw [hs]; rfl
  · simp only at hs; rw [hs]; simp [sampleWorld, runningWorld]

/-- C19, amended: `deserialize(snapshot)` does not stop a run episode. Whatever
the snapshot, a call that is within the embedding changes nothing but the
devices and the counter: `timer`, the registered intervals, the stop flags, the
pending promise and the promises resolved are as before, so an active episode
stays active. When the snapshot is the one taken of a world `w0` that the
codec reads back, and every component restores its own form without
disturbing the others, the call returns without an exception and the counter
and every component's serialized form are those of `w0`. -/
theorem deserialize_keeps_episode {M : Type} (J : JSON) (d : Devices M) (json : String)
    (w : World M) (r : World M × Option Exn) (hr : deserialize J d json w = some r) :
    r.1 = { w with machine := r.1.machine, cycle := r.1.cycle } ∧
    r.1.timer = w.timer ∧ r.1.intervals = w.intervals ∧
    r.1.masterStop = w.masterStop ∧ r.1.frameStop = w.frameStop ∧
    r.1.resolveBreakPromise = w.resolveBreakPromise ∧ r.1.resolved = w.resolved ∧
    r.1.lastProfile = w.lastProfile ∧ r.1.trace = w.trace ∧
    (∀ w0 : World M, json = serialize J d w0 →
      J.parse (J.stringify (stateObject w0)) = Except.ok (stateObject w0) →
      J.parse (serialize J d w0) = Except.ok (snapshotObject J d w0) →
      (∀ c m, (d.deserialize c (d.serialize c w0.machine) m).2 = none ∧
        d.serialize c (d.deserialize c (d.serialize c w0.machine) m).1 =
          d.serialize c w0.machine) →
      (∀ c c1 b m, c1 ≠ c → d.serialize c1 (d.deserialize c b m).1 = d.serialize c1 m) →
      r.2 = none ∧ r.1.cycle = w0.cycle ∧
      ∀ c, d.serialize c r.1.machine = d.serialize c w0.machine) := by
  have hs := deserialize_sched J d json w r hr
  refine ⟨hs, by rw [hs], by rw [hs], by rw [hs], by rw [hs], by rw [hs], by rw [hs],
    by rw [hs], by rw [hs], ?_⟩
  intro w0 hjson hJ1 hJ2 hPG hFr
  obtain ⟨w3, hw3, hc, hser⟩ := deserialize_restores J d w0 w hJ1 hJ2 hPG hFr
  rw [hjson, hw3] at hr
  simp only [Option.some.injEq] at hr
  subst hr
  exact ⟨rfl, hc, hser⟩

/-- C19, instance: the snapshot of `sampleWorld` restored into a world in which
interval 1 runs at counter 0: the counter becomes 7 and interval 1 still
runs. -/
theorem deserialize_keeps_episode_witness :
    ∃ r, deserialize sampleJSON registers (serialize sampleJSON registers sampleWorld)
        (runningWorld (fun _ => 0) (defaultProfile (Component → Nat)) 0) = some r ∧
      r.1.timer = some 1 ∧ r.1.resolved = [] ∧ r.1.cycle = 7 := by
  obtain ⟨w3, hw3, _, _⟩ := deserialize_restores sampleJSON registers sampleWorld
    (runningWorld (fun _ => 0) (defaultProfile (Component → Nat)) 0)
    rfl rfl (fun c m => registers_putGet sampleWorld.machine m c)
    (fun c c1 b m hne => registers_frame c c1 b m hne)
  have hall := deserialize_keeps_episode sampleJSON registers _ _ (w3, none) hw3
  exact ⟨(w3, none), hw3, hall.2.1, hall.2.2.2.2.2.2.1,
    (hall.2.2.2.2.2.2.2.2.2 sampleWorld rfl rfl rfl
      (fun c m => registers_putGet sampleWorld.machine m c)
      (fun c c1 b m hne => registers_frame c c1 b m hne)).2.1⟩

theorem counts_append (a b : List Event) :
    finalizations (a ++ b) = finalizations a + finalizations b ∧
    didStopCalls (a ++ b) = didStopCalls a + didStopCalls b := by
  simp [finalizations, didStopCalls, List.countP_append, List.count_append]

theorem counts_of_ticks (evs : List Event) (h : ∀ e ∈ evs, Event.isTick e = true) :
    finalizations evs = 0 ∧ didStopCalls evs = 0 := by
  constructor
  · simp only [finalizations, List.countP_eq_zero]
    intro e he
    have := h e he
    cases e <;> simp_all [Event.isTick, Event.isClearInterval]
  · simp only [didStopCalls, List.count_eq_zero]
    intro hmem
    have := h _ hmem
    simp [Event.isTick] at this

theorem cycleBody_counts {M : Type} (d : Devices M) (w : World M) :
    ∃ evs, (cycleBody d w).1.trace = w.trace ++ evs ∧
      finalizations evs = 0 ∧ didStopCalls evs = 0 := by
  obtain ⟨pre, ht, hpre, _, _⟩ := cycleBody_shape d w
  refine ⟨pre, ht, counts_of_ticks pre ?_⟩
  intro e he
  have hmem : e ∈ cycleTrace (incrementCycle w.cycle) := hpre.subset he
  simp only [cycleTrace, List.mem_cons, List.mem_singleton, List.not_mem_nil, or_false] at hmem
  rcases hmem with h | h | h | h | h <;> rw [h] <;> rfl

theorem cleanUpOnBreak_counts {M : Type} (h : Hooks) (w : World M)
    (hd : ∀ x, h.didStop ≠ some (HookResult.throws x)) :
    (cleanUpOnBreak h w).2 = none ∧
    ∃ evs, (cleanUpOnBreak h w).1.trace = w.trace ++ evs ∧
      finalizations evs = 1 ∧ didStopCalls evs = (if h.didStop = none then 0 else 1) := by
  refine ⟨(cleanUpOnBreak_ok h w hd).1, ?_⟩
  rcases hh : h.didStop with _ | _ | x
  · rcases hp : w.resolveBreakPromise with _ | r
    · refine ⟨[Event.clearInterval w.timer], ?_, rfl, rfl⟩
      simp [cleanUpOnBreak, andThen, callHook, hh, resolveBreak, hp, clearInterval]
    · refine ⟨[Event.clearInterval w.timer, Event.resolve r], ?_, rfl, rfl⟩
      simp [cleanUpOnBreak, andThen, callHook, hh, resolveBreak, hp, clearInterval]
  · rcases hp : w.resolveBreakPromise with _ | r
    · refine ⟨[Event.clearInterval w.timer, Event.didStop], ?_, rfl, rfl⟩
      simp [cleanUpOnBreak, andThen, callHook, hh, resolveBreak, hp, clearInterval, World.emit]
    · refine ⟨[Event.clearInterval w.timer, Event.didStop, Event.resolve r], ?_, rfl, rfl⟩
      simp [cleanUpOnBreak, andThen, callHook, hh, resolveBreak, hp, clearInterval, World.emit]
  · exact absurd hh (hd x)

theorem waypoint_counts {M : Type} (h : Hooks) (now : ℚ) (w : World M)
    (hu : ∀ x, h.updateFps ≠ some (HookResult.throws x)) :
    (waypoint h now w).2 = none ∧
    ∃ evs, (waypoint h now w).1.trace = w.trace ++ evs ∧
      finalizations evs = 0 ∧ didStopCalls evs = 0 := by
  unfold waypoint
  simp only
  split
  · rcases hh : h.updateFps with _ | _ | x
    · exact ⟨by simp [andThen, callHook], [], by simp [andThen, callHook], rfl, rfl⟩
    · exact ⟨by simp [andThen, callHook],
        [Event.updateFps (fpsSample now w.timeAtWaypoint)],
        by simp [andThen, callHook, World.emit], rfl, rfl⟩
    · exact absurd hh (hu x)
  · exact ⟨rfl, [], by simp, rfl, rfl⟩

theorem forLoop_frameStop {M : Type} (d : Devices M) (h : Hooks) (p : Profile M) (n : Nat)
    (w : World M) : (forLoop d h p n w).1.frameStop = w.frameStop := by
  induction n generalizing w with
  | zero => rfl
  | succ n ih =>
    have hac : (afterCycle d w).frameStop = w.frameStop := by rw [afterCycle_sameFields]
    have hb : cycleBody d w = (afterCycle d w, (cycleBody d w).2) := rfl
    rw [forLoop, hb]
    rcases (cycleBody d w).2 with _ | e
    · simp only []
      rcases stopCondition p (afterCycle d w) with e | _ | _
      · exact hac
      · simp only []; rw [ih]; exact hac
      · have hsm := sameMachine_cleanUpOnBreak h (afterCycle d w)
        simp only []
        rcases hc : cleanUpOnBreak h (afterCycle d w) with ⟨w2, _ | e⟩ <;>
          (rw [hc] at hsm; simp only []; exact hsm.frameStop.trans hac)
    · exact hac

theorem forLoop_counts {M : Type} (d : Devices M) (h : Hooks) (p : Profile M) (n : Nat)
    (w : World M) (hd : ∀ x, h.didStop ≠ some (HookResult.throws x)) :
    ∃ evs, (forLoop d h p n w).1.trace = w.trace ++ evs ∧
      finalizations evs = (if (forLoop d h p n w).2 = LoopExit.broke then 1 else 0) ∧
      didStopCalls evs =
        (if h.didStop = none then 0
          else if (forLoop d h p n w).2 = LoopExit.broke then 1 else 0) := by
  induction n generalizing w with
  | zero => exact ⟨[], by simp [forLoop], by simp [forLoop, finalizations],
      by simp [forLoop, didStopCalls]⟩
  | succ n ih =>
    obtain ⟨ev0, ht0, hf0, hs0⟩ := cycleBody_counts d w
    have ht0' : (afterCycle d w).trace = w.trace ++ ev0 := ht0
    cases hb : (cycleBody d w).2 with
    | some e =>
      have hcb : cycleBody d w = (afterCycle d w, some e) := by rw [← hb]; rfl
      have hl : forLoop d h p (n + 1) w = (afterCycle d w, LoopExit.threw e) := by
        simp only [forLoop, hcb]
      rw [hl]
      exact ⟨ev0, ht0', by simpa using hf0, by simpa using hs0⟩
    | none =>
      have hcb : cycleBody d w = (afterCycle d w, none) := by rw [← hb]; rfl
      cases hs : stopCondition p (afterCycle d w) with
      | error e =>
        have hl : forLoop d h p (n + 1) w = (afterCycle d w, LoopExit.threw e) := by
          simp only [forLoop, hcb, hs]
        rw [hl]
        exact ⟨ev0, ht0', by simpa using hf0, by simpa using hs0⟩
      | ok b =>
        cases b with
        | false =>
          have hl : forLoop d h p (n + 1) w = forLoop d h p n (afterCycle d w) := by
            simp only [forLoop, hcb, hs]
          rw [hl]
          obtain ⟨ev1, ht1, hf1, hs1⟩ := ih (afterCycle d w)
          refine ⟨ev0 ++ ev1, by rw [ht1, ht0', List.append_assoc], ?_, ?_⟩
          · rw [(counts_append ev0 ev1).1, hf0, hf1]; simp
          · rw [(counts_append ev0 ev1).2, hs0, hs1]; simp
        | true =>
          obtain ⟨hno, ev1, ht1, hf1, hs1⟩ := cleanUpOnBreak_counts h (afterCycle d w) hd
          have hl : forLoop d h p (n + 1) w =
              ((cleanUpOnBreak h (afterCycle d w)).1, LoopExit.broke) := by
            simp only [forLoop, hcb, hs]
            rcases hc : cleanUpOnBreak h (afterCycle d w) with ⟨w2, _ | e⟩
            · rfl
            · rw [hc] at hno; cases hno
          rw [hl]
          refine ⟨ev0 ++ ev1, by rw [ht1, ht0', List.append_assoc], ?_, ?_⟩
          · rw [(counts_append ev0 ev1).1, hf0, hf1]; simp
          · rw [(counts_append ev0 ev1).2, hs0, hs1]; simp

/-- The runs of `cleanUpOnBreak` and the calls of `didStop` in one frame tick
whose hooks do not throw. -/
theorem frameTick_counts {M : Type} (d : Devices M) (h : Hooks) (p : Profile M) (now : ℚ)
    (w : World M) (hd : ∀ x, h.didStop ≠ some (HookResult.throws x))
    (hu : ∀ x, h.updateFps ≠ some (HookResult.throws x)) :
    ∃ evs, (frameTick d h p now w).1.trace = w.trace ++ evs ∧
      finalizations evs =
        expectedFinalizations (forLoop d h p CYCLES_PER_FRAME w).2 w.frameStop ∧
      didStopCalls evs =
        (if h.didStop = none then 0
          else expectedFinalizations (forLoop d h p CYCLES_PER_FRAME w).2 w.frameStop) := by
  obtain ⟨evL, htL, hfL, hsL⟩ := forLoop_counts d h p CYCLES_PER_FRAME w hd
  have hfs := forLoop_frameStop d h p CYCLES_PER_FRAME w
  have tail : ∀ w1 : World M, w1.frameStop = w.frameStop →
      ∃ evs, (match andThen (waypoint h now w1) (frameStopCheck h) with
          | (w2, none) => (w2, none)
          | (w2, some e) => cleanUpOnBreak h (w2.emit (Event.consoleError e))).1.trace =
          w1.trace ++ evs ∧
        finalizations evs = (if w.frameStop then 1 else 0) ∧
        didStopCalls evs = (if h.didStop = none then 0 else if w.frameStop then 1 else 0) := by
    intro w1 hf1
    obtain ⟨hwno, evW, htW, hfW, hsW⟩ := waypoint_counts h now w1 hu
    have hwf : (waypoint h now w1).1.frameStop = w.frameStop :=
      (sameMachine_waypoint h now w1).frameStop.trans hf1
    simp only [andThen, hwno, frameStopCheck, hwf]
    cases hfr : w.frameStop with
    | false =>
      simp only [Bool.false_eq_true, if_false]
      exact ⟨evW, htW, hfW, by simpa using hsW⟩
    | true =>
      simp only [if_true]
      obtain ⟨hno, evC, htC, hfC, hsC⟩ := cleanUpOnBreak_counts h (waypoint h now w1).1 hd
      rcases hc : cleanUpOnBreak h (waypoint h now w1).1 with ⟨w3, _ | e⟩
      · rw [hc] at htC
        simp only at htC ⊢
        refine ⟨evW ++ evC, by rw [htC, htW, List.append_assoc], ?_, ?_⟩
        · rw [(counts_append evW evC).1, hfW, hfC]
        · rw [(counts_append evW evC).2, hsW, hsC]; simp
      · rw [hc] at hno; cases hno
  unfold frameTick tryBlock
  rcases hl : forLoop d h p CYCLES_PER_FRAME w with ⟨w1, _ | _ | e⟩
  · rw [hl] at htL hfL hsL hfs
    simp only at htL hfL hsL hfs
    obtain ⟨evT, htT, hfT, hsT⟩ := tail w1 hfs
    simp only []
    refine ⟨evL ++ evT, htT.trans (by rw [htL, List.append_assoc]), ?_, ?_⟩
    · rw [(counts_append evL evT).1, hfL, hfT]
      simp [expectedFinalizations]
    · rw [(counts_append evL evT).2, hsL, hsT]
      by_cases hn : h.didStop = none <;> simp [hn, expectedFinalizations]
  · rw [hl] at htL hfL hsL hfs
    simp only at htL hfL hsL hfs
    obtain ⟨evT, htT, hfT, hsT⟩ := tail w1 hfs
    simp only []
    refine ⟨evL ++ evT, htT.trans (by rw [htL, List.append_assoc]), ?_, ?_⟩
    · rw [(counts_append evL evT).1, hfL, hfT]
      cases w.frameStop <;> simp [expectedFinalizations]
    · rw [(counts_append evL evT).2, hsL, hsT]
      by_cases hn : h.didStop = none <;> cases w.frameStop <;>
        simp [hn, expectedFinalizations]
  · rw [hl] at htL hfL hsL
    simp only at htL hfL hsL
    obtain ⟨_, evC, htC, hfC, hsC⟩ :=
      cleanUpOnBreak_counts h (w1.emit (Event.consoleError e)) hd
    simp only []
    refine ⟨evL ++ ([Event.consoleError e] ++ evC), ?_, ?_, ?_⟩
    · rw [htC]
      simp only [World.emit]
      rw [htL]
      simp
    · rw [(counts_append _ _).1, (counts_append _ _).1, hfL, hfC]
      simp [expectedFinalizations, finalizations, Event.isClearInterval]
    · rw [(counts_append _ _).2, (counts_append _ _).2, hsL, hsC]
      by_cases hn : h.didStop = none <;> simp [hn, expectedFinalizations, didStopCalls]

theorem forLoop_exit_of_stop {M : Type} (d : Devices M) (h : Hooks) (p : Profile M)
    (w : World M) (hb : (cycleBody d w).2 = none) (hs : w.masterStop = true)
    (hd : ∀ x, h.didStop ≠ some (HookResult.throws x)) :
    (forLoop d h p CYCLES_PER_FRAME w).2 = LoopExit.broke := by
  have hms : (afterCycles d (0 + 1) w).masterStop = true := by
    show (afterCycle d w).masterStop = true
    rw [afterCycle_masterStop]; exact hs
  have hsc : stopCondition p (afterCycles d (0 + 1) w) = Except.ok true := by
    simp only [stopCondition, hms, if_true]
  have hl := forLoop_fires d h p CYCLES_PER_FRAME 0 w (by simp [CYCLES_PER_FRAME])
    (fun j hj => absurd hj (by omega)) hb hsc
  rw [hl, (cleanUpOnBreak_ok h _ hd).1]

/-- C20, as stated, fails: in the frame tick that follows `stop()` and
`stopAfterFrame()`, with hooks that do not throw, `cleanUpOnBreak` runs twice
(at the `break` and again for the frame-stop flag) and the `didStop` hook is
called twice. -/
theorem finalization_runs_twice :
    finalizations (frameTick flatBus stopHooks (defaultProfile (Nat → Nat)) 20
      (stopAfterFrame (stop
        (runningWorld (fun _ => 0) (defaultProfile (Nat → Nat)) 7)))).1.trace = 2 ∧
    didStopCalls (frameTick flatBus stopHooks (defaultProfile (Nat → Nat)) 20
      (stopAfterFrame (stop
        (runningWorld (fun _ => 0) (defaultProfile (Nat → Nat)) 7)))).1.trace = 2 := by
  have hd : ∀ x, stopHooks.didStop ≠ some (HookResult.throws x) := by
    intro x; simp [stopHooks]
  have hu : ∀ x, stopHooks.updateFps ≠ some (HookResult.throws x) := by
    intro x; simp [stopHooks]
  obtain ⟨evs, ht, hf, hs⟩ := frameTick_counts flatBus stopHooks
    (defaultProfile (Nat → Nat)) 20
    (stopAfterFrame (stop (runningWorld (fun _ => 0) (defaultProfile (Nat → Nat)) 7))) hd hu
  have hexit := forLoop_exit_of_stop flatBus stopHooks (defaultProfile (Nat → Nat))
    (stopAfterFrame (stop (runningWorld (fun _ => 0) (defaultProfile (Nat → Nat)) 7)))
    rfl rfl hd
  rw [hexit] at hf hs
  have ht2 : (frameTick flatBus stopHooks (defaultProfile (Nat → Nat)) 20
      (stopAfterFrame (stop
        (runningWorld (fun _ => 0) (defaultProfile (Nat → Nat)) 7)))).1.trace = evs := by
    rw [ht]; rfl
  rw [ht2]
  exact ⟨hf, hs⟩

/-- C20, amended: in a frame tick in which neither the `didStop` nor the
`updateFps` hook throws, `cleanUpOnBreak` runs once for each of the reasons to
finalize that occur: the loop ends at `break`, the frame-stop flag is set
after a loop that did not throw, an exception is caught. That is at most
twice, and twice exactly when the loop ends at `break` while the frame-stop
flag is set; the `didStop` hook, if present, is called once in each run. -/
theorem finalization_count {M : Type} (d : Devices M) (h : Hooks) (p : Profile M) (now : ℚ)
    (w : World M) (hd : ∀ x, h.didStop ≠ some (HookResult.throws x))
    (hu : ∀ x, h.updateFps ≠ some (HookResult.throws x)) :
    ∃ evs, (frameTick d h p now w).1.trace = w.trace ++ evs ∧
      finalizations evs =
        expectedFinalizations (forLoop d h p CYCLES_PER_FRAME w).2 w.frameStop ∧
      finalizations evs ≤ 2 ∧
      (finalizations evs = 2 ↔
        (forLoop d h p CYCLES_PER_FRAME w).2 = LoopExit.broke ∧ w.frameStop = true) ∧
      (finalizations evs = 0 ↔
        (forLoop d h p CYCLES_PER_FRAME w).2 = LoopExit.completed ∧ w.frameStop = false) ∧
      didStopCalls evs = (if h.didStop = none then 0 else finalizations evs) ∧
      didStopCalls evs ≤ 2 := by
  obtain ⟨evs, ht, hf, hs⟩ := frameTick_counts d h p now w hd hu
  refine ⟨evs, ht, hf, ?_, ?_, ?_, ?_, ?_⟩
  · rw [hf]
    rcases (forLoop d h p CYCLES_PER_FRAME w).2 with _ | _ | e <;> cases w.frameStop <;>
      simp [expectedFinalizations]
  · rw [hf]
    rcases (forLoop d h p CYCLES_PER_FRAME w).2 with _ | _ | e <;> cases w.frameStop <;>
      simp [expectedFinalizations]
  · rw [hf]
    rcases (forLoop d h p CYCLES_PER_FRAME w).2 with _ | _ | e <;> cases w.frameStop <;>
      simp [expectedFinalizations]
  · rw [hs, hf]
  · rw [hs]
    by_cases hn : h.didStop = none
    · simp [hn]
    · simp only [hn, if_false]
      rcases (forLoop d h p CYCLES_PER_FRAME w).2 with _ | _ | e <;> cases w.frameStop <;>
        simp [expectedFinalizations]

/-- C20, instance: the quiet frame tick that follows `stopAfterFrame()` alone
runs `cleanUpOnBreak` once and calls `didStop` once. -/
theorem finalization_count_witness :
    (∀ x, stopHooks.didStop ≠ some (HookResult.throws x)) ∧
    (∀ x, stopHooks.updateFps ≠ some (HookResult.throws x)) ∧
    ∃ evs, (frameTick flatBus stopHooks (defaultProfile (Nat → Nat)) 20
        (stopAfterFrame (runningWorld (fun _ => 0) (defaultProfile (Nat → Nat)) 7))).1.trace =
        (stopAfterFrame (runningWorld (fun _ => 0) (defaultProfile (Nat → Nat)) 7)).trace ++
          evs ∧
      finalizations evs = 1 ∧ didStopCalls evs = 1 := by
  have hd : ∀ x, stopHooks.didStop ≠ some (HookResult.throws x) := by
    intro x; simp [stopHooks]
  have hu : ∀ x, stopHooks.updateFps ≠ some (HookResult.throws x) := by
    intro x; simp [stopHooks]
  have hq : QuietCycles flatBus (defaultProfile (Nat → Nat)) CYCLES_PER_FRAME
      (stopAfterFrame (runningWorld (fun _ => 0) (defaultProfile (Nat → Nat)) 7)) :=
    quietCycles_of_neverThrows flatBus _ flatBus_neverThrows (fun _ _ => rfl) _ _ rfl
  have hexit := congrArg Prod.snd (forLoop_quiet flatBus stopHooks _ CYCLES_PER_FRAME _ hq)
  obtain ⟨evs, ht, hf, _, _, _, hs, _⟩ := finalization_count flatBus stopHooks
    (defaultProfile (Nat → Nat)) 20
    (stopAfterFrame (runningWorld (fun _ => 0) (defaultProfile (Nat → Nat)) 7)) hd hu
  rw [hexit] at hf
  refine ⟨hd, hu, evs, ht, hf, ?_⟩
  rw [hs, hf]
  rfl

/-! ## The timer invariant holds in every reachable world -/

theorem timerInvariant_of_fields {M : Type} (w w1 : World M)
    (hi : w1.intervals = w.intervals) (ht : w1.timer = w.timer)
    (hl : w1.lastProfile = w.lastProfile) (hn : w1.nextId = w.nextId)
    (hinv : TimerInvariant w) : TimerInvariant w1 := by
  unfold TimerInvariant
  rw [hi, ht, hl, hn]
  exact hinv

theorem timerInvariant_callHook {M : Type} (hook : Option HookResult) (e : Event)
    (w : World M) (hinv : TimerInvariant w) : TimerInvariant (callHook hook e w).1 := by
  rcases hook with _ | _ | x
  · exact hinv
  · exact timerInvariant_of_fields w _ rfl rfl rfl rfl hinv
  · exact timerInvariant_of_fields w _ rfl rfl rfl rfl hinv

theorem timerInvariant_cleanUpOnBreak {M : Type} (h : Hooks) (w : World M)
    (hinv : TimerInvariant w) : TimerInvariant (cleanUpOnBreak h w).1 := by
  have hnil := clearInterval_timer_nil w hinv
  simp only [cleanUpOnBreak, andThen, callHook]
  rcases h.didStop with _ | _ | x
  · simp only []
    refine ⟨fun i hi => ?_, fun t ht => ?_⟩
    · have : i ∈ (clearInterval w.timer w).intervals := by
        unfold resolveBreak at hi
        split at hi <;> exact hi
      rw [hnil] at this
      cases this
    · unfold resolveBreak at ht
      split at ht <;> cases ht
  · simp only []
    refine ⟨fun i hi => ?_, fun t ht => ?_⟩
    · have : i ∈ (clearInterval w.timer w).intervals := by
        unfold resolveBreak at hi
        split at hi <;> exact hi
      rw [hnil] at this
      cases this
    · unfold resolveBreak at ht
      split at ht <;> cases ht
  · simp only []
    refine ⟨fun i hi => ?_, fun t ht => hinv.2 t ht⟩
    have : i ∈ (clearInterval w.timer w).intervals := hi
    rw [hnil] at this
    cases this

theorem timerInvariant_afterCycle {M : Type} (d : Devices M) (w : World M)
    (hinv : TimerInvariant w) : TimerInvariant (afterCycle d w) := by
  rw [afterCycle_sameFields]
  exact timerInvariant_of_fields w _ rfl rfl rfl rfl hinv

theorem timerInvariant_forLoop {M : Type} (d : Devices M) (h : Hooks) (p : Profile M)
    (n : Nat) (w : World M) (hinv : TimerInvariant w) :
    TimerInvariant (forLoop d h p n w).1 := by
  induction n generalizing w with
  | zero => exact hinv
  | succ n ih =>
    have hac := timerInvariant_afterCycle d w hinv
    have hb : cycleBody d w = (afterCycle d w, (cycleBody d w).2) := rfl
    rw [forLoop, hb]
    rcases (cycleBody d w).2 with _ | e
    · simp only []
      rcases stopCondition p (afterCycle d w) with e | _ | _
      · exact hac
      · exact ih _ hac
      · have hcl := timerInvariant_cleanUpOnBreak h (afterCycle d w) hac
        simp only []
        rcases hc : cleanUpOnBreak h (afterCycle d w) with ⟨w2, _ | e⟩ <;>
          (rw [hc] at hcl; exact hcl)
    · exact hac

theorem timerInvariant_waypoint {M : Type} (h : Hooks) (now : ℚ) (w : World M)
    (hinv : TimerInvariant w) : TimerInvariant (waypoint h now w).1 := by
  unfold waypoint
  simp only
  split
  · simp only [andThen, callHook]
    rcases h.updateFps with _ | _ | x <;>
      exact timerInvariant_of_fields w _ rfl rfl rfl rfl hinv
  · exact timerInvariant_of_fields w _ rfl rfl rfl rfl hinv

theorem timerInvariant_frameTick {M : Type} (d : Devices M) (h : Hooks) (p : Profile M)
    (now : ℚ) (w : World M) (hinv : TimerInvariant w) :
    TimerInvariant (frameTick d h p now w).1 := by
  have tail : ∀ w1 : World M, TimerInvariant w1 → TimerInvariant
      (match andThen (waypoint h now w1) (frameStopCheck h) with
        | (w2, none) => (w2, none)
        | (w2, some e) => cleanUpOnBreak h (w2.emit (Event.consoleError e))).1 := by
    intro w1 h1
    have hw := timerInvariant_waypoint h now w1 h1
    unfold andThen
    rcases (waypoint h now w1).2 with _ | e
    · simp only []
      unfold frameStopCheck
      by_cases hf : (waypoint h now w1).1.frameStop = true
      · simp only [hf, if_true]
        have hcl := timerInvariant_cleanUpOnBreak h _ hw
        rcases hc : cleanUpOnBreak h (waypoint h now w1).1 with ⟨w3, _ | e⟩
        · rw [hc] at hcl; exact hcl
        · rw [hc] at hcl
          exact timerInvariant_cleanUpOnBreak h _
            (timerInvariant_of_fields w3 _ rfl rfl rfl rfl hcl)
      · simp only [hf]
        exact hw
    · exact timerInvariant_cleanUpOnBreak h _
        (timerInvariant_of_fields _ _ rfl rfl rfl rfl hw)
  have hl := timerInvariant_forLoop d h p CYCLES_PER_FRAME w hinv
  unfold frameTick tryBlock
  rcases hlr : forLoop d h p CYCLES_PER_FRAME w with ⟨w1, _ | _ | e⟩
  · rw [hlr] at hl; exact tail w1 hl
  · rw [hlr] at hl; exact tail w1 hl
  · rw [hlr] at hl
    exact timerInvariant_cleanUpOnBreak h _
      (timerInvariant_of_fields w1 _ rfl rfl rfl rfl hl)

theorem timerInvariant_run {M : Type} (h : Hooks) (now : ℚ) (arg : ProfileArg M)
    (w : World M) (hinv : TimerInvariant w) : TimerInvariant (run h now arg w).1 := by
  obtain ⟨tr, hw⟩ := run_world h now arg w hinv
  rw [hw]
  refine ⟨fun i hi => ?_, fun t ht => ?_⟩
  · simp only [List.mem_singleton] at hi
    subst hi
    exact ⟨rfl, rfl⟩
  · simp only [Option.some.injEq] at ht
    subst ht
    simp

theorem timerInvariant_setSpeed {M : Type} (m : ℚ) (w : World M) (hinv : TimerInvariant w) :
    TimerInvariant (setSpeed m w) := by
  rcases ht : w.timer with _ | t
  · have : setSpeed m w = { w with speedMultiplier := m } := by simp [setSpeed, ht]
    rw [this]
    exact timerInvariant_of_fields w _ rfl rfl rfl rfl hinv
  · rcases hl : w.lastProfile with _ | p
    · have : setSpeed m w = { w with speedMultiplier := m } := by simp [setSpeed, ht, hl]
      rw [this]
      exact timerInvariant_of_fields w _ rfl rfl rfl rfl hinv
    · have hi : ∀ a ∈ w.intervals, a.id = t := by
        intro a ha
        have := (hinv.1 a ha).1
        rw [ht] at this
        exact Option.some.inj this
      have hint : (setSpeed m w).intervals =
          [{ id := w.nextId, profile := p, delay := pacingDelay p.fps m }] := by
        simp [setSpeed, startTimer, clearInterval, ht, hl]
        exact hi
      have htim : (setSpeed m w).timer = some w.nextId := by
        simp [setSpeed, startTimer, clearInterval, ht, hl]
      have hnext : (setSpeed m w).nextId = w.nextId + 1 := by
        simp [setSpeed, startTimer, clearInterval, ht, hl]
      have hlp : (setSpeed m w).lastProfile = some p := by
        simp [setSpeed, startTimer, clearInterval, ht, hl]
      refine ⟨fun i hi0 => ?_, fun t0 ht0 => ?_⟩
      · rw [hint] at hi0
        simp only [List.mem_singleton] at hi0
        subst hi0
        rw [htim, hlp]
        exact ⟨rfl, rfl⟩
      · rw [htim] at ht0
        simp only [Option.some.injEq] at ht0
        subst ht0
        rw [hnext]
        omega

/-- The timer invariant holds in every reachable world. -/
theorem timerInvariant_of_reachable {M : Type} (d : Devices M) (h : Hooks) (w : World M)
    (hr : Reachable d h w) : TimerInvariant w := by
  induction hr with
  | initial m => exact timerInvariant_initial m
  | run w now arg _ ih => exact timerInvariant_run h now arg w ih
  | setSpeed w m _ ih => exact timerInvariant_setSpeed m w ih
  | stop w _ ih => exact timerInvariant_of_fields w _ rfl rfl rfl rfl ih
  | stopAfterFrame w _ ih => exact timerInvariant_of_fields w _ rfl rfl rfl rfl ih
  | frameTick w i now _ _ ih => exact timerInvariant_frameTick d h i.profile now w ih
  | untilPc w now regsPc pc fast _ ih =>
    cases pc with
    | none => exact timerInvariant_of_fields w _ rfl rfl rfl rfl ih
    | some target =>
      have hrun := timerInvariant_run h now
        { tick := some (fun m _ => Except.ok (decide (regsPc m ≠ target))), fps := none } w ih
      simp only [untilPc]
      rcases hres : run h now
        { tick := some (fun m _ => Except.ok (decide (regsPc m ≠ target))), fps := none } w
        with ⟨w1, e | pr⟩ <;> (rw [hres] at hrun; exact hrun)
  | untilPcResume w now regsPc target fast _ ih =>
    exact timerInvariant_run h now _ w ih
  | reset w _ ih =>
    unfold reset
    exact timerInvariant_callHook _ _ _ (timerInvariant_of_fields w _ rfl rfl rfl rfl ih)
  | deserialize J json w r _ hd ih =>
    have hs := deserialize_sched J d json w r hd
    rw [hs]
    exact timerInvariant_of_fields w _ rfl rfl rfl rfl ih
  | devices w m _ ih => exact timerInvariant_of_fields w _ rfl rfl rfl rfl ih

end Runloop
